import Mathlib

/-! Cover-fit mapping, perspective transform and countdown target of `app.js`.

A shallow embedding of the geometry functions of `src/app.js`
(`getCoverTransform`, `imgPxToScreenPx`, `imgPolyToScreen`,
`computeCssHomography`, `solveHomography`, `solveLinearSystem`), of the
countdown target `computeNextSingaporeMidnightMs`, of the countdown display
`updateSingaporeTime` and of the phase change of `orchestrate`.

JavaScript numbers are embedded twice.  The functions under the names of the
source work on exact rationals (`ℚ`): rounding, overflow and the non-finite
values `NaN` and `±Infinity` are outside that model, which carries the
statements about the expressions the code computes, the branches it takes and
the divisors it uses (in exact arithmetic a non-finite value can only arise
from a division by zero, so the theorems that are about finiteness establish
that the divisors are non-zero).  The functions with the suffix `F64` round the
result of every arithmetic operation to the nearest double (`fl`): they carry
the statements whose truth depends on the rounding, which are the covering of
the viewport, the solution of the linear system and the corner correspondence
of the homography.  Arrays are lists; an array read `M[r][c]` is `ent M r c`.

Times are integers, in milliseconds since the epoch.  The built-ins that
`computeNextSingaporeMidnightMs` calls (`Intl.DateTimeFormat`, `Date.UTC`) follow
the date algorithms of ECMAScript; the offset of the zone Asia/Singapore, which
comes from the time-zone data of the platform, is the table
`asiaSingaporeOffsetMs`.  The global
`phase` is passed to the functions that read or assign it and returned by them.
-/

namespace AppJs

/-! ## Section 8 of the source: background image to screen mapping -/

/-- A point `{ x, y }`. -/
structure Point where
  x : ℚ
  y : ℚ
  deriving DecidableEq

/-- The object `{ s, offsetX, offsetY }` returned by `getCoverTransform`. -/
structure CoverTransform where
  s : ℚ
  offsetX : ℚ
  offsetY : ℚ
  deriving DecidableEq

/-- `getCoverTransform(imgEl)`.  The four numbers the function reads from the
environment are parameters: `cw = window.innerWidth`, `ch = window.innerHeight`,
`iw = imgEl.naturalWidth`, `ih = imgEl.naturalHeight`.  `!iw || !ih` holds of a
number exactly when it is zero; `none` is the `null` result. -/
def getCoverTransform (cw ch iw ih : ℚ) : Option CoverTransform :=
  if iw = 0 ∨ ih = 0 then none
  else
    let s := max (cw / iw) (ch / ih)
    let dw := iw * s
    let dh := ih * s
    let offsetX := (cw - dw) / 2
    let offsetY := (ch - dh) / 2
    some { s := s, offsetX := offsetX, offsetY := offsetY }

/-- `imgPxToScreenPx(pt, T)`. -/
def imgPxToScreenPx (pt : Point) (T : CoverTransform) : Point :=
  { x := T.offsetX + pt.x * T.s, y := T.offsetY + pt.y * T.s }

/-- `imgPolyToScreen(poly, T)`: `poly.map(p => imgPxToScreenPx(p, T))`. -/
def imgPolyToScreen (poly : List Point) (T : CoverTransform) : List Point :=
  poly.map (fun p => imgPxToScreenPx p T)

/-! ## Section 9 of the source: homography and its linear system -/

/-- The array read `M[r][c]` of a matrix stored as an array of rows. -/
def ent (M : List (List ℚ)) (r c : ℕ) : ℚ := (M.getD r []).getD c 0

/-- The pivot search of `solveLinearSystem`:
`let pivot = col; for (r = col + 1; r < n; r++)
   if (Math.abs(M[r][col]) > Math.abs(M[pivot][col])) pivot = r;`. -/
def findPivot (M : List (List ℚ)) (n col : ℕ) : ℕ :=
  (List.range' (col + 1) (n - (col + 1))).foldl
    (fun pivot r => if |ent M r col| > |ent M pivot col| then r else pivot) col

/-- The swap `[M[col], M[pivot]] = [M[pivot], M[col]]`: the right-hand side is
read first, then `M[col]` and `M[pivot]` are assigned in that order. -/
def swapRows (M : List (List ℚ)) (col pivot : ℕ) : List (List ℚ) :=
  (M.set col (M.getD pivot [])).set pivot (M.getD col [])

/-- The pivot denominator `M[col][col] || 1e-12`. -/
def pivotDenom (M : List (List ℚ)) (col : ℕ) : ℚ :=
  if ent M col col ≠ 0 then ent M col col else 1e-12

/-- The loop `for (c = col; c < m; c++) M[col][c] /= denom` on the pivot row. -/
def divideRow (row : List ℚ) (col m : ℕ) (denom : ℚ) : List ℚ :=
  (List.range' col (m - col)).foldl
    (fun row c => row.set c (row.getD c 0 / denom)) row

/-- The loop `for (c = col; c < m; c++) M[r][c] -= factor * M[col][c]` on row
`r`, `pivotRow` being row `col`. -/
def subtractRow (row pivotRow : List ℚ) (col m : ℕ) (factor : ℚ) : List ℚ :=
  (List.range' col (m - col)).foldl
    (fun row c => row.set c (row.getD c 0 - factor * pivotRow.getD c 0)) row

/-- The loop `for (r = 0; r < n; r++) { if (r === col) continue; ... }`. -/
def eliminate (M : List (List ℚ)) (n m col : ℕ) : List (List ℚ) :=
  (List.range n).foldl
    (fun M r =>
      if r = col then M
      else
        let factor := ent M r col
        M.set r (subtractRow (M.getD r []) (M.getD col []) col m factor)) M

/-- One iteration of the outer loop of `solveLinearSystem`, at column `col`. -/
def pivotStep (M : List (List ℚ)) (n m col : ℕ) : List (List ℚ) :=
  let pivot := findPivot M n col
  let M := swapRows M col pivot
  let denom := pivotDenom M col
  let M := M.set col (divideRow (M.getD col []) col m denom)
  eliminate M n m col

/-- The outer loop of `solveLinearSystem` run for the columns `0 .. k-1`. -/
def gaussLoop (M : List (List ℚ)) (n m k : ℕ) : List (List ℚ) :=
  (List.range k).foldl (fun M col => pivotStep M n m col) M

/-- The augmented matrix `A.map((row, i) => row.concat([b[i]]))`. -/
def augment (A : List (List ℚ)) (b : List ℚ) : List (List ℚ) :=
  (List.range A.length).map (fun i => A.getD i [] ++ [b.getD i 0])

/-- `solveLinearSystem(A, b)`. -/
def solveLinearSystem (A : List (List ℚ)) (b : List ℚ) : List ℚ :=
  let n := A.length
  let M := augment A b
  let m := (M.getD 0 []).length
  let M := gaussLoop M n m (m - 1)
  (M.map (fun row => row.getD (m - 1) 0)).take 8

/-- The two equations that `solveHomography` pushes for the correspondence
`(x, y) -> (u, v)`. -/
def homographyRows (s d : Point) : List (List ℚ) × List ℚ :=
  ([[s.x, s.y, 1, 0, 0, 0, -d.x * s.x, -d.x * s.y],
    [0, 0, 0, s.x, s.y, 1, -d.y * s.x, -d.y * s.y]],
   [d.x, d.y])

/-- `solveHomography(src, dest)`.  The loop reads `src[k]` and `dest[k]` for
`k = 0..3`; reading `.x` of a missing element throws, which is `none`. -/
def solveHomography (src dest : List Point) : Option (List (List ℚ)) := do
  let s0 ← src[0]?
  let d0 ← dest[0]?
  let s1 ← src[1]?
  let d1 ← dest[1]?
  let s2 ← src[2]?
  let d2 ← dest[2]?
  let s3 ← src[3]?
  let d3 ← dest[3]?
  let A := (homographyRows s0 d0).1 ++ (homographyRows s1 d1).1 ++
    (homographyRows s2 d2).1 ++ (homographyRows s3 d3).1
  let B := (homographyRows s0 d0).2 ++ (homographyRows s1 d1).2 ++
    (homographyRows s2 d2).2 ++ (homographyRows s3 d3).2
  let h := solveLinearSystem A B
  some [[h.getD 0 0, h.getD 1 0, h.getD 2 0],
        [h.getD 3 0, h.getD 4 0, h.getD 5 0],
        [h.getD 6 0, h.getD 7 0, 1]]

/-- `Number(v.toFixed(10))`: the magnitude of `v` is rounded to the nearest
multiple of `10^-10`, the larger one at a tie, and the sign is restored.
(`toFixed` prints a number of magnitude `10^21` or more in full; a double of
that size is an integer, so that case is the same rounding.) -/
def toFixed10 (v : ℚ) : ℚ :=
  if v < 0 then -((⌊(-v) * 10 ^ 10 + 1 / 2⌋ : ℤ) : ℚ) / 10 ^ 10
  else ((⌊v * 10 ^ 10 + 1 / 2⌋ : ℤ) : ℚ) / 10 ^ 10

/-- The result `{ matrix3d, width, height }` of `computeCssHomography`;
`matrix3d` holds the 16 numbers that are joined into the CSS string. -/
structure CssHomography where
  matrix3d : List ℚ
  width : ℚ
  height : ℚ
  deriving DecidableEq

/-- The 16 entries `[a, d, 0, g, b, e, 0, h2, 0, 0, 1, 0, c, f, 0, i]
.map(v => Number(v.toFixed(10)))` built from the solved matrix `H`. -/
def matrix3dEntries (H : List (List ℚ)) : List ℚ :=
  let a := ent H 0 0
  let b := ent H 0 1
  let c := ent H 0 2
  let d := ent H 1 0
  let e := ent H 1 1
  let f := ent H 1 2
  let g := ent H 2 0
  let h2 := ent H 2 1
  let i := ent H 2 2
  [a, d, 0, g, b, e, 0, h2, 0, 0, 1, 0, c, f, 0, i].map toFixed10

/-- `Math.min(...xs)` of a non-empty argument list. -/
def minOf (x : ℚ) (xs : List ℚ) : ℚ := xs.foldl min x

/-- `Math.max(...xs)` of a non-empty argument list. -/
def maxOf (x : ℚ) (xs : List ℚ) : ℚ := xs.foldl max x

/-- `computeCssHomography(dest)`.  With no point at all `solveHomography`
throws on `dest[0].x`, as it does for fewer than four points. -/
def computeCssHomography (dest : List Point) : Option CssHomography :=
  match dest with
  | [] => none
  | p :: ps =>
    let minX := minOf p.x (ps.map (fun q => q.x))
    let minY := minOf p.y (ps.map (fun q => q.y))
    let maxX := maxOf p.x (ps.map (fun q => q.x))
    let maxY := maxOf p.y (ps.map (fun q => q.y))
    let w := max 200 (maxX - minX)
    let h := max 120 (maxY - minY)
    let src : List Point := [⟨0, 0⟩, ⟨w, 0⟩, ⟨w, h⟩, ⟨0, h⟩]
    (solveHomography src dest).map
      (fun H => { matrix3d := matrix3dEntries H, width := w, height := h })

/-! ## Section 5 of the source: the countdown target -/

/-- `msPerDay` of ECMAScript. -/
def msPerDay : ℤ := 86400000

/-- ECMAScript `DayFromYear(y)`: the day number of the first day of year `y`. -/
def dayFromYear (y : ℤ) : ℤ :=
  365 * (y - 1970) + (y - 1969) / 4 - (y - 1901) / 100 + (y - 1601) / 400

/-- ECMAScript `InLeapYear`, as 0 or 1, for the year `y`. -/
def inLeapYear (y : ℤ) : ℤ :=
  if y % 4 ≠ 0 then 0 else if y % 100 ≠ 0 then 1 else if y % 400 ≠ 0 then 0 else 1

/-- ECMAScript `YearFromTime`, on the day number: the largest `y` with
`DayFromYear(y) ≤ day`, from the estimate `1970 + day / 365.2425`, which is
off by at most one. -/
def yearFromDay (day : ℤ) : ℤ :=
  let y0 := 1970 + (400 * day) / 146097
  if dayFromYear (y0 + 1) ≤ day then y0 + 1
  else if day < dayFromYear y0 then y0 - 1
  else y0

/-- The number of days of a year before its month `m` (0 = January), from the
table of ECMAScript `MonthFromTime`. -/
def monthStart (m leap : ℤ) : ℤ :=
  if m = 0 then 0 else if m = 1 then 31 else if m = 2 then 59 + leap
  else if m = 3 then 90 + leap else if m = 4 then 120 + leap
  else if m = 5 then 151 + leap else if m = 6 then 181 + leap
  else if m = 7 then 212 + leap else if m = 8 then 243 + leap
  else if m = 9 then 273 + leap else if m = 10 then 304 + leap
  else 334 + leap

/-- ECMAScript `MonthFromTime`, on the day within the year. -/
def monthFromDayInYear (dayInYear leap : ℤ) : ℤ :=
  if dayInYear < 31 then 0 else if dayInYear < 59 + leap then 1
  else if dayInYear < 90 + leap then 2 else if dayInYear < 120 + leap then 3
  else if dayInYear < 151 + leap then 4 else if dayInYear < 181 + leap then 5
  else if dayInYear < 212 + leap then 6 else if dayInYear < 243 + leap then 7
  else if dayInYear < 273 + leap then 8 else if dayInYear < 304 + leap then 9
  else if dayInYear < 334 + leap then 10 else 11

/-- The offset from UTC, in ms, of the zone Asia/Singapore at the instant `now`,
which `Intl.DateTimeFormat` takes from the time-zone data of the platform; the
table is that of the IANA time-zone database: local mean time +6:55:25 until
June 1905, +7:00 until 1933, +7:20 until September 1941, +7:30 until February
1942, +9:00 until September 1945, +7:30 until 1981-12-31T16:00Z and +8:00
since. -/
def asiaSingaporeOffsetMs (now : ℤ) : ℤ :=
  if now < -2038200925000 then 24925000
  else if now < -1167634800000 then 25200000
  else if now < -894180000000 then 26400000
  else if now < -879665400000 then 27000000
  else if now < -767005200000 then 32400000
  else if now < 378662400000 then 27000000
  else 28800000

/-- The numbers `(y, mo, d)` of the calendar date at `now` in a zone that is
`zoneOffsetMs` ahead of UTC, as `formatToParts` prints them for `year: "numeric"`,
`month: "2-digit"`, `day: "2-digit"` and `Number` reads them back: the year (the
year of the era: `1 - y` for an astronomical year `y <= 0`), the month (1 to
12) and the day of the month. -/
def zoneDateParts (zoneOffsetMs now : ℤ) : ℤ × ℤ × ℤ :=
  let day := (now + zoneOffsetMs) / msPerDay
  let y := yearFromDay day
  let dayInYear := day - dayFromYear y
  let m := monthFromDayInYear dayInYear (inLeapYear y)
  (if y ≤ 0 then 1 - y else y, m + 1, dayInYear - monthStart m (inLeapYear y) + 1)

/-- The numbers `(y, mo, d)` that the source reads from
`Intl.DateTimeFormat("en-CA", { timeZone: "Asia/Singapore", ... }).formatToParts(now)`. -/
def singaporeDateParts (now : ℤ) : ℤ × ℤ × ℤ :=
  zoneDateParts (asiaSingaporeOffsetMs now) now

/-- `Date.UTC(year, month, date, 0, 0, 0)` on integers: a year from 0 to 99 stands
for 1900 to 1999 (`MakeFullYear`), `MakeDay` carries months beyond a year and
counts `date` from the first of the month, and `TimeClip` gives `NaN` (`none`)
beyond 8.64e15 ms. -/
def dateUTC (year month date : ℤ) : Option ℤ :=
  let yr := if 0 ≤ year ∧ year ≤ 99 then 1900 + year else year
  let ym := yr + month / 12
  let mn := month % 12
  let day := dayFromYear ym + monthStart mn (inLeapYear ym) + date - 1
  let tv := day * msPerDay
  if |tv| ≤ 8640000000000000 then some tv else none

/-- `computeNextSingaporeMidnightMs(now)`, `now` in ms since the epoch:
`Date.UTC(y, mo - 1, d + 1, 0, 0, 0) - SG_OFFSET_MIN * 60 * 1000` on the date
parts of `now`; `none` is `NaN`. -/
def computeNextSingaporeMidnightMs (now : ℤ) : Option ℤ :=
  let parts := singaporeDateParts now
  let y := parts.1
  let mo := parts.2.1
  let d := parts.2.2
  let SG_OFFSET_MIN : ℤ := 8 * 60
  (dateUTC y (mo - 1) (d + 1)).map (fun t => t - SG_OFFSET_MIN * 60 * 1000)

/-! ## Sections 5 and 6 of the source: countdown display and orchestration -/

/-- The values of `PHASE`, in the order of the orchestration. -/
inductive Phase where
  | WAITING
  | COUNTDOWN_MUSIC
  | BLACKOUT
  | BELLS
  | DONE
  deriving DecidableEq, Repr

/-- The constant `COUNTDOWN_TRIGGER_SEC`. -/
def COUNTDOWN_TRIGGER_SEC : ℤ := 218

/-- `startCountdownMusicPhase()`: the assignment `phase = PHASE.COUNTDOWN_MUSIC`,
which runs before the first `await` of the function; the audio calls that
follow do not touch `phase`. -/
def startCountdownMusicPhase (_phase : Phase) : Phase := Phase.COUNTDOWN_MUSIC

/-- `startBlackoutPhase()`: the assignment `phase = PHASE.BLACKOUT`; the audio
and DOM calls do not touch `phase`, and `startBellsPhase` is only scheduled, for
`BLACKOUT_WAIT_MS` later. -/
def startBlackoutPhase (_phase : Phase) : Phase := Phase.BLACKOUT

/-- `orchestrate(remainingSec)`, as a function from the global `phase` before
the call to the global `phase` after it. -/
def orchestrate (phase : Phase) (remainingSec : ℤ) : Phase :=
  if phase = Phase.WAITING ∧ remainingSec ≤ COUNTDOWN_TRIGGER_SEC ∧ remainingSec > 0 then
    startCountdownMusicPhase phase
  else if phase = Phase.COUNTDOWN_MUSIC ∧ remainingSec = 0 then
    startBlackoutPhase phase
  else phase

/-- What one call of `updateSingaporeTime()` computes: the locals `totalSec`,
`h`, `m`, `s` and `shouldUpdateUi`, and the global `phase` after the call. -/
structure CountdownTick where
  totalSec : ℤ
  h : ℤ
  m : ℤ
  s : ℤ
  shouldUpdateUi : Bool
  phase : Phase
  deriving DecidableEq, Repr

/-- `updateSingaporeTime()`, with the global `targetTimeMs`, the clock reading
`nowMs = Date.now()` and the global `phase` as arguments.  `Math.floor` of a
quotient is the floor division `/`, and the JavaScript `%` is `Int.tmod`.  The
three numbers are written to the page, padded to two digits, when
`shouldUpdateUi` holds; the call ends with `orchestrate(totalSec)`. -/
def updateSingaporeTime (targetTimeMs nowMs : ℤ) (phase : Phase) : CountdownTick :=
  let diffMs := targetTimeMs - nowMs
  let diffMs := if diffMs < 0 then 0 else diffMs
  let totalSec := diffMs / 1000
  let h := totalSec / 3600
  let m := (Int.tmod totalSec 3600) / 60
  let s := Int.tmod totalSec 60
  let shouldUpdateUi := decide (phase = Phase.WAITING ∨ phase = Phase.COUNTDOWN_MUSIC)
  { totalSec := totalSec, h := h, m := m, s := s, shouldUpdateUi := shouldUpdateUi,
    phase := orchestrate phase totalSec }

/-! ## Sections 8 and 9 of the source in double precision

The functions of sections 8 and 9 once more, every arithmetic operation being
followed by the rounding `fl` to the nearest double. -/

/-- The integer nearest to `x`, the even one at a tie. -/
def roundHalfEven (x : ℚ) : ℤ :=
  if x - ⌊x⌋ < 1 / 2 then ⌊x⌋
  else if 1 / 2 < x - ⌊x⌋ then ⌊x⌋ + 1
  else if ⌊x⌋ % 2 = 0 then ⌊x⌋ else ⌊x⌋ + 1

/-- The number of times `n` can be halved before it falls below 2, counted
with `fuel` steps at most. -/
def halvings : ℕ → ℕ → ℕ
  | 0, _ => 0
  | fuel + 1, n => if n < 2 then 0 else halvings fuel (n / 2) + 1

/-- The integer `k` with `2^k <= n < 2^(k+1)`, for `n >= 1`. -/
def floorLog2 (n : ℕ) : ℕ := halvings n n

/-- The integer `k` with `2^k <= |x| < 2^(k+1)`, for `x` other than zero: the
difference of the logarithms of numerator and denominator, or one less. -/
def binaryExponent (x : ℚ) : ℤ :=
  let e : ℤ := (floorLog2 x.num.natAbs : ℤ) - (floorLog2 x.den : ℤ)
  if (2 : ℚ) ^ e ≤ |x| then e else e - 1

/-- The rounding of IEEE 754 binary64, to nearest and ties to even: for
`2^k <= |x| < 2^(k+1)` the multiple of `2^(k-52)` nearest to `x`.  The exponent
is not bounded here: this is the result of the double operation whenever
`x = 0` or `2^-1022 <= |x| < 2^1024`; smaller and larger results (subnormal
numbers, `Infinity`) are outside the model, and the statements below keep the
operands of every operation between `2^-300` and `2^300` in magnitude. -/
def fl (x : ℚ) : ℚ :=
  if x = 0 then 0
  else roundHalfEven (x / 2 ^ (binaryExponent x - 52)) * 2 ^ (binaryExponent x - 52)

/-- `getCoverTransform(imgEl)` in double precision. -/
def getCoverTransformF64 (cw ch iw ih : ℚ) : Option CoverTransform :=
  if iw = 0 ∨ ih = 0 then none
  else
    let s := max (fl (cw / iw)) (fl (ch / ih))
    let dw := fl (iw * s)
    let dh := fl (ih * s)
    let offsetX := fl (fl (cw - dw) / 2)
    let offsetY := fl (fl (ch - dh) / 2)
    some { s := s, offsetX := offsetX, offsetY := offsetY }

/-- `imgPxToScreenPx(pt, T)` in double precision. -/
def imgPxToScreenPxF64 (pt : Point) (T : CoverTransform) : Point :=
  { x := fl (T.offsetX + fl (pt.x * T.s)), y := fl (T.offsetY + fl (pt.y * T.s)) }

/-- The pivot denominator `M[col][col] || 1e-12`, the literal `1e-12` being the
double nearest to `10^-12`. -/
def pivotDenomF64 (M : List (List ℚ)) (col : ℕ) : ℚ :=
  if ent M col col ≠ 0 then ent M col col else fl 1e-12

/-- The loop `for (c = col; c < m; c++) M[col][c] /= denom` in double
precision. -/
def divideRowF64 (row : List ℚ) (col m : ℕ) (denom : ℚ) : List ℚ :=
  (List.range' col (m - col)).foldl
    (fun row c => row.set c (fl (row.getD c 0 / denom))) row

/-- The loop `for (c = col; c < m; c++) M[r][c] -= factor * M[col][c]` in
double precision: the product is rounded, then the difference. -/
def subtractRowF64 (row pivotRow : List ℚ) (col m : ℕ) (factor : ℚ) : List ℚ :=
  (List.range' col (m - col)).foldl
    (fun row c => row.set c (fl (row.getD c 0 - fl (factor * pivotRow.getD c 0)))) row

/-- The loop `for (r = 0; r < n; r++) { if (r === col) continue; ... }` in
double precision. -/
def eliminateF64 (M : List (List ℚ)) (n m col : ℕ) : List (List ℚ) :=
  (List.range n).foldl
    (fun M r =>
      if r = col then M
      else
        let factor := ent M r col
        M.set r (subtractRowF64 (M.getD r []) (M.getD col []) col m factor)) M

/-- One iteration of the outer loop of `solveLinearSystem` in double
precision, at column `col`. -/
def pivotStepF64 (M : List (List ℚ)) (n m col : ℕ) : List (List ℚ) :=
  let pivot := findPivot M n col
  let M := swapRows M col pivot
  let denom := pivotDenomF64 M col
  let M := M.set col (divideRowF64 (M.getD col []) col m denom)
  eliminateF64 M n m col

/-- The outer loop of `solveLinearSystem` in double precision, run for the
columns `0 .. k-1`. -/
def gaussLoopF64 (M : List (List ℚ)) (n m k : ℕ) : List (List ℚ) :=
  (List.range k).foldl (fun M col => pivotStepF64 M n m col) M

/-- `solveLinearSystem(A, b)` in double precision. -/
def solveLinearSystemF64 (A : List (List ℚ)) (b : List ℚ) : List ℚ :=
  let n := A.length
  let M := augment A b
  let m := (M.getD 0 []).length
  let M := gaussLoopF64 M n m (m - 1)
  (M.map (fun row => row.getD (m - 1) 0)).take 8

/-- The two equations that `solveHomography` pushes for the correspondence
`(x, y) -> (u, v)`, the four products being rounded. -/
def homographyRowsF64 (s d : Point) : List (List ℚ) × List ℚ :=
  ([[s.x, s.y, 1, 0, 0, 0, fl (-d.x * s.x), fl (-d.x * s.y)],
    [0, 0, 0, s.x, s.y, 1, fl (-d.y * s.x), fl (-d.y * s.y)]],
   [d.x, d.y])

/-- `solveHomography(src, dest)` in double precision. -/
def solveHomographyF64 (src dest : List Point) : Option (List (List ℚ)) := do
  let s0 ← src[0]?
  let d0 ← dest[0]?
  let s1 ← src[1]?
  let d1 ← dest[1]?
  let s2 ← src[2]?
  let d2 ← dest[2]?
  let s3 ← src[3]?
  let d3 ← dest[3]?
  let A := (homographyRowsF64 s0 d0).1 ++ (homographyRowsF64 s1 d1).1 ++
    (homographyRowsF64 s2 d2).1 ++ (homographyRowsF64 s3 d3).1
  let B := (homographyRowsF64 s0 d0).2 ++ (homographyRowsF64 s1 d1).2 ++
    (homographyRowsF64 s2 d2).2 ++ (homographyRowsF64 s3 d3).2
  let h := solveLinearSystemF64 A B
  some [[h.getD 0 0, h.getD 1 0, h.getD 2 0],
        [h.getD 3 0, h.getD 4 0, h.getD 5 0],
        [h.getD 6 0, h.getD 7 0, 1]]

/-- The 16 entries of `matrix3d` in double precision: `v.toFixed(10)` is the
decimal rounding of the double `v`, and `Number` reads the string as the
nearest double. -/
def matrix3dEntriesF64 (H : List (List ℚ)) : List ℚ :=
  (matrix3dEntries H).map fl

/-- `computeCssHomography(dest)` in double precision. -/
def computeCssHomographyF64 (dest : List Point) : Option CssHomography :=
  match dest with
  | [] => none
  | p :: ps =>
    let minX := minOf p.x (ps.map (fun q => q.x))
    let minY := minOf p.y (ps.map (fun q => q.y))
    let maxX := maxOf p.x (ps.map (fun q => q.x))
    let maxY := maxOf p.y (ps.map (fun q => q.y))
    let w := max 200 (fl (maxX - minX))
    let h := max 120 (fl (maxY - minY))
    let src : List Point := [⟨0, 0⟩, ⟨w, 0⟩, ⟨w, h⟩, ⟨0, h⟩]
    (solveHomographyF64 src dest).map
      (fun H => { matrix3d := matrix3dEntriesF64 H, width := w, height := h })

/-! ## Predicates and abbreviations used in the statements -/

/-- `n` rows of `m` entries each. -/
def Shape (M : List (List ℚ)) (n m : ℕ) : Prop :=
  M.length = n ∧ ∀ r, r < n → (M.getD r []).length = m

/-- The row `r` of `M` (its first `m` entries) applied to the vector `y`. -/
def rowDot (M : List (List ℚ)) (m r : ℕ) (y : ℕ → ℚ) : ℚ :=
  ∑ c ∈ Finset.range m, ent M r c * y c

/-- Every one of the `n` rows of `M` vanishes on `y`. -/
def Zeros (M : List (List ℚ)) (n m : ℕ) (y : ℕ → ℚ) : Prop :=
  ∀ r, r < n → rowDot M m r y = 0

/-- The rows from `k` on are zero in the columns before `k`. -/
def LowerZero (M : List (List ℚ)) (n k : ℕ) : Prop :=
  ∀ r c, k ≤ r → r < n → c < k → ent M r c = 0

/-- The columns before `k` are those of the identity matrix. -/
def UnitCols (M : List (List ℚ)) (n k : ℕ) : Prop :=
  ∀ r c, r < n → c < k → ent M r c = if r = c then 1 else 0

/-- The coefficient part of the augmented matrix `M` (its first `n` columns)
has a trivial kernel. -/
def Nonsingular (M : List (List ℚ)) (n : ℕ) : Prop :=
  ∀ y : ℕ → ℚ, y n = 0 → Zeros M n (n + 1) y → ∀ c, c < n → y c = 0

/-- The pivot entry `M[col][col]` read at column `col`, after the swap. -/
def pivotEntry (M : List (List ℚ)) (n m col : ℕ) : ℚ :=
  ent (swapRows (gaussLoop M n m col) col (findPivot (gaussLoop M n m col) n col)) col col

/-- The kernel of the square matrix `A` is trivial. -/
def TrivialKernel (A : List (List ℚ)) (n : ℕ) : Prop :=
  ∀ y : ℕ → ℚ, (∀ r, r < n → ∑ c ∈ Finset.range n, ent A r c * y c = 0) →
    ∀ c, c < n → y c = 0

/-- The matrix `A` that `solveHomography` builds for the source rectangle
`[(0,0),(w,0),(w,h),(0,h)]` and the destination `[q0,q1,q2,q3]`. -/
def rectMatrix (w h : ℚ) (q0 q1 q2 q3 : Point) : List (List ℚ) :=
  (homographyRows ⟨0, 0⟩ q0).1 ++ (homographyRows ⟨w, 0⟩ q1).1 ++
    (homographyRows ⟨w, h⟩ q2).1 ++ (homographyRows ⟨0, h⟩ q3).1

/-- The right-hand side `B` that `solveHomography` builds for `[q0,q1,q2,q3]`. -/
def rectRhs (q0 q1 q2 q3 : Point) : List ℚ :=
  [q0.x, q0.y, q1.x, q1.y, q2.x, q2.y, q3.x, q3.y]

/-- Twice the signed area of the triangle `p q r`: zero when they are collinear. -/
def cross (p q r : Point) : ℚ :=
  (q.x - p.x) * (r.y - p.y) - (q.y - p.y) * (r.x - p.x)

/-- The homography `H` sends the point `p` to the point `q`:
`q.x = (a x + b y + c) / (g x + h y + 1)` and `q.y = (d x + e y + f) / (g x + h y + 1)`
for `H = [[a, b, c], [d, e, f], [g, h, 1]]`. -/
def MapsTo (H : List (List ℚ)) (p q : Point) : Prop :=
  q.x = (ent H 0 0 * p.x + ent H 0 1 * p.y + ent H 0 2) /
      (ent H 2 0 * p.x + ent H 2 1 * p.y + 1) ∧
  q.y = (ent H 1 0 * p.x + ent H 1 1 * p.y + ent H 1 2) /
      (ent H 2 0 * p.x + ent H 2 1 * p.y + 1)

/-- The area of the quad `q0 q1 q2 q3` by the shoelace formula. -/
def quadArea (q0 q1 q2 q3 : Point) : ℚ :=
  |(q0.x * q1.y - q1.x * q0.y) + (q1.x * q2.y - q2.x * q1.y) +
    (q2.x * q3.y - q3.x * q2.y) + (q3.x * q0.y - q0.x * q3.y)| / 2

/-- The width that `computeCssHomography` computes for four points. -/
def canonicalWidth (q0 q1 q2 q3 : Point) : ℚ :=
  max 200 (max (max (max q0.x q1.x) q2.x) q3.x - min (min (min q0.x q1.x) q2.x) q3.x)

/-- The height that `computeCssHomography` computes for four points. -/
def canonicalHeight (q0 q1 q2 q3 : Point) : ℚ :=
  max 120 (max (max (max q0.y q1.y) q2.y) q3.y - min (min (min q0.y q1.y) q2.y) q3.y)

/-- The source quad `src` that `computeCssHomography` builds for four points. -/
def canonicalSrc (q0 q1 q2 q3 : Point) : List Point :=
  [⟨0, 0⟩, ⟨canonicalWidth q0 q1 q2 q3, 0⟩,
   ⟨canonicalWidth q0 q1 q2 q3, canonicalHeight q0 q1 q2 q3⟩,
   ⟨0, canonicalHeight q0 q1 q2 q3⟩]

/-- The matrix `A` of the linear system that `computeCssHomography` has solved
for four points. -/
def canonicalMatrix (q0 q1 q2 q3 : Point) : List (List ℚ) :=
  rectMatrix (canonicalWidth q0 q1 q2 q3) (canonicalHeight q0 q1 q2 q3) q0 q1 q2 q3

/-- The position of a phase in the order WAITING, COUNTDOWN_MUSIC, BLACKOUT,
BELLS, DONE. -/
def Phase.rank : Phase → ℕ
  | Phase.WAITING => 0
  | Phase.COUNTDOWN_MUSIC => 1
  | Phase.BLACKOUT => 2
  | Phase.BELLS => 3
  | Phase.DONE => 4

/-- The 8 x 8 array `A` as a matrix: the entry `(i, j)` is `A[i][j]`. -/
def toMatrix (A : List (List ℚ)) : Matrix (Fin 8) (Fin 8) ℚ :=
  Matrix.of (fun i j => ent A i j)

/-- Zero, or of a magnitude between `2^-300` and `2^300`: the product and the
quotient of two such numbers are far from the overflow and underflow
thresholds of a double. -/
@[reducible] def Moderate (x : ℚ) : Prop :=
  x = 0 ∨ (1 / 2 ^ 300 ≤ |x| ∧ |x| ≤ 2 ^ 300)

/-- Every entry of the matrix `M` is `Moderate`. -/
@[reducible] def ModerateEntries (M : List (List ℚ)) : Prop :=
  ∀ row ∈ M, ∀ x ∈ row, Moderate x

/-- The pivot entry `M[col][col]` read at column `col`, after the swap, in the
double precision run. -/
def pivotEntryF64 (M : List (List ℚ)) (n m col : ℕ) : ℚ :=
  ent (swapRows (gaussLoopF64 M n m col) col (findPivot (gaussLoopF64 M n m col) n col))
    col col

/-- The matrix `[[3, 1], [1, t]]`, with `t = 6004799503160661 / 2^54` the double
nearest to `1/3`, extended by the identity to 8 rows and columns. -/
def nearSingularMatrix : List (List ℚ) :=
  [[3, 1, 0, 0, 0, 0, 0, 0],
   [1, 6004799503160661 / 18014398509481984, 0, 0, 0, 0, 0, 0],
   [0, 0, 1, 0, 0, 0, 0, 0], [0, 0, 0, 1, 0, 0, 0, 0],
   [0, 0, 0, 0, 1, 0, 0, 0], [0, 0, 0, 0, 0, 1, 0, 0],
   [0, 0, 0, 0, 0, 0, 1, 0], [0, 0, 0, 0, 0, 0, 0, 1]]

/-- The matrix `A` that `solveHomography` builds in double precision for the
source rectangle `[(0,0),(w,0),(w,h),(0,h)]` and the destination
`[q0,q1,q2,q3]`. -/
def rectMatrixF64 (w h : ℚ) (q0 q1 q2 q3 : Point) : List (List ℚ) :=
  (homographyRowsF64 ⟨0, 0⟩ q0).1 ++ (homographyRowsF64 ⟨w, 0⟩ q1).1 ++
    (homographyRowsF64 ⟨w, h⟩ q2).1 ++ (homographyRowsF64 ⟨0, h⟩ q3).1

/-- The width that `computeCssHomography` computes in double precision for
four points. -/
def canonicalWidthF64 (q0 q1 q2 q3 : Point) : ℚ :=
  max 200 (fl (max (max (max q0.x q1.x) q2.x) q3.x - min (min (min q0.x q1.x) q2.x) q3.x))

/-- The height that `computeCssHomography` computes in double precision for
four points. -/
def canonicalHeightF64 (q0 q1 q2 q3 : Point) : ℚ :=
  max 120 (fl (max (max (max q0.y q1.y) q2.y) q3.y - min (min (min q0.y q1.y) q2.y) q3.y))

/-! ## Cover-fit mapper -/

/-- C1: for positive image sizes and a positive viewport width (whatever the
viewport height) `getCoverTransform` returns a transform with
`s = max(cw/iw, ch/ih)`, `offsetX = (cw - iw*s)/2` and
`offsetY = (ch - ih*s)/2`; for viewport 1000x500 and image 2000x500 it returns
`s = 1`, `offsetX = -500`, `offsetY = 0`. -/
theorem getCoverTransform_formula (cw ch iw ih : ℚ)
    (hcw : 0 < cw) (hiw : 0 < iw) (hih : 0 < ih) :
    (∃ T, getCoverTransform cw ch iw ih = some T ∧
      T.s = max (cw / iw) (ch / ih) ∧
      T.offsetX = (cw - iw * T.s) / 2 ∧
      T.offsetY = (ch - ih * T.s) / 2 ∧ 0 < T.s) ∧
    getCoverTransform 1000 500 2000 500 =
      some { s := 1, offsetX := -500, offsetY := 0 } := by
  refine ⟨⟨⟨max (cw / iw) (ch / ih), (cw - iw * max (cw / iw) (ch / ih)) / 2,
    (ch - ih * max (cw / iw) (ch / ih)) / 2⟩, ?_, rfl, rfl, rfl, ?_⟩, ?_⟩
  · simp [getCoverTransform, hiw.ne', hih.ne']
  · exact lt_max_of_lt_left (div_pos hcw hiw)
  · simp only [getCoverTransform]
    norm_num

theorem getCoverTransform_formula_witness :
    (∃ T, getCoverTransform 1920 1080 4000 3000 = some T ∧
      T.s = max ((1920 : ℚ) / 4000) (1080 / 3000) ∧
      T.offsetX = (1920 - 4000 * T.s) / 2 ∧
      T.offsetY = (1080 - 3000 * T.s) / 2 ∧ 0 < T.s) ∧
    getCoverTransform 1000 500 2000 500 =
      some { s := 1, offsetX := -500, offsetY := 0 } :=
  getCoverTransform_formula 1920 1080 4000 3000 (by norm_num) (by norm_num)
    (by norm_num)

/-- In exact arithmetic, for positive image sizes (and any viewport size), the four image
corners `(0,0), (iw,0), (iw,ih), (0,ih)` mapped by `imgPxToScreenPx` under the
transform of `getCoverTransform` are the corners of a box that covers
`[0,cw] x [0,ch]` (`offsetX <= 0`, `offsetY <= 0`, `offsetX + iw*s >= cw`,
`offsetY + ih*s >= ch`) and has the width or the height of the viewport
(`iw*s = cw` or `ih*s = ch`). -/
theorem cover_corners_cover_viewport (cw ch iw ih : ℚ)
    (hiw : 0 < iw) (hih : 0 < ih) :
    ∃ T, getCoverTransform cw ch iw ih = some T ∧
      imgPxToScreenPx ⟨0, 0⟩ T = ⟨T.offsetX, T.offsetY⟩ ∧
      imgPxToScreenPx ⟨iw, 0⟩ T = ⟨T.offsetX + iw * T.s, T.offsetY⟩ ∧
      imgPxToScreenPx ⟨iw, ih⟩ T = ⟨T.offsetX + iw * T.s, T.offsetY + ih * T.s⟩ ∧
      imgPxToScreenPx ⟨0, ih⟩ T = ⟨T.offsetX, T.offsetY + ih * T.s⟩ ∧
      T.offsetX ≤ 0 ∧ T.offsetY ≤ 0 ∧
      cw ≤ T.offsetX + iw * T.s ∧ ch ≤ T.offsetY + ih * T.s ∧
      (iw * T.s = cw ∨ ih * T.s = ch) := by
  have h1 : cw ≤ iw * max (cw / iw) (ch / ih) := by
    have : cw / iw ≤ max (cw / iw) (ch / ih) := le_max_left _ _
    calc cw = iw * (cw / iw) := by field_simp
      _ ≤ iw * max (cw / iw) (ch / ih) := mul_le_mul_of_nonneg_left this hiw.le
  have h2 : ch ≤ ih * max (cw / iw) (ch / ih) := by
    have : ch / ih ≤ max (cw / iw) (ch / ih) := le_max_right _ _
    calc ch = ih * (ch / ih) := by field_simp
      _ ≤ ih * max (cw / iw) (ch / ih) := mul_le_mul_of_nonneg_left this hih.le
  have h3 : iw * max (cw / iw) (ch / ih) = cw ∨ ih * max (cw / iw) (ch / ih) = ch := by
    rcases max_choice (cw / iw) (ch / ih) with h | h
    · left; rw [h]; field_simp
    · right; rw [h]; field_simp
  refine ⟨⟨max (cw / iw) (ch / ih), (cw - iw * max (cw / iw) (ch / ih)) / 2,
    (ch - ih * max (cw / iw) (ch / ih)) / 2⟩, ?_, ?_, ?_, ?_, ?_, ?_, ?_, ?_, ?_, ?_⟩
  · simp only [getCoverTransform, hiw.ne', hih.ne', or_self, if_false]
  · simp [imgPxToScreenPx]
  · simp [imgPxToScreenPx]
  · simp [imgPxToScreenPx]
  · simp [imgPxToScreenPx]
  · show (cw - iw * max (cw / iw) (ch / ih)) / 2 ≤ 0
    linarith
  · show (ch - ih * max (cw / iw) (ch / ih)) / 2 ≤ 0
    linarith
  · show cw ≤ (cw - iw * max (cw / iw) (ch / ih)) / 2 + iw * max (cw / iw) (ch / ih)
    linarith
  · show ch ≤ (ch - ih * max (cw / iw) (ch / ih)) / 2 + ih * max (cw / iw) (ch / ih)
    linarith
  · exact h3

/-- C3: `getCoverTransform` returns `null` exactly when a natural dimension is
zero; a returned transform is made of the exact quotients by the two natural
dimensions, both non-zero, so no division by zero (the only source of `NaN` or
`Infinity` here) takes place. -/
theorem getCoverTransform_null_iff (cw ch iw ih : ℚ) :
    ((iw = 0 ∨ ih = 0) → getCoverTransform cw ch iw ih = none) ∧
    ((iw ≠ 0 ∧ ih ≠ 0) → ∃ T, getCoverTransform cw ch iw ih = some T) ∧
    (getCoverTransform cw ch iw ih = none ↔ (iw = 0 ∨ ih = 0)) ∧
    (∀ T, getCoverTransform cw ch iw ih = some T →
      iw ≠ 0 ∧ ih ≠ 0 ∧ T.s = max (cw / iw) (ch / ih) ∧
      T.offsetX = (cw - iw * T.s) / 2 ∧ T.offsetY = (ch - ih * T.s) / 2) := by
  by_cases h : iw = 0 ∨ ih = 0
  · refine ⟨fun _ => by simp [getCoverTransform, h], ?_, by simp [getCoverTransform, h],
      by simp [getCoverTransform, h]⟩
    rintro ⟨h1, h2⟩
    rcases h with h | h
    · exact absurd h h1
    · exact absurd h h2
  · have h' := h
    push_neg at h'
    refine ⟨fun h0 => absurd h0 h, fun _ => ?_, by simp [getCoverTransform, h], ?_⟩
    · simp only [getCoverTransform, h, if_false]
      exact ⟨_, rfl⟩
    intro T hT
    simp only [getCoverTransform, h, if_false, Option.some.injEq] at hT
    subst hT
    exact ⟨h'.1, h'.2, rfl, rfl, rfl⟩

theorem getCoverTransform_null_iff_witness :
    (((0 : ℚ) = 0 ∨ (500 : ℚ) = 0) → getCoverTransform 1000 500 0 500 = none) ∧
    (((0 : ℚ) ≠ 0 ∧ (500 : ℚ) ≠ 0) → ∃ T, getCoverTransform 1000 500 0 500 = some T) ∧
    (getCoverTransform 1000 500 0 500 = none ↔ ((0 : ℚ) = 0 ∨ (500 : ℚ) = 0)) ∧
    (∀ T, getCoverTransform 1000 500 0 500 = some T →
      (0 : ℚ) ≠ 0 ∧ (500 : ℚ) ≠ 0 ∧ T.s = max ((1000 : ℚ) / 0) (500 / 500) ∧
      T.offsetX = (1000 - 0 * T.s) / 2 ∧ T.offsetY = (500 - 500 * T.s) / 2) :=
  getCoverTransform_null_iff 1000 500 0 500

/-- C9: `imgPolyToScreen` returns a list of the same length whose `k`-th point
is `imgPxToScreenPx` of the `k`-th input point, that is
`(T.offsetX + x_k * T.s, T.offsetY + y_k * T.s)`. -/
theorem imgPolyToScreen_pointwise (poly : List Point) (T : CoverTransform) :
    (imgPolyToScreen poly T).length = poly.length ∧
    ∀ (k : ℕ) (p : Point), poly[k]? = some p →
      (imgPolyToScreen poly T)[k]? = some (imgPxToScreenPx p T) ∧
      imgPxToScreenPx p T = ⟨T.offsetX + p.x * T.s, T.offsetY + p.y * T.s⟩ := by
  refine ⟨by simp [imgPolyToScreen], ?_⟩
  intro k p hk
  refine ⟨?_, rfl⟩
  simp [imgPolyToScreen, hk]

theorem imgPolyToScreen_pointwise_witness :
    (imgPolyToScreen [⟨0, 0⟩, ⟨10, 0⟩, ⟨10, 20⟩, ⟨0, 20⟩] ⟨2, -5, 3⟩).length = 4 ∧
    ∀ (k : ℕ) (p : Point), [(⟨0, 0⟩ : Point), ⟨10, 0⟩, ⟨10, 20⟩, ⟨0, 20⟩][k]? = some p →
      (imgPolyToScreen [⟨0, 0⟩, ⟨10, 0⟩, ⟨10, 20⟩, ⟨0, 20⟩] ⟨2, -5, 3⟩)[k]? =
        some (imgPxToScreenPx p ⟨2, -5, 3⟩) ∧
      imgPxToScreenPx p ⟨2, -5, 3⟩ = ⟨-5 + p.x * 2, 3 + p.y * 2⟩ :=
  imgPolyToScreen_pointwise [⟨0, 0⟩, ⟨10, 0⟩, ⟨10, 20⟩, ⟨0, 20⟩] ⟨2, -5, 3⟩

/-! ## Reading and writing arrays -/

theorem getD_set_rat (l : List ℚ) (i j : ℕ) (a : ℚ) :
    (l.set i a).getD j 0 = if i = j ∧ i < l.length then a else l.getD j 0 := by
  simp only [List.getD_eq_getElem?_getD, List.getElem?_set]
  by_cases hij : i = j
  · subst hij
    by_cases hi : i < l.length
    · simp [hi]
    · simp [hi, List.getElem?_eq_none (not_lt.mp hi)]
  · simp [hij]

theorem getD_set_row (M : List (List ℚ)) (i j : ℕ) (a : List ℚ) :
    (M.set i a).getD j [] = if i = j ∧ i < M.length then a else M.getD j [] := by
  simp only [List.getD_eq_getElem?_getD, List.getElem?_set]
  by_cases hij : i = j
  · subst hij
    by_cases hi : i < M.length
    · simp [hi]
    · simp [hi, List.getElem?_eq_none (not_lt.mp hi)]
  · simp [hij]

/-- A `for (c = s; c < s + k; c++) row[c] = g(c, row[c])` loop, entry by entry. -/
theorem foldl_set_range' (g : ℕ → ℚ → ℚ) (k : ℕ) :
    ∀ (s : ℕ) (row : List ℚ), s + k ≤ row.length →
      ((List.range' s k).foldl (fun row c => row.set c (g c (row.getD c 0))) row).length
          = row.length ∧
      ∀ c, ((List.range' s k).foldl
          (fun row c => row.set c (g c (row.getD c 0))) row).getD c 0 =
        if s ≤ c ∧ c < s + k then g c (row.getD c 0) else row.getD c 0 := by
  induction k with
  | zero =>
    intro s row _
    refine ⟨rfl, fun c => ?_⟩
    have : ¬ (s ≤ c ∧ c < s + 0) := by omega
    rw [if_neg this]
    rfl
  | succ k ih =>
    intro s row hlen
    have hlen' : (s + 1) + k ≤ (row.set s (g s (row.getD s 0))).length := by
      rw [List.length_set]; omega
    obtain ⟨h1, h2⟩ := ih (s + 1) (row.set s (g s (row.getD s 0))) hlen'
    rw [List.range'_succ, List.foldl_cons]
    refine ⟨by rw [h1, List.length_set], fun c => ?_⟩
    rw [h2 c, getD_set_rat]
    have hs : s < row.length := by omega
    by_cases hc : c = s
    · subst hc
      have a1 : ¬ (c + 1 ≤ c ∧ c < c + 1 + k) := by omega
      have a2 : (c ≤ c ∧ c < c + (k + 1)) := by omega
      rw [if_neg a1, if_pos a2, if_pos ⟨rfl, hs⟩]
    · have a0 : ¬ (s = c ∧ s < row.length) := by omega
      by_cases hr : s + 1 ≤ c ∧ c < s + 1 + k
      · have a2 : (s ≤ c ∧ c < s + (k + 1)) := by omega
        rw [if_pos hr, if_pos a2, if_neg a0]
      · have a2 : ¬ (s ≤ c ∧ c < s + (k + 1)) := by omega
        rw [if_neg hr, if_neg a2, if_neg a0]

theorem divideRow_length (row : List ℚ) (col m : ℕ) (denom : ℚ)
    (hcol : col ≤ m) (hm : m ≤ row.length) :
    (divideRow row col m denom).length = row.length :=
  (foldl_set_range' (fun _ v => v / denom) (m - col) col row (by omega)).1

theorem divideRow_getD (row : List ℚ) (col m : ℕ) (denom : ℚ)
    (hcol : col ≤ m) (hm : m ≤ row.length) (c : ℕ) :
    (divideRow row col m denom).getD c 0 =
      if col ≤ c ∧ c < m then row.getD c 0 / denom else row.getD c 0 := by
  have h := (foldl_set_range' (fun _ v => v / denom) (m - col) col row (by omega)).2 c
  have e : col + (m - col) = m := by omega
  rw [e] at h
  exact h

theorem subtractRow_length (row pivotRow : List ℚ) (col m : ℕ) (factor : ℚ)
    (hcol : col ≤ m) (hm : m ≤ row.length) :
    (subtractRow row pivotRow col m factor).length = row.length :=
  (foldl_set_range' (fun c v => v - factor * pivotRow.getD c 0) (m - col) col row
    (by omega)).1

theorem subtractRow_getD (row pivotRow : List ℚ) (col m : ℕ) (factor : ℚ)
    (hcol : col ≤ m) (hm : m ≤ row.length) (c : ℕ) :
    (subtractRow row pivotRow col m factor).getD c 0 =
      if col ≤ c ∧ c < m then row.getD c 0 - factor * pivotRow.getD c 0
      else row.getD c 0 := by
  have h := (foldl_set_range' (fun c v => v - factor * pivotRow.getD c 0) (m - col) col row
    (by omega)).2 c
  have e : col + (m - col) = m := by omega
  rw [e] at h
  exact h

theorem eliminate_succ (M : List (List ℚ)) (m col k : ℕ) :
    eliminate M (k + 1) m col =
      if k = col then eliminate M k m col
      else (eliminate M k m col).set k
        (subtractRow ((eliminate M k m col).getD k [])
          ((eliminate M k m col).getD col []) col m
          (ent (eliminate M k m col) k col)) := by
  simp only [eliminate, List.range_succ, List.foldl_append, List.foldl_cons, List.foldl_nil]

theorem eliminate_rows (M : List (List ℚ)) (m col : ℕ) (k : ℕ) :
    (eliminate M k m col).length = M.length ∧
    ∀ r, (eliminate M k m col).getD r [] =
      if r < k ∧ r ≠ col ∧ r < M.length then
        subtractRow (M.getD r []) (M.getD col []) col m (ent M r col)
      else M.getD r [] := by
  induction k with
  | zero =>
    refine ⟨rfl, fun r => ?_⟩
    rw [if_neg (by omega)]
    rfl
  | succ k ih =>
    obtain ⟨h1, h2⟩ := ih
    rw [eliminate_succ]
    by_cases hk : k = col
    · simp only [hk, if_true]
      refine ⟨by rw [← h1, hk], fun r => ?_⟩
      rw [hk] at h2
      rw [h2 r]
      by_cases hr : r < col ∧ r ≠ col ∧ r < M.length
      · have : r < col + 1 ∧ r ≠ col ∧ r < M.length := by omega
        rw [if_pos hr, if_pos this]
      · have : ¬ (r < col + 1 ∧ r ≠ col ∧ r < M.length) := by omega
        rw [if_neg hr, if_neg this]
    · simp only [hk, if_false]
      refine ⟨by rw [List.length_set, h1], fun r => ?_⟩
      rw [getD_set_row, h1]
      have hcolrow : (eliminate M k m col).getD col [] = M.getD col [] := by
        rw [h2 col, if_neg (by omega)]
      have hkrow : (eliminate M k m col).getD k [] = M.getD k [] := by
        rw [h2 k, if_neg (by omega)]
      have hent : ent (eliminate M k m col) k col = ent M k col := by
        simp only [ent, hkrow]
      by_cases hr : k = r
      · subst hr
        by_cases hlen : k < M.length
        · have : k < k + 1 ∧ k ≠ col ∧ k < M.length := ⟨by omega, hk, hlen⟩
          rw [if_pos ⟨rfl, hlen⟩, if_pos this, hcolrow, hkrow, hent]
        · have : ¬ (k < k + 1 ∧ k ≠ col ∧ k < M.length) := by omega
          rw [if_neg (by omega), if_neg this, hkrow]
      · have a0 : ¬ (k = r ∧ k < M.length) := by omega
        rw [if_neg a0, h2 r]
        by_cases hr2 : r < k ∧ r ≠ col ∧ r < M.length
        · have : r < k + 1 ∧ r ≠ col ∧ r < M.length := by omega
          rw [if_pos hr2, if_pos this]
        · have : ¬ (r < k + 1 ∧ r ≠ col ∧ r < M.length) := by omega
          rw [if_neg hr2, if_neg this]

/-! ## Shape of the matrix and the steps entry by entry -/

theorem findPivot_aux (M : List (List ℚ)) (col : ℕ) (k : ℕ) :
    ∀ (s p0 : ℕ),
      let p := (List.range' s k).foldl
        (fun pivot r => if |ent M r col| > |ent M pivot col| then r else pivot) p0
      (p = p0 ∨ (s ≤ p ∧ p < s + k)) ∧ |ent M p0 col| ≤ |ent M p col| ∧
      ∀ r, s ≤ r → r < s + k → |ent M r col| ≤ |ent M p col| := by
  induction k with
  | zero =>
    intro s p0
    exact ⟨Or.inl rfl, le_refl _, fun r h1 h2 => by omega⟩
  | succ k ih =>
    intro s p0
    simp only [List.range'_succ, List.foldl_cons]
    by_cases h : |ent M s col| > |ent M p0 col|
    · simp only [h, if_true]
      obtain ⟨h1, h2, h3⟩ := ih (s + 1) s
      refine ⟨Or.inr ?_, le_trans h.le h2, fun r hr1 hr2 => ?_⟩
      · rcases h1 with h1 | h1
        · rw [h1]; omega
        · omega
      · by_cases hrs : r = s
        · rw [hrs]; exact h2
        · exact h3 r (by omega) (by omega)
    · simp only [h, if_false]
      obtain ⟨h1, h2, h3⟩ := ih (s + 1) p0
      refine ⟨?_, h2, fun r hr1 hr2 => ?_⟩
      · rcases h1 with h1 | h1
        · exact Or.inl h1
        · exact Or.inr (by omega)
      · by_cases hrs : r = s
        · rw [hrs]; exact le_trans (not_lt.mp h) h2
        · exact h3 r (by omega) (by omega)

theorem findPivot_spec (M : List (List ℚ)) (n col : ℕ) (hcol : col < n) :
    col ≤ findPivot M n col ∧ findPivot M n col < n ∧
    ∀ r, col ≤ r → r < n → |ent M r col| ≤ |ent M (findPivot M n col) col| := by
  obtain ⟨h1, h2, h3⟩ := findPivot_aux M col (n - (col + 1)) (col + 1) col
  refine ⟨?_, ?_, fun r hr1 hr2 => ?_⟩
  · rcases h1 with h1 | h1
    · exact le_of_eq h1.symm
    · exact le_trans (Nat.le_succ col) h1.1
  · rcases h1 with h1 | h1
    · unfold findPivot; rw [h1]; exact hcol
    · unfold findPivot; omega
  · by_cases hrc : r = col
    · rw [hrc]; exact h2
    · exact h3 r (by omega) (by omega)

theorem ent_swapRows (M : List (List ℚ)) (n i j : ℕ) (hn : M.length = n)
    (hi : i < n) (hj : j < n) (r c : ℕ) :
    ent (swapRows M i j) r c =
      ent M (if r = i then j else if r = j then i else r) c := by
  unfold ent swapRows
  rw [getD_set_row, getD_set_row, List.length_set, hn]
  by_cases h1 : r = j
  · subst h1
    rw [if_pos ⟨rfl, hj⟩]
    by_cases h2 : r = i
    · rw [if_pos h2, h2]
    · rw [if_neg h2, if_pos rfl]
  · rw [if_neg (by omega)]
    by_cases h2 : r = i
    · subst h2
      rw [if_pos ⟨rfl, hi⟩, if_pos rfl]
    · rw [if_neg (by omega), if_neg h2, if_neg h1]

theorem shape_swapRows (M : List (List ℚ)) (n m i j : ℕ) (hs : Shape M n m)
    (hi : i < n) (hj : j < n) : Shape (swapRows M i j) n m := by
  obtain ⟨h1, h2⟩ := hs
  refine ⟨by unfold swapRows; rw [List.length_set, List.length_set, h1], fun r hr => ?_⟩
  unfold swapRows
  rw [getD_set_row, getD_set_row, List.length_set, h1]
  by_cases hrj : j = r
  · rw [if_pos ⟨hrj, hj⟩]; exact h2 i hi
  · rw [if_neg (by omega)]
    by_cases hri : i = r
    · rw [if_pos ⟨hri, hi⟩]; exact h2 j hj
    · rw [if_neg (by omega)]; exact h2 r hr

theorem pivotDenom_ne_zero (M : List (List ℚ)) (col : ℕ) : pivotDenom M col ≠ 0 := by
  unfold pivotDenom
  by_cases h : ent M col col ≠ 0
  · rw [if_pos h]; exact h
  · rw [if_neg h]; norm_num

theorem divide_eliminate_spec (M1 : List (List ℚ)) (n m col : ℕ) (d : ℚ)
    (hs : Shape M1 n m) (hcol : col < n) (hcm : col < m) :
    Shape (eliminate (M1.set col (divideRow (M1.getD col []) col m d)) n m col) n m ∧
    ∀ r c, r < n →
      ent (eliminate (M1.set col (divideRow (M1.getD col []) col m d)) n m col) r c =
      if r = col then
        (if col ≤ c ∧ c < m then ent M1 col c / d else ent M1 col c)
      else
        (if col ≤ c ∧ c < m then ent M1 r c - ent M1 r col * (ent M1 col c / d)
         else ent M1 r c) := by
  obtain ⟨hlen, hrows⟩ := hs
  have hrowcol := hrows col hcol
  -- the matrix after the division of the pivot row
  have hM2len : (M1.set col (divideRow (M1.getD col []) col m d)).length = n := by
    rw [List.length_set, hlen]
  have hM2row : ∀ r, (M1.set col (divideRow (M1.getD col []) col m d)).getD r [] =
      if r = col then divideRow (M1.getD col []) col m d else M1.getD r [] := by
    intro r
    rw [getD_set_row, hlen]
    by_cases h : r = col
    · rw [if_pos ⟨h.symm, hcol⟩, if_pos h]
    · rw [if_neg (by omega), if_neg h]
  have hM2ent : ∀ r c, ent (M1.set col (divideRow (M1.getD col []) col m d)) r c =
      if r = col ∧ col ≤ c ∧ c < m then ent M1 col c / d else ent M1 r c := by
    intro r c
    unfold ent
    rw [hM2row r]
    by_cases h : r = col
    · rw [if_pos h, divideRow_getD _ _ _ _ hcm.le (le_of_eq hrowcol.symm), h]
      by_cases h2 : col ≤ c ∧ c < m
      · rw [if_pos h2, if_pos ⟨rfl, h2⟩]
      · rw [if_neg h2, if_neg (fun h3 => h2 h3.2)]
    · rw [if_neg h, if_neg (fun h3 => h h3.1)]
  have hM2rowlen : ∀ r, r < n →
      ((M1.set col (divideRow (M1.getD col []) col m d)).getD r []).length = m := by
    intro r hr
    rw [hM2row r]
    by_cases h : r = col
    · rw [if_pos h, divideRow_length _ _ _ _ hcm.le (le_of_eq hrowcol.symm)]
      exact hrowcol
    · rw [if_neg h]; exact hrows r hr
  generalize M1.set col (divideRow (M1.getD col []) col m d) = M2 at *
  obtain ⟨hE1, hE2⟩ := eliminate_rows M2 m col n
  refine ⟨⟨by rw [hE1, hM2len], fun r hr => ?_⟩, fun r c hr => ?_⟩
  · rw [hE2 r]
    by_cases h : r < n ∧ r ≠ col ∧ r < M2.length
    · rw [if_pos h, subtractRow_length _ _ _ _ _ hcm.le (le_of_eq (hM2rowlen r hr).symm)]
      exact hM2rowlen r hr
    · rw [if_neg h]; exact hM2rowlen r hr
  · unfold ent
    rw [hE2 r]
    by_cases h : r = col
    · rw [if_neg (fun h3 => h3.2.1 h), if_pos h]
      have := hM2ent r c
      unfold ent at this
      rw [this, h]
      by_cases h2 : col ≤ c ∧ c < m
      · rw [if_pos ⟨rfl, h2⟩, if_pos h2]
      · rw [if_neg (fun h3 => h2 h3.2), if_neg h2]
    · rw [if_pos ⟨hr, h, by omega⟩, if_neg h,
        subtractRow_getD _ _ _ _ _ hcm.le (le_of_eq (hM2rowlen r hr).symm)]
      have e1 := hM2ent r c
      have e2 := hM2ent col c
      have e3 := hM2ent r col
      rw [if_neg (fun h3 => h h3.1)] at e1 e3
      rw [e3]
      unfold ent at e1 e2
      rw [e1, e2]
      by_cases h2 : col ≤ c ∧ c < m
      · rw [if_pos h2, if_pos ⟨rfl, h2⟩, if_pos h2]
        rfl
      · rw [if_neg h2, if_neg h2]

/-- One iteration of the outer loop, entry by entry: the rows `col` and
`pivot` are exchanged, the new row `col` is divided by the denominator from
column `col` on, and that row times `M[r][col]` is subtracted from every other
row `r` from column `col` on. -/
theorem pivotStep_spec (M : List (List ℚ)) (n m col : ℕ) (hs : Shape M n m)
    (hcol : col < n) (hcm : col < m) :
    Shape (pivotStep M n m col) n m ∧
    ∀ r c, r < n → ent (pivotStep M n m col) r c =
      if r = col then
        (if col ≤ c ∧ c < m then
          ent (swapRows M col (findPivot M n col)) col c /
            pivotDenom (swapRows M col (findPivot M n col)) col
         else ent (swapRows M col (findPivot M n col)) col c)
      else
        (if col ≤ c ∧ c < m then
          ent (swapRows M col (findPivot M n col)) r c -
            ent (swapRows M col (findPivot M n col)) r col *
              (ent (swapRows M col (findPivot M n col)) col c /
                pivotDenom (swapRows M col (findPivot M n col)) col)
         else ent (swapRows M col (findPivot M n col)) r c) := by
  obtain ⟨_, hp2, _⟩ := findPivot_spec M n col hcol
  have hs1 := shape_swapRows M n m col (findPivot M n col) hs hcol hp2
  exact divide_eliminate_spec (swapRows M col (findPivot M n col)) n m col
    (pivotDenom (swapRows M col (findPivot M n col)) col) hs1 hcol hcm

/-! ## The elimination as row operations -/

theorem zeros_swapRows (M : List (List ℚ)) (n m i j : ℕ) (hn : M.length = n)
    (hi : i < n) (hj : j < n) (y : ℕ → ℚ) :
    Zeros (swapRows M i j) n m y ↔ Zeros M n m y := by
  have key : ∀ r, rowDot (swapRows M i j) m r y =
      rowDot M m (if r = i then j else if r = j then i else r) y := by
    intro r
    unfold rowDot
    exact Finset.sum_congr rfl (fun c _ => by rw [ent_swapRows M n i j hn hi hj])
  constructor
  · intro h r hr
    by_cases h1 : r = i
    · have := h j hj
      rw [key] at this
      by_cases h2 : j = i
      · rw [if_pos h2] at this; rw [h1, ← h2]; exact this
      · rw [if_neg h2, if_pos rfl] at this; rw [h1]; exact this
    · by_cases h2 : r = j
      · have := h i hi
        rw [key, if_pos rfl] at this
        rw [h2]; exact this
      · have := h r hr
        rw [key, if_neg h1, if_neg h2] at this
        exact this
  · intro h r hr
    rw [key]
    by_cases h1 : r = i
    · rw [if_pos h1]; exact h j hj
    · rw [if_neg h1]
      by_cases h2 : r = j
      · rw [if_pos h2]; exact h i hi
      · rw [if_neg h2]; exact h r hr

/-- What one iteration of the outer loop does to the whole rows, given that
the rows from `col` on are zero before column `col`. -/
theorem pivotStep_rows (M : List (List ℚ)) (n m col : ℕ) (hs : Shape M n m)
    (hcol : col < n) (hcm : col < m) (hz : LowerZero M n col) :
    ∀ r c, r < n → c < m → ent (pivotStep M n m col) r c =
      if r = col then
        ent (swapRows M col (findPivot M n col)) col c /
          pivotDenom (swapRows M col (findPivot M n col)) col
      else
        ent (swapRows M col (findPivot M n col)) r c -
          ent (swapRows M col (findPivot M n col)) r col *
            (ent (swapRows M col (findPivot M n col)) col c /
              pivotDenom (swapRows M col (findPivot M n col)) col) := by
  intro r c hr hc
  obtain ⟨hp1, hp2, _⟩ := findPivot_spec M n col hcol
  have hleft : ∀ c, c < col → ent (swapRows M col (findPivot M n col)) col c = 0 := by
    intro c hc
    rw [ent_swapRows M n col _ hs.1 hcol hp2, if_pos rfl]
    exact hz _ c hp1 hp2 hc
  rw [(pivotStep_spec M n m col hs hcol hcm).2 r c hr]
  by_cases h2 : col ≤ c ∧ c < m
  · rw [if_pos h2, if_pos h2]
  · rw [if_neg h2, if_neg h2]
    have hc' : c < col := by omega
    rw [hleft c hc']
    simp

theorem zeros_pivotStep (M : List (List ℚ)) (n m col : ℕ) (hs : Shape M n m)
    (hcol : col < n) (hcm : col < m) (hz : LowerZero M n col) (y : ℕ → ℚ) :
    Zeros (pivotStep M n m col) n m y ↔ Zeros M n m y := by
  obtain ⟨_, hp2, _⟩ := findPivot_spec M n col hcol
  rw [← zeros_swapRows M n m col (findPivot M n col) hs.1 hcol hp2 y]
  have hrows := pivotStep_rows M n m col hs hcol hcm hz
  have hd := pivotDenom_ne_zero (swapRows M col (findPivot M n col)) col
  generalize swapRows M col (findPivot M n col) = M1 at *
  generalize pivotDenom M1 col = d at *
  generalize pivotStep M n m col = M3 at *
  have hrowcol : rowDot M3 m col y = rowDot M1 m col y / d := by
    unfold rowDot
    rw [Finset.sum_div]
    refine Finset.sum_congr rfl (fun c hc => ?_)
    rw [hrows col c hcol (Finset.mem_range.mp hc), if_pos rfl]
    ring
  have hrowr : ∀ r, r < n → r ≠ col →
      rowDot M3 m r y = rowDot M1 m r y - ent M1 r col * (rowDot M1 m col y / d) := by
    intro r hr hne
    unfold rowDot
    rw [Finset.sum_div, Finset.mul_sum, ← Finset.sum_sub_distrib]
    refine Finset.sum_congr rfl (fun c hc => ?_)
    rw [hrows r c hr (Finset.mem_range.mp hc), if_neg hne]
    ring
  constructor
  · intro h
    have h0 : rowDot M1 m col y = 0 := by
      have := h col hcol
      rw [hrowcol] at this
      rcases div_eq_zero_iff.mp this with h1 | h1
      · exact h1
      · exact absurd h1 hd
    intro r hr
    by_cases hne : r = col
    · rw [hne]; exact h0
    · have := h r hr
      rw [hrowr r hr hne, h0] at this
      simpa using this
  · intro h r hr
    by_cases hne : r = col
    · rw [hne, hrowcol, h col hcol]; simp
    · rw [hrowr r hr hne, h r hr, h col hcol]; simp

theorem lowerZero_pivotStep (M : List (List ℚ)) (n m col : ℕ) (hs : Shape M n m)
    (hcol : col < n) (hcm : col < m) (hz : LowerZero M n col) :
    LowerZero (pivotStep M n m col) n (col + 1) := by
  intro r c hr1 hr2 hc
  obtain ⟨hp1, hp2, hp3⟩ := findPivot_spec M n col hcol
  have hne : r ≠ col := by omega
  rw [pivotStep_rows M n m col hs hcol hcm hz r c hr2 (by omega), if_neg hne]
  have hswap := ent_swapRows M n col (findPivot M n col) hs.1 hcol hp2
  have hd := pivotDenom_ne_zero (swapRows M col (findPivot M n col)) col
  by_cases hcc : c = col
  · rw [hcc]
    by_cases hpz : ent (swapRows M col (findPivot M n col)) col col = 0
    · -- the largest entry of the column is zero: so is the entry of row `r`
      have hall : ∀ r', col ≤ r' → r' < n → ent M r' col = 0 := by
        intro r' h1 h2
        have := hp3 r' h1 h2
        rw [hswap, if_pos rfl] at hpz
        rw [hpz, abs_zero] at this
        exact abs_eq_zero.mp (le_antisymm this (abs_nonneg _))
      have hr0 : ent (swapRows M col (findPivot M n col)) r col = 0 := by
        rw [hswap, if_neg hne]
        by_cases h3 : r = findPivot M n col
        · rw [if_pos h3]; exact hall col (le_refl _) hcol
        · rw [if_neg h3]; exact hall r (by omega) hr2
      rw [hr0]; simp
    · have : pivotDenom (swapRows M col (findPivot M n col)) col =
          ent (swapRows M col (findPivot M n col)) col col := by
        unfold pivotDenom; rw [if_pos hpz]
      rw [this, div_self hpz]; ring
  · have hc' : c < col := by omega
    have h1 : ent (swapRows M col (findPivot M n col)) col c = 0 := by
      rw [hswap, if_pos rfl]; exact hz _ c hp1 hp2 hc'
    have h2 : ent (swapRows M col (findPivot M n col)) r c = 0 := by
      rw [hswap, if_neg hne]
      by_cases h3 : r = findPivot M n col
      · rw [if_pos h3]; exact hz col c (le_refl _) hcol hc'
      · rw [if_neg h3]; exact hz r c (by omega) hr2 hc'
    rw [h1, h2]; simp

theorem unitCols_lowerZero (M : List (List ℚ)) (n k : ℕ) (h : UnitCols M n k) :
    LowerZero M n k := by
  intro r c hr1 hr2 hc
  rw [h r c hr2 hc, if_neg (by omega)]

theorem unitCols_pivotStep (M : List (List ℚ)) (n m col : ℕ) (hs : Shape M n m)
    (hcol : col < n) (hcm : col < m) (hu : UnitCols M n col)
    (hpiv : ent (swapRows M col (findPivot M n col)) col col ≠ 0) :
    UnitCols (pivotStep M n m col) n (col + 1) := by
  intro r c hr hc
  obtain ⟨hp1, hp2, _⟩ := findPivot_spec M n col hcol
  have hz := unitCols_lowerZero M n col hu
  rw [pivotStep_rows M n m col hs hcol hcm hz r c hr (by omega)]
  have hswap := ent_swapRows M n col (findPivot M n col) hs.1 hcol hp2
  have hden : pivotDenom (swapRows M col (findPivot M n col)) col =
      ent (swapRows M col (findPivot M n col)) col col := by
    unfold pivotDenom; rw [if_pos hpiv]
  by_cases hcc : c = col
  · rw [hcc, hden, div_self hpiv]
    by_cases hrc : r = col
    · rw [if_pos hrc, if_pos hrc]
    · rw [if_neg hrc, if_neg hrc]; ring
  · have hc' : c < col := by omega
    have h1 : ent (swapRows M col (findPivot M n col)) col c = 0 := by
      rw [hswap, if_pos rfl]; exact hz _ c hp1 hp2 hc'
    rw [h1]
    by_cases hrc : r = col
    · rw [if_pos hrc, if_neg (by omega)]; simp
    · rw [if_neg hrc, hswap, if_neg hrc]
      by_cases h3 : r = findPivot M n col
      · rw [if_pos h3, hu col c hcol hc', if_neg (by omega), if_neg (by omega)]; simp
      · rw [if_neg h3, hu r c hr hc']; simp

/-! ## The whole elimination -/

theorem gaussLoop_succ (M : List (List ℚ)) (n m k : ℕ) :
    gaussLoop M n m (k + 1) = pivotStep (gaussLoop M n m k) n m k := by
  simp only [gaussLoop, List.range_succ, List.foldl_append, List.foldl_cons, List.foldl_nil]

/-- Whatever the pivots are, the loop keeps the shape and the set of vectors
on which all rows vanish. -/
theorem gaussLoop_invariant (M : List (List ℚ)) (n m : ℕ) (hs : Shape M n m) (k : ℕ)
    (hkn : k ≤ n) (hkm : k ≤ m) :
    Shape (gaussLoop M n m k) n m ∧ LowerZero (gaussLoop M n m k) n k ∧
    ∀ y, Zeros (gaussLoop M n m k) n m y ↔ Zeros M n m y := by
  induction k with
  | zero =>
    exact ⟨hs, fun r c _ _ hc => absurd hc (Nat.not_lt_zero c), fun y => Iff.rfl⟩
  | succ k ih =>
    obtain ⟨h1, h2, h3⟩ := ih (by omega) (by omega)
    rw [gaussLoop_succ]
    refine ⟨(pivotStep_spec _ n m k h1 (by omega) (by omega)).1,
      lowerZero_pivotStep _ n m k h1 (by omega) (by omega) h2, fun y => ?_⟩
    rw [zeros_pivotStep _ n m k h1 (by omega) (by omega) h2 y]
    exact h3 y

theorem pivotEntry_ne_zero (M : List (List ℚ)) (n : ℕ) (hs : Shape M n (n + 1))
    (hns : Nonsingular M n) (k : ℕ) (hk : k < n)
    (hu : UnitCols (gaussLoop M n (n + 1) k) n k) :
    pivotEntry M n (n + 1) k ≠ 0 := by
  intro hzero
  obtain ⟨h1, _, h3⟩ := gaussLoop_invariant M n (n + 1) hs k (by omega) (by omega)
  unfold pivotEntry at hzero
  generalize gaussLoop M n (n + 1) k = Mk at *
  obtain ⟨_, hp2, hp3⟩ := findPivot_spec Mk n k hk
  rw [ent_swapRows Mk n k _ h1.1 hk hp2, if_pos rfl] at hzero
  have hall : ∀ r, k ≤ r → r < n → ent Mk r k = 0 := by
    intro r hr1 hr2
    have := hp3 r hr1 hr2
    rw [hzero, abs_zero] at this
    exact abs_eq_zero.mp (le_antisymm this (abs_nonneg _))
  -- column `k` is a combination of the unit columns before it
  have hy := hns (fun c => if c < k then ent Mk c k else if c = k then -1 else 0)
    (by simp only []; rw [if_neg (by omega), if_neg (by omega)])
    ((h3 _).mp (fun r hr => by
      unfold rowDot
      have hterm : ∀ c ∈ Finset.range (n + 1),
          ent Mk r c * (if c < k then ent Mk c k else if c = k then -1 else 0) =
          (if r = c then (if r < k then ent Mk r k else 0) else 0) +
          (if k = c then - ent Mk r k else 0) := by
        intro c _
        by_cases hc : c < k
        · rw [if_pos hc, hu r c hr hc, if_neg (by omega : ¬ k = c)]
          by_cases hrc : r = c
          · rw [if_pos hrc, if_pos hrc, if_pos (by omega), hrc]; ring
          · rw [if_neg hrc, if_neg hrc]; ring
        · rw [if_neg hc]
          by_cases hck : c = k
          · rw [if_pos hck, if_pos hck.symm, hck]
            by_cases hrk : r = k
            · rw [if_pos hrk, if_neg (by omega)]; ring
            · rw [if_neg hrk]; ring
          · rw [if_neg hck, if_neg (show ¬ k = c from fun h => hck h.symm)]
            by_cases hrc : r = c
            · rw [if_pos hrc, if_neg (by omega)]; ring
            · rw [if_neg hrc]; ring
      rw [Finset.sum_congr rfl hterm, Finset.sum_add_distrib, Finset.sum_ite_eq,
        Finset.sum_ite_eq, if_pos (Finset.mem_range.mpr (by omega)),
        if_pos (Finset.mem_range.mpr (by omega))]
      by_cases hrk : r < k
      · rw [if_pos hrk]; ring
      · rw [if_neg hrk, hall r (by omega) hr]; ring)) k hk
  have hy' : (if k < k then ent Mk k k else if k = k then (-1 : ℚ) else 0) = 0 := hy
  rw [if_neg (lt_irrefl k), if_pos rfl] at hy'
  norm_num at hy'

/-- With a non-singular coefficient part every pivot is non-zero and the loop
turns the coefficient part into the identity, column after column. -/
theorem gaussLoop_unitCols (M : List (List ℚ)) (n : ℕ) (hs : Shape M n (n + 1))
    (hns : Nonsingular M n) (k : ℕ) (hk : k ≤ n) :
    UnitCols (gaussLoop M n (n + 1) k) n k := by
  induction k with
  | zero => exact fun r c _ hc => absurd hc (Nat.not_lt_zero c)
  | succ k ih =>
    have hu := ih (by omega)
    obtain ⟨h1, _, _⟩ := gaussLoop_invariant M n (n + 1) hs k (by omega) (by omega)
    rw [gaussLoop_succ]
    exact unitCols_pivotStep _ n (n + 1) k h1 (by omega) (by omega) hu
      (pivotEntry_ne_zero M n hs hns k (by omega) hu)

/-- The last column of the eliminated matrix solves the system. -/
theorem gaussLoop_solves (M : List (List ℚ)) (n : ℕ) (hs : Shape M n (n + 1))
    (hns : Nonsingular M n) (r : ℕ) (hr : r < n) :
    ∑ c ∈ Finset.range n, ent M r c * ent (gaussLoop M n (n + 1) n) c n = ent M r n := by
  have hu := gaussLoop_unitCols M n hs hns n (le_refl n)
  obtain ⟨_, _, h3⟩ := gaussLoop_invariant M n (n + 1) hs n (le_refl n) (by omega)
  generalize gaussLoop M n (n + 1) n = Mf at *
  have hz : Zeros Mf n (n + 1) (fun c => if c < n then ent Mf c n else -1) := by
    intro r hr
    unfold rowDot
    rw [Finset.sum_range_succ]
    have hterm : ∀ c ∈ Finset.range n,
        ent Mf r c * (if c < n then ent Mf c n else -1) =
          if r = c then ent Mf r n else 0 := by
      intro c hc
      have hc' := Finset.mem_range.mp hc
      rw [if_pos hc', hu r c hr hc']
      by_cases hrc : r = c
      · rw [if_pos hrc, if_pos hrc, hrc]; ring
      · rw [if_neg hrc, if_neg hrc]; ring
    rw [Finset.sum_congr rfl hterm, Finset.sum_ite_eq, if_pos (Finset.mem_range.mpr hr)]
    beta_reduce
    rw [if_neg (lt_irrefl n)]
    ring
  have := (h3 _).mp hz r hr
  unfold rowDot at this
  rw [Finset.sum_range_succ] at this
  beta_reduce at this
  rw [if_neg (lt_irrefl n)] at this
  have hsum : ∑ c ∈ Finset.range n, ent M r c * (if c < n then ent Mf c n else -1) =
      ∑ c ∈ Finset.range n, ent M r c * ent Mf c n :=
    Finset.sum_congr rfl (fun c hc => by rw [if_pos (Finset.mem_range.mp hc)])
  rw [hsum] at this
  linarith

/-! ## `solveLinearSystem` -/

theorem augment_row (A : List (List ℚ)) (b : List ℚ) (r : ℕ) (hr : r < A.length) :
    (augment A b).getD r [] = A.getD r [] ++ [b.getD r 0] := by
  unfold augment
  rw [List.getD_eq_getElem?_getD, List.getElem?_map, List.getElem?_range hr]
  rfl

theorem shape_augment (A : List (List ℚ)) (b : List ℚ) (n : ℕ) (hA : Shape A n n) :
    Shape (augment A b) n (n + 1) := by
  refine ⟨by unfold augment; rw [List.length_map, List.length_range, hA.1], fun r hr => ?_⟩
  rw [augment_row A b r (by rw [hA.1]; exact hr), List.length_append, hA.2 r hr]
  rfl

theorem ent_augment_left (A : List (List ℚ)) (b : List ℚ) (n : ℕ) (hA : Shape A n n)
    (r c : ℕ) (hr : r < n) (hc : c < n) : ent (augment A b) r c = ent A r c := by
  unfold ent
  rw [augment_row A b r (by rw [hA.1]; exact hr),
    List.getD_append _ _ _ _ (by rw [hA.2 r hr]; exact hc)]

theorem ent_augment_last (A : List (List ℚ)) (b : List ℚ) (n : ℕ) (hA : Shape A n n)
    (r : ℕ) (hr : r < n) : ent (augment A b) r n = b.getD r 0 := by
  unfold ent
  rw [augment_row A b r (by rw [hA.1]; exact hr), List.getD_eq_getElem?_getD,
    List.getElem?_append_right (by rw [hA.2 r hr]), hA.2 r hr, Nat.sub_self]
  rfl

theorem nonsingular_augment (A : List (List ℚ)) (b : List ℚ) (n : ℕ) (hA : Shape A n n)
    (hk : TrivialKernel A n) : Nonsingular (augment A b) n := by
  intro y hyn hz
  refine hk y (fun r hr => ?_)
  have := hz r hr
  unfold rowDot at this
  rw [Finset.sum_range_succ, hyn, mul_zero, add_zero] at this
  rw [← this]
  exact Finset.sum_congr rfl (fun c hc => by
    rw [ent_augment_left A b n hA r c hr (Finset.mem_range.mp hc)])

theorem solveLinearSystem_eq (A : List (List ℚ)) (b : List ℚ) (hA : Shape A 8 8) :
    solveLinearSystem A b =
      (gaussLoop (augment A b) 8 9 8).map (fun row => row.getD 8 0) := by
  have hs := shape_augment A b 8 hA
  have hm : ((augment A b).getD 0 []).length = 9 := hs.2 0 (by norm_num)
  have hl := (gaussLoop_invariant (augment A b) 8 9 hs 8 (le_refl 8) (by norm_num)).1
  unfold solveLinearSystem
  simp only [hA.1, hm]
  exact List.take_of_length_le (by rw [List.length_map, hl.1])

theorem solveLinearSystem_getD (A : List (List ℚ)) (b : List ℚ) (hA : Shape A 8 8)
    (r : ℕ) (hr : r < 8) :
    (solveLinearSystem A b).getD r 0 = ent (gaussLoop (augment A b) 8 9 8) r 8 := by
  have hs := shape_augment A b 8 hA
  have hl := (gaussLoop_invariant (augment A b) 8 9 hs 8 (le_refl 8) (by norm_num)).1
  rw [solveLinearSystem_eq A b hA]
  generalize gaussLoop (augment A b) 8 9 8 = Mf at hl ⊢
  unfold ent
  have hr' : r < Mf.length := by rw [hl.1]; exact hr
  simp only [List.getD_eq_getElem?_getD, List.getElem?_map, List.getElem?_eq_getElem hr',
    Option.map_some', Option.getD_some]

/-- For an 8 x 8 matrix with trivial kernel, `solveLinearSystem(A, b)` returns
eight numbers `x` with `A x = b`. -/
theorem solveLinearSystem_solves (A : List (List ℚ)) (b : List ℚ) (hA : Shape A 8 8)
    (hk : TrivialKernel A 8) :
    (solveLinearSystem A b).length = 8 ∧
    ∀ r, r < 8 →
      ∑ c ∈ Finset.range 8, ent A r c * (solveLinearSystem A b).getD c 0 = b.getD r 0 := by
  have hs := shape_augment A b 8 hA
  have hl := (gaussLoop_invariant (augment A b) 8 9 hs 8 (le_refl 8) (by norm_num)).1
  refine ⟨by rw [solveLinearSystem_eq A b hA, List.length_map, hl.1], fun r hr => ?_⟩
  have := gaussLoop_solves (augment A b) 8 hs (nonsingular_augment A b 8 hA hk) r hr
  rw [ent_augment_last A b 8 hA r hr] at this
  rw [← this]
  exact Finset.sum_congr rfl (fun c hc => by
    rw [ent_augment_left A b 8 hA r c hr (Finset.mem_range.mp hc),
      solveLinearSystem_getD A b hA c (Finset.mem_range.mp hc)])

/-! ## `solveHomography` on a rectangle -/

theorem solveHomography_rect (w h : ℚ) (q0 q1 q2 q3 : Point) :
    solveHomography [⟨0, 0⟩, ⟨w, 0⟩, ⟨w, h⟩, ⟨0, h⟩] [q0, q1, q2, q3] =
      some [[(solveLinearSystem (rectMatrix w h q0 q1 q2 q3) (rectRhs q0 q1 q2 q3)).getD 0 0,
             (solveLinearSystem (rectMatrix w h q0 q1 q2 q3) (rectRhs q0 q1 q2 q3)).getD 1 0,
             (solveLinearSystem (rectMatrix w h q0 q1 q2 q3) (rectRhs q0 q1 q2 q3)).getD 2 0],
            [(solveLinearSystem (rectMatrix w h q0 q1 q2 q3) (rectRhs q0 q1 q2 q3)).getD 3 0,
             (solveLinearSystem (rectMatrix w h q0 q1 q2 q3) (rectRhs q0 q1 q2 q3)).getD 4 0,
             (solveLinearSystem (rectMatrix w h q0 q1 q2 q3) (rectRhs q0 q1 q2 q3)).getD 5 0],
            [(solveLinearSystem (rectMatrix w h q0 q1 q2 q3) (rectRhs q0 q1 q2 q3)).getD 6 0,
             (solveLinearSystem (rectMatrix w h q0 q1 q2 q3) (rectRhs q0 q1 q2 q3)).getD 7 0,
             1]] := rfl

theorem shape_rectMatrix (w h : ℚ) (q0 q1 q2 q3 : Point) :
    Shape (rectMatrix w h q0 q1 q2 q3) 8 8 := by
  refine ⟨rfl, fun r hr => ?_⟩
  interval_cases r <;> rfl

theorem rectMatrix_sum (w h : ℚ) (q0 q1 q2 q3 : Point) (y : ℕ → ℚ) :
    (∑ c ∈ Finset.range 8, ent (rectMatrix w h q0 q1 q2 q3) 0 c * y c = y 2) ∧
    (∑ c ∈ Finset.range 8, ent (rectMatrix w h q0 q1 q2 q3) 1 c * y c = y 5) ∧
    (∑ c ∈ Finset.range 8, ent (rectMatrix w h q0 q1 q2 q3) 2 c * y c =
      w * y 0 + y 2 - q1.x * w * y 6) ∧
    (∑ c ∈ Finset.range 8, ent (rectMatrix w h q0 q1 q2 q3) 3 c * y c =
      w * y 3 + y 5 - q1.y * w * y 6) ∧
    (∑ c ∈ Finset.range 8, ent (rectMatrix w h q0 q1 q2 q3) 4 c * y c =
      w * y 0 + h * y 1 + y 2 - q2.x * w * y 6 - q2.x * h * y 7) ∧
    (∑ c ∈ Finset.range 8, ent (rectMatrix w h q0 q1 q2 q3) 5 c * y c =
      w * y 3 + h * y 4 + y 5 - q2.y * w * y 6 - q2.y * h * y 7) ∧
    (∑ c ∈ Finset.range 8, ent (rectMatrix w h q0 q1 q2 q3) 6 c * y c =
      h * y 1 + y 2 - q3.x * h * y 7) ∧
    (∑ c ∈ Finset.range 8, ent (rectMatrix w h q0 q1 q2 q3) 7 c * y c =
      h * y 4 + y 5 - q3.y * h * y 7) := by
  simp only [Finset.sum_range_succ, Finset.sum_range_zero, rectMatrix, homographyRows, ent,
    List.cons_append, List.nil_append, List.getD_cons_zero, List.getD_cons_succ]
  refine ⟨?_, ?_, ?_, ?_, ?_, ?_, ?_, ?_⟩ <;> ring

theorem trivialKernel_rectMatrix (w h : ℚ) (q0 q1 q2 q3 : Point) (hw : w ≠ 0) (hh : h ≠ 0)
    (hc : cross q1 q2 q3 ≠ 0) : TrivialKernel (rectMatrix w h q0 q1 q2 q3) 8 := by
  intro y hy
  obtain ⟨s0, s1, s2, s3, s4, s5, s6, s7⟩ := rectMatrix_sum w h q0 q1 q2 q3 y
  have e0 := hy 0 (by norm_num)
  have e1 := hy 1 (by norm_num)
  have e2 := hy 2 (by norm_num)
  have e3 := hy 3 (by norm_num)
  have e4 := hy 4 (by norm_num)
  have e5 := hy 5 (by norm_num)
  have e6 := hy 6 (by norm_num)
  have e7 := hy 7 (by norm_num)
  rw [s0] at e0; rw [s1] at e1; rw [s2] at e2; rw [s3] at e3
  rw [s4] at e4; rw [s5] at e5; rw [s6] at e6; rw [s7] at e7
  unfold cross at hc
  have hg : w * y 6 * ((q2.x - q1.x) * (q3.y - q1.y) - (q2.y - q1.y) * (q3.x - q1.x)) = 0 := by
    linear_combination (q2.y - q3.y) * (e4 - e2 - e6 + e0)
      + (q3.x - q2.x) * (e5 - e3 - e7 + e1)
  have hk : h * y 7 * ((q2.x - q1.x) * (q3.y - q1.y) - (q2.y - q1.y) * (q3.x - q1.x)) = 0 := by
    linear_combination (q1.y - q2.y) * (e4 - e2 - e6 + e0)
      - (q1.x - q2.x) * (e5 - e3 - e7 + e1)
  have y6 : y 6 = 0 := by
    rcases mul_eq_zero.mp hg with h1 | h1
    · rcases mul_eq_zero.mp h1 with h2 | h2
      · exact absurd h2 hw
      · exact h2
    · exact absurd h1 hc
  have y7 : y 7 = 0 := by
    rcases mul_eq_zero.mp hk with h1 | h1
    · rcases mul_eq_zero.mp h1 with h2 | h2
      · exact absurd h2 hh
      · exact h2
    · exact absurd h1 hc
  have y0 : y 0 = 0 := by
    have : w * y 0 = 0 := by linear_combination e2 - e0 + q1.x * w * y6
    exact (mul_eq_zero.mp this).resolve_left hw
  have y3 : y 3 = 0 := by
    have : w * y 3 = 0 := by linear_combination e3 - e1 + q1.y * w * y6
    exact (mul_eq_zero.mp this).resolve_left hw
  have y1 : y 1 = 0 := by
    have : h * y 1 = 0 := by linear_combination e6 - e0 + q3.x * h * y7
    exact (mul_eq_zero.mp this).resolve_left hh
  have y4 : y 4 = 0 := by
    have : h * y 4 = 0 := by linear_combination e7 - e1 + q3.y * h * y7
    exact (mul_eq_zero.mp this).resolve_left hh
  intro c hc8
  interval_cases c
  · exact y0
  · exact y1
  · exact e0
  · exact y3
  · exact y4
  · exact e1
  · exact y6
  · exact y7

/-- The eight equations that the output of `solveHomography` satisfies on a
rectangle when the last three destination points are not collinear. -/
theorem solveHomography_rect_equations (w h : ℚ) (q0 q1 q2 q3 : Point)
    (hw : w ≠ 0) (hh : h ≠ 0) (hc : cross q1 q2 q3 ≠ 0) :
    ∃ a b c d e f g k : ℚ,
      solveHomography [⟨0, 0⟩, ⟨w, 0⟩, ⟨w, h⟩, ⟨0, h⟩] [q0, q1, q2, q3] =
        some [[a, b, c], [d, e, f], [g, k, 1]] ∧
      c = q0.x ∧ f = q0.y ∧
      w * a + c - q1.x * w * g = q1.x ∧
      w * d + f - q1.y * w * g = q1.y ∧
      w * a + h * b + c - q2.x * w * g - q2.x * h * k = q2.x ∧
      w * d + h * e + f - q2.y * w * g - q2.y * h * k = q2.y ∧
      h * b + c - q3.x * h * k = q3.x ∧
      h * e + f - q3.y * h * k = q3.y := by
  obtain ⟨_, hsol⟩ := solveLinearSystem_solves (rectMatrix w h q0 q1 q2 q3)
    (rectRhs q0 q1 q2 q3) (shape_rectMatrix w h q0 q1 q2 q3)
    (trivialKernel_rectMatrix w h q0 q1 q2 q3 hw hh hc)
  obtain ⟨s0, s1, s2, s3, s4, s5, s6, s7⟩ := rectMatrix_sum w h q0 q1 q2 q3
    (fun c => (solveLinearSystem (rectMatrix w h q0 q1 q2 q3) (rectRhs q0 q1 q2 q3)).getD c 0)
  refine ⟨_, _, _, _, _, _, _, _, solveHomography_rect w h q0 q1 q2 q3, ?_, ?_, ?_, ?_, ?_, ?_,
    ?_, ?_⟩
  · rw [← s0]; exact hsol 0 (by norm_num)
  · rw [← s1]; exact hsol 1 (by norm_num)
  · rw [← s2]; exact hsol 2 (by norm_num)
  · rw [← s3]; exact hsol 3 (by norm_num)
  · rw [← s4]; exact hsol 4 (by norm_num)
  · rw [← s5]; exact hsol 5 (by norm_num)
  · rw [← s6]; exact hsol 6 (by norm_num)
  · rw [← s7]; exact hsol 7 (by norm_num)

/-- On a rectangle of non-zero sides and a destination quad with no three
collinear corners, the matrix of `solveHomography` sends every corner of the
rectangle to the destination corner of the same index, with a non-zero
denominator. -/
theorem solveHomography_rect_maps (w h : ℚ) (q0 q1 q2 q3 : Point)
    (hw : w ≠ 0) (hh : h ≠ 0)
    (h012 : cross q0 q1 q2 ≠ 0) (h013 : cross q0 q1 q3 ≠ 0)
    (h023 : cross q0 q2 q3 ≠ 0) (h123 : cross q1 q2 q3 ≠ 0) :
    ∃ H, solveHomography [⟨0, 0⟩, ⟨w, 0⟩, ⟨w, h⟩, ⟨0, h⟩] [q0, q1, q2, q3] = some H ∧
      ent H 2 2 = 1 ∧
      ent H 2 0 * w + 1 ≠ 0 ∧ ent H 2 0 * w + ent H 2 1 * h + 1 ≠ 0 ∧
      ent H 2 1 * h + 1 ≠ 0 ∧
      MapsTo H ⟨0, 0⟩ q0 ∧ MapsTo H ⟨w, 0⟩ q1 ∧ MapsTo H ⟨w, h⟩ q2 ∧ MapsTo H ⟨0, h⟩ q3 := by
  obtain ⟨a, b, c, d, e, f, g, k, hH, E0, E1, E2, E3, E4, E5, E6, E7⟩ :=
    solveHomography_rect_equations w h q0 q1 q2 q3 hw hh h123
  have D1 : g * w + 1 ≠ 0 := by
    intro hD
    apply h023
    have X : h * k * (q2.x - q3.x) = q3.x - q0.x := by
      linear_combination (-1 : ℚ) * E4 + E2 + E6 - E0 + (q1.x - q2.x) * hD
    have Y : h * k * (q2.y - q3.y) = q3.y - q0.y := by
      linear_combination (-1 : ℚ) * E5 + E3 + E7 - E1 + (q1.y - q2.y) * hD
    unfold cross
    linear_combination (-(q2.x - q3.x)) * Y + (q2.y - q3.y) * X
  have D3 : k * h + 1 ≠ 0 := by
    intro hD
    apply h012
    have X : w * g * (q2.x - q1.x) = q1.x - q0.x := by
      linear_combination (-1 : ℚ) * E4 + E2 + E6 - E0 + (q3.x - q2.x) * hD
    have Y : w * g * (q2.y - q1.y) = q1.y - q0.y := by
      linear_combination (-1 : ℚ) * E5 + E3 + E7 - E1 + (q3.y - q2.y) * hD
    unfold cross
    linear_combination (q2.x - q1.x) * Y - (q2.y - q1.y) * X
  have D2 : g * w + k * h + 1 ≠ 0 := by
    intro hD
    apply h013
    have X : q0.x = (w * g + 1) * q1.x + (h * k + 1) * q3.x := by
      linear_combination (-1 : ℚ) * E4 + E2 + E6 - E0 - q2.x * hD
    have Y : q0.y = (w * g + 1) * q1.y + (h * k + 1) * q3.y := by
      linear_combination (-1 : ℚ) * E5 + E3 + E7 - E1 - q2.y * hD
    unfold cross
    rw [X, Y]
    have hk' : h * k = -(w * g + 1) := by linear_combination hD
    rw [hk']
    ring
  refine ⟨_, hH, rfl, D1, D2, D3, ?_, ?_, ?_, ?_⟩
  · unfold MapsTo
    simp only [ent, List.getD_cons_zero, List.getD_cons_succ, mul_zero, add_zero, zero_add,
      div_one]
    exact ⟨E0.symm, E1.symm⟩
  · unfold MapsTo
    simp only [ent, List.getD_cons_zero, List.getD_cons_succ, mul_zero, add_zero]
    exact ⟨by rw [eq_div_iff D1]; linear_combination (-1 : ℚ) * E2,
      by rw [eq_div_iff D1]; linear_combination (-1 : ℚ) * E3⟩
  · unfold MapsTo
    simp only [ent, List.getD_cons_zero, List.getD_cons_succ]
    exact ⟨by rw [eq_div_iff D2]; linear_combination (-1 : ℚ) * E4,
      by rw [eq_div_iff D2]; linear_combination (-1 : ℚ) * E5⟩
  · unfold MapsTo
    simp only [ent, List.getD_cons_zero, List.getD_cons_succ, mul_zero, zero_add]
    exact ⟨by rw [eq_div_iff D3]; linear_combination (-1 : ℚ) * E6,
      by rw [eq_div_iff D3]; linear_combination (-1 : ℚ) * E7⟩

/-! ## `computeCssHomography` -/

theorem computeCssHomography_four (q0 q1 q2 q3 : Point) :
    computeCssHomography [q0, q1, q2, q3] =
      (solveHomography (canonicalSrc q0 q1 q2 q3) [q0, q1, q2, q3]).map
      (fun H =>
        { matrix3d := matrix3dEntries H,
          width := canonicalWidth q0 q1 q2 q3,
          height := canonicalHeight q0 q1 q2 q3 }) :=
  rfl

theorem toFixed10_intCast (n : ℤ) : toFixed10 (n : ℚ) = n := by
  have key : ∀ k : ℤ, ⌊(k : ℚ) * 10 ^ 10 + 1 / 2⌋ = k * 10 ^ 10 := by
    intro k
    rw [Int.floor_eq_iff]
    push_cast
    constructor <;> norm_num
  have hpos : ((10 : ℚ) ^ 10) ≠ 0 := by norm_num
  unfold toFixed10
  by_cases h : (n : ℚ) < 0
  · rw [if_pos h]
    have := key (-n)
    rw [Int.cast_neg] at this
    rw [this, Int.cast_mul, Int.cast_neg, Int.cast_pow, Int.cast_ofNat, neg_mul, neg_neg,
      mul_div_assoc, div_self hpos, mul_one]
  · rw [if_neg h, key n, Int.cast_mul, Int.cast_pow, Int.cast_ofNat, mul_div_assoc,
      div_self hpos, mul_one]

/-- The value of `toFixed10` is a multiple of `10^-10` at distance at most
`10^-10 / 2` from its argument. -/
theorem toFixed10_rounds (v : ℚ) :
    (∃ n : ℤ, toFixed10 v = (n : ℚ) / 10 ^ 10) ∧ |toFixed10 v - v| ≤ 1 / (2 * 10 ^ 10) := by
  unfold toFixed10
  by_cases h : v < 0
  · rw [if_pos h]
    refine ⟨⟨-⌊(-v) * 10 ^ 10 + 1 / 2⌋, by push_cast; ring⟩, ?_⟩
    have h1 := Int.floor_le ((-v) * 10 ^ 10 + 1 / 2)
    have h2 := Int.lt_floor_add_one ((-v) * 10 ^ 10 + 1 / 2)
    generalize ((⌊(-v) * 10 ^ 10 + 1 / 2⌋ : ℤ) : ℚ) = F at h1 h2 ⊢
    rw [abs_le]
    norm_num at h1 h2 ⊢
    constructor <;> linarith
  · rw [if_neg h]
    refine ⟨⟨⌊v * 10 ^ 10 + 1 / 2⌋, rfl⟩, ?_⟩
    have h1 := Int.floor_le (v * 10 ^ 10 + 1 / 2)
    have h2 := Int.lt_floor_add_one (v * 10 ^ 10 + 1 / 2)
    generalize ((⌊v * 10 ^ 10 + 1 / 2⌋ : ℤ) : ℚ) = F at h1 h2 ⊢
    rw [abs_le]
    norm_num at h1 h2 ⊢
    constructor <;> linarith

/-! ## Two eliminations carried out -/

theorem gaussLoop_eight (M : List (List ℚ)) :
    gaussLoop M 8 9 8 =
      pivotStep (pivotStep (pivotStep (pivotStep (pivotStep (pivotStep (pivotStep
        (pivotStep M 8 9 0) 8 9 1) 8 9 2) 8 9 3) 8 9 4) 8 9 5) 8 9 6) 8 9 7 := by
  simp only [gaussLoop, List.range, List.range.loop, List.foldl_cons, List.foldl_nil]

/-- The augmented matrix of the square `[(100,100),(300,100),(300,300),(100,300)]`. -/
theorem square_augment :
    augment (rectMatrix 200 200 ⟨100, 100⟩ ⟨300, 100⟩ ⟨300, 300⟩ ⟨100, 300⟩) (rectRhs ⟨100, 100⟩ ⟨300, 100⟩ ⟨300, 300⟩ ⟨100, 300⟩) =
    [[0, 0, 1, 0, 0, 0, 0, 0, 100],
     [0, 0, 0, 0, 0, 1, 0, 0, 100],
     [200, 0, 1, 0, 0, 0, (-60000), 0, 300],
     [0, 0, 0, 200, 0, 1, (-20000), 0, 100],
     [200, 200, 1, 0, 0, 0, (-60000), (-60000), 300],
     [0, 0, 0, 200, 200, 1, (-60000), (-60000), 300],
     [0, 200, 1, 0, 0, 0, 0, (-20000), 100],
     [0, 0, 0, 0, 200, 1, 0, (-60000), 300]] := by
  simp only [augment, rectMatrix, rectRhs, homographyRows, List.cons_append, List.nil_append,
    List.length_cons, List.length_nil, List.range, List.range.loop, List.map_cons, List.map_nil,
    List.getD_cons_zero, List.getD_cons_succ]
  norm_num

set_option maxRecDepth 100000 in
theorem square_step0 :
    pivotStep
    [[0, 0, 1, 0, 0, 0, 0, 0, 100],
     [0, 0, 0, 0, 0, 1, 0, 0, 100],
     [200, 0, 1, 0, 0, 0, (-60000), 0, 300],
     [0, 0, 0, 200, 0, 1, (-20000), 0, 100],
     [200, 200, 1, 0, 0, 0, (-60000), (-60000), 300],
     [0, 0, 0, 200, 200, 1, (-60000), (-60000), 300],
     [0, 200, 1, 0, 0, 0, 0, (-20000), 100],
     [0, 0, 0, 0, 200, 1, 0, (-60000), 300]] 8 9 0 =
    [[1, 0, 1 / 200, 0, 0, 0, (-300), 0, 3 / 2],
     [0, 0, 0, 0, 0, 1, 0, 0, 100],
     [0, 0, 1, 0, 0, 0, 0, 0, 100],
     [0, 0, 0, 200, 0, 1, (-20000), 0, 100],
     [0, 200, 0, 0, 0, 0, 0, (-60000), 0],
     [0, 0, 0, 200, 200, 1, (-60000), (-60000), 300],
     [0, 200, 1, 0, 0, 0, 0, (-20000), 100],
     [0, 0, 0, 0, 200, 1, 0, (-60000), 300]] := by
  simp [pivotStep, findPivot, swapRows, pivotDenom, divideRow, subtractRow, eliminate, ent,
    List.range, List.range.loop, List.range', List.set, List.getD]
  norm_num

set_option maxRecDepth 100000 in
theorem square_step1 :
    pivotStep
    [[1, 0, 1 / 200, 0, 0, 0, (-300), 0, 3 / 2],
     [0, 0, 0, 0, 0, 1, 0, 0, 100],
     [0, 0, 1, 0, 0, 0, 0, 0, 100],
     [0, 0, 0, 200, 0, 1, (-20000), 0, 100],
     [0, 200, 0, 0, 0, 0, 0, (-60000), 0],
     [0, 0, 0, 200, 200, 1, (-60000), (-60000), 300],
     [0, 200, 1, 0, 0, 0, 0, (-20000), 100],
     [0, 0, 0, 0, 200, 1, 0, (-60000), 300]] 8 9 1 =
    [[1, 0, 1 / 200, 0, 0, 0, (-300), 0, 3 / 2],
     [0, 1, 0, 0, 0, 0, 0, (-300), 0],
     [0, 0, 1, 0, 0, 0, 0, 0, 100],
     [0, 0, 0, 200, 0, 1, (-20000), 0, 100],
     [0, 0, 0, 0, 0, 1, 0, 0, 100],
     [0, 0, 0, 200, 200, 1, (-60000), (-60000), 300],
     [0, 0, 1, 0, 0, 0, 0, 40000, 100],
     [0, 0, 0, 0, 200, 1, 0, (-60000), 300]] := by
  simp [pivotStep, findPivot, swapRows, pivotDenom, divideRow, subtractRow, eliminate, ent,
    List.range, List.range.loop, List.range', List.set, List.getD]
  norm_num

set_option maxRecDepth 100000 in
theorem square_step2 :
    pivotStep
    [[1, 0, 1 / 200, 0, 0, 0, (-300), 0, 3 / 2],
     [0, 1, 0, 0, 0, 0, 0, (-300), 0],
     [0, 0, 1, 0, 0, 0, 0, 0, 100],
     [0, 0, 0, 200, 0, 1, (-20000), 0, 100],
     [0, 0, 0, 0, 0, 1, 0, 0, 100],
     [0, 0, 0, 200, 200, 1, (-60000), (-60000), 300],
     [0, 0, 1, 0, 0, 0, 0, 40000, 100],
     [0, 0, 0, 0, 200, 1, 0, (-60000), 300]] 8 9 2 =
    [[1, 0, 0, 0, 0, 0, (-300), 0, 1],
     [0, 1, 0, 0, 0, 0, 0, (-300), 0],
     [0, 0, 1, 0, 0, 0, 0, 0, 100],
     [0, 0, 0, 200, 0, 1, (-20000), 0, 100],
     [0, 0, 0, 0, 0, 1, 0, 0, 100],
     [0, 0, 0, 200, 200, 1, (-60000), (-60000), 300],
     [0, 0, 0, 0, 0, 0, 0, 40000, 0],
     [0, 0, 0, 0, 200, 1, 0, (-60000), 300]] := by
  simp [pivotStep, findPivot, swapRows, pivotDenom, divideRow, subtractRow, eliminate, ent,
    List.range, List.range.loop, List.range', List.set, List.getD]
  norm_num

set_option maxRecDepth 100000 in
theorem square_step3 :
    pivotStep
    [[1, 0, 0, 0, 0, 0, (-300), 0, 1],
     [0, 1, 0, 0, 0, 0, 0, (-300), 0],
     [0, 0, 1, 0, 0, 0, 0, 0, 100],
     [0, 0, 0, 200, 0, 1, (-20000), 0, 100],
     [0, 0, 0, 0, 0, 1, 0, 0, 100],
     [0, 0, 0, 200, 200, 1, (-60000), (-60000), 300],
     [0, 0, 0, 0, 0, 0, 0, 40000, 0],
     [0, 0, 0, 0, 200, 1, 0, (-60000), 300]] 8 9 3 =
    [[1, 0, 0, 0, 0, 0, (-300), 0, 1],
     [0, 1, 0, 0, 0, 0, 0, (-300), 0],
     [0, 0, 1, 0, 0, 0, 0, 0, 100],
     [0, 0, 0, 1, 0, 1 / 200, (-100), 0, 1 / 2],
     [0, 0, 0, 0, 0, 1, 0, 0, 100],
     [0, 0, 0, 0, 200, 0, (-40000), (-60000), 200],
     [0, 0, 0, 0, 0, 0, 0, 40000, 0],
     [0, 0, 0, 0, 200, 1, 0, (-60000), 300]] := by
  simp [pivotStep, findPivot, swapRows, pivotDenom, divideRow, subtractRow, eliminate, ent,
    List.range, List.range.loop, List.range', List.set, List.getD]
  norm_num

set_option maxRecDepth 100000 in
theorem square_step4 :
    pivotStep
    [[1, 0, 0, 0, 0, 0, (-300), 0, 1],
     [0, 1, 0, 0, 0, 0, 0, (-300), 0],
     [0, 0, 1, 0, 0, 0, 0, 0, 100],
     [0, 0, 0, 1, 0, 1 / 200, (-100), 0, 1 / 2],
     [0, 0, 0, 0, 0, 1, 0, 0, 100],
     [0, 0, 0, 0, 200, 0, (-40000), (-60000), 200],
     [0, 0, 0, 0, 0, 0, 0, 40000, 0],
     [0, 0, 0, 0, 200, 1, 0, (-60000), 300]] 8 9 4 =
    [[1, 0, 0, 0, 0, 0, (-300), 0, 1],
     [0, 1, 0, 0, 0, 0, 0, (-300), 0],
     [0, 0, 1, 0, 0, 0, 0, 0, 100],
     [0, 0, 0, 1, 0, 1 / 200, (-100), 0, 1 / 2],
     [0, 0, 0, 0, 1, 0, (-200), (-300), 1],
     [0, 0, 0, 0, 0, 1, 0, 0, 100],
     [0, 0, 0, 0, 0, 0, 0, 40000, 0],
     [0, 0, 0, 0, 0, 1, 40000, 0, 100]] := by
  simp [pivotStep, findPivot, swapRows, pivotDenom, divideRow, subtractRow, eliminate, ent,
    List.range, List.range.loop, List.range', List.set, List.getD]
  norm_num

set_option maxRecDepth 100000 in
theorem square_step5 :
    pivotStep
    [[1, 0, 0, 0, 0, 0, (-300), 0, 1],
     [0, 1, 0, 0, 0, 0, 0, (-300), 0],
     [0, 0, 1, 0, 0, 0, 0, 0, 100],
     [0, 0, 0, 1, 0, 1 / 200, (-100), 0, 1 / 2],
     [0, 0, 0, 0, 1, 0, (-200), (-300), 1],
     [0, 0, 0, 0, 0, 1, 0, 0, 100],
     [0, 0, 0, 0, 0, 0, 0, 40000, 0],
     [0, 0, 0, 0, 0, 1, 40000, 0, 100]] 8 9 5 =
    [[1, 0, 0, 0, 0, 0, (-300), 0, 1],
     [0, 1, 0, 0, 0, 0, 0, (-300), 0],
     [0, 0, 1, 0, 0, 0, 0, 0, 100],
     [0, 0, 0, 1, 0, 0, (-100), 0, 0],
     [0, 0, 0, 0, 1, 0, (-200), (-300), 1],
     [0, 0, 0, 0, 0, 1, 0, 0, 100],
     [0, 0, 0, 0, 0, 0, 0, 40000, 0],
     [0, 0, 0, 0, 0, 0, 40000, 0, 0]] := by
  simp [pivotStep, findPivot, swapRows, pivotDenom, divideRow, subtractRow, eliminate, ent,
    List.range, List.range.loop, List.range', List.set, List.getD]
  norm_num

set_option maxRecDepth 100000 in
theorem square_step6 :
    pivotStep
    [[1, 0, 0, 0, 0, 0, (-300), 0, 1],
     [0, 1, 0, 0, 0, 0, 0, (-300), 0],
     [0, 0, 1, 0, 0, 0, 0, 0, 100],
     [0, 0, 0, 1, 0, 0, (-100), 0, 0],
     [0, 0, 0, 0, 1, 0, (-200), (-300), 1],
     [0, 0, 0, 0, 0, 1, 0, 0, 100],
     [0, 0, 0, 0, 0, 0, 0, 40000, 0],
     [0, 0, 0, 0, 0, 0, 40000, 0, 0]] 8 9 6 =
    [[1, 0, 0, 0, 0, 0, 0, 0, 1],
     [0, 1, 0, 0, 0, 0, 0, (-300), 0],
     [0, 0, 1, 0, 0, 0, 0, 0, 100],
     [0, 0, 0, 1, 0, 0, 0, 0, 0],
     [0, 0, 0, 0, 1, 0, 0, (-300), 1],
     [0, 0, 0, 0, 0, 1, 0, 0, 100],
     [0, 0, 0, 0, 0, 0, 1, 0, 0],
     [0, 0, 0, 0, 0, 0, 0, 40000, 0]] := by
  simp [pivotStep, findPivot, swapRows, pivotDenom, divideRow, subtractRow, eliminate, ent,
    List.range, List.range.loop, List.range', List.set, List.getD]

set_option maxRecDepth 100000 in
theorem square_step7 :
    pivotStep
    [[1, 0, 0, 0, 0, 0, 0, 0, 1],
     [0, 1, 0, 0, 0, 0, 0, (-300), 0],
     [0, 0, 1, 0, 0, 0, 0, 0, 100],
     [0, 0, 0, 1, 0, 0, 0, 0, 0],
     [0, 0, 0, 0, 1, 0, 0, (-300), 1],
     [0, 0, 0, 0, 0, 1, 0, 0, 100],
     [0, 0, 0, 0, 0, 0, 1, 0, 0],
     [0, 0, 0, 0, 0, 0, 0, 40000, 0]] 8 9 7 =
    [[1, 0, 0, 0, 0, 0, 0, 0, 1],
     [0, 1, 0, 0, 0, 0, 0, 0, 0],
     [0, 0, 1, 0, 0, 0, 0, 0, 100],
     [0, 0, 0, 1, 0, 0, 0, 0, 0],
     [0, 0, 0, 0, 1, 0, 0, 0, 1],
     [0, 0, 0, 0, 0, 1, 0, 0, 100],
     [0, 0, 0, 0, 0, 0, 1, 0, 0],
     [0, 0, 0, 0, 0, 0, 0, 1, 0]] := by
  simp [pivotStep, findPivot, swapRows, pivotDenom, divideRow, subtractRow, eliminate, ent,
    List.range, List.range.loop, List.range', List.set, List.getD]

/-- The elimination of the square `[(100,100),(300,100),(300,300),(100,300)]`, run to its end. -/
theorem square_gaussLoop :
    gaussLoop (augment (rectMatrix 200 200 ⟨100, 100⟩ ⟨300, 100⟩ ⟨300, 300⟩ ⟨100, 300⟩) (rectRhs ⟨100, 100⟩ ⟨300, 100⟩ ⟨300, 300⟩ ⟨100, 300⟩)) 8 9 8 =
    [[1, 0, 0, 0, 0, 0, 0, 0, 1],
     [0, 1, 0, 0, 0, 0, 0, 0, 0],
     [0, 0, 1, 0, 0, 0, 0, 0, 100],
     [0, 0, 0, 1, 0, 0, 0, 0, 0],
     [0, 0, 0, 0, 1, 0, 0, 0, 1],
     [0, 0, 0, 0, 0, 1, 0, 0, 100],
     [0, 0, 0, 0, 0, 0, 1, 0, 0],
     [0, 0, 0, 0, 0, 0, 0, 1, 0]] := by
  rw [square_augment]
  rw [gaussLoop_eight, square_step0, square_step1, square_step2, square_step3, square_step4, square_step5,
    square_step6, square_step7]

/-- The augmented matrix of the quad `[(0,0),(200,0),(400,0),(0,200)]`. -/
theorem flat_augment :
    augment (rectMatrix 400 200 ⟨0, 0⟩ ⟨200, 0⟩ ⟨400, 0⟩ ⟨0, 200⟩) (rectRhs ⟨0, 0⟩ ⟨200, 0⟩ ⟨400, 0⟩ ⟨0, 200⟩) =
    [[0, 0, 1, 0, 0, 0, 0, 0, 0],
     [0, 0, 0, 0, 0, 1, 0, 0, 0],
     [400, 0, 1, 0, 0, 0, (-80000), 0, 200],
     [0, 0, 0, 400, 0, 1, 0, 0, 0],
     [400, 200, 1, 0, 0, 0, (-160000), (-80000), 400],
     [0, 0, 0, 400, 200, 1, 0, 0, 0],
     [0, 200, 1, 0, 0, 0, 0, 0, 0],
     [0, 0, 0, 0, 200, 1, 0, (-40000), 200]] := by
  simp only [augment, rectMatrix, rectRhs, homographyRows, List.cons_append, List.nil_append,
    List.length_cons, List.length_nil, List.range, List.range.loop, List.map_cons, List.map_nil,
    List.getD_cons_zero, List.getD_cons_succ]
  norm_num

set_option maxRecDepth 100000 in
theorem flat_step0 :
    pivotStep
    [[0, 0, 1, 0, 0, 0, 0, 0, 0],
     [0, 0, 0, 0, 0, 1, 0, 0, 0],
     [400, 0, 1, 0, 0, 0, (-80000), 0, 200],
     [0, 0, 0, 400, 0, 1, 0, 0, 0],
     [400, 200, 1, 0, 0, 0, (-160000), (-80000), 400],
     [0, 0, 0, 400, 200, 1, 0, 0, 0],
     [0, 200, 1, 0, 0, 0, 0, 0, 0],
     [0, 0, 0, 0, 200, 1, 0, (-40000), 200]] 8 9 0 =
    [[1, 0, 1 / 400, 0, 0, 0, (-200), 0, 1 / 2],
     [0, 0, 0, 0, 0, 1, 0, 0, 0],
     [0, 0, 1, 0, 0, 0, 0, 0, 0],
     [0, 0, 0, 400, 0, 1, 0, 0, 0],
     [0, 200, 0, 0, 0, 0, (-80000), (-80000), 200],
     [0, 0, 0, 400, 200, 1, 0, 0, 0],
     [0, 200, 1, 0, 0, 0, 0, 0, 0],
     [0, 0, 0, 0, 200, 1, 0, (-40000), 200]] := by
  simp [pivotStep, findPivot, swapRows, pivotDenom, divideRow, subtractRow, eliminate, ent,
    List.range, List.range.loop, List.range', List.set, List.getD]
  norm_num

set_option maxRecDepth 100000 in
theorem flat_step1 :
    pivotStep
    [[1, 0, 1 / 400, 0, 0, 0, (-200), 0, 1 / 2],
     [0, 0, 0, 0, 0, 1, 0, 0, 0],
     [0, 0, 1, 0, 0, 0, 0, 0, 0],
     [0, 0, 0, 400, 0, 1, 0, 0, 0],
     [0, 200, 0, 0, 0, 0, (-80000), (-80000), 200],
     [0, 0, 0, 400, 200, 1, 0, 0, 0],
     [0, 200, 1, 0, 0, 0, 0, 0, 0],
     [0, 0, 0, 0, 200, 1, 0, (-40000), 200]] 8 9 1 =
    [[1, 0, 1 / 400, 0, 0, 0, (-200), 0, 1 / 2],
     [0, 1, 0, 0, 0, 0, (-400), (-400), 1],
     [0, 0, 1, 0, 0, 0, 0, 0, 0],
     [0, 0, 0, 400, 0, 1, 0, 0, 0],
     [0, 0, 0, 0, 0, 1, 0, 0, 0],
     [0, 0, 0, 400, 200, 1, 0, 0, 0],
     [0, 0, 1, 0, 0, 0, 80000, 80000, (-200)],
     [0, 0, 0, 0, 200, 1, 0, (-40000), 200]] := by
  simp [pivotStep, findPivot, swapRows, pivotDenom, divideRow, subtractRow, eliminate, ent,
    List.range, List.range.loop, List.range', List.set, List.getD]
  norm_num

set_option maxRecDepth 100000 in
theorem flat_step2 :
    pivotStep
    [[1, 0, 1 / 400, 0, 0, 0, (-200), 0, 1 / 2],
     [0, 1, 0, 0, 0, 0, (-400), (-400), 1],
     [0, 0, 1, 0, 0, 0, 0, 0, 0],
     [0, 0, 0, 400, 0, 1, 0, 0, 0],
     [0, 0, 0, 0, 0, 1, 0, 0, 0],
     [0, 0, 0, 400, 200, 1, 0, 0, 0],
     [0, 0, 1, 0, 0, 0, 80000, 80000, (-200)],
     [0, 0, 0, 0, 200, 1, 0, (-40000), 200]] 8 9 2 =
    [[1, 0, 0, 0, 0, 0, (-200), 0, 1 / 2],
     [0, 1, 0, 0, 0, 0, (-400), (-400), 1],
     [0, 0, 1, 0, 0, 0, 0, 0, 0],
     [0, 0, 0, 400, 0, 1, 0, 0, 0],
     [0, 0, 0, 0, 0, 1, 0, 0, 0],
     [0, 0, 0, 400, 200, 1, 0, 0, 0],
     [0, 0, 0, 0, 0, 0, 80000, 80000, (-200)],
     [0, 0, 0, 0, 200, 1, 0, (-40000), 200]] := by
  simp [pivotStep, findPivot, swapRows, pivotDenom, divideRow, subtractRow, eliminate, ent,
    List.range, List.range.loop, List.range', List.set, List.getD]

set_option maxRecDepth 100000 in
theorem flat_step3 :
    pivotStep
    [[1, 0, 0, 0, 0, 0, (-200), 0, 1 / 2],
     [0, 1, 0, 0, 0, 0, (-400), (-400), 1],
     [0, 0, 1, 0, 0, 0, 0, 0, 0],
     [0, 0, 0, 400, 0, 1, 0, 0, 0],
     [0, 0, 0, 0, 0, 1, 0, 0, 0],
     [0, 0, 0, 400, 200, 1, 0, 0, 0],
     [0, 0, 0, 0, 0, 0, 80000, 80000, (-200)],
     [0, 0, 0, 0, 200, 1, 0, (-40000), 200]] 8 9 3 =
    [[1, 0, 0, 0, 0, 0, (-200), 0, 1 / 2],
     [0, 1, 0, 0, 0, 0, (-400), (-400), 1],
     [0, 0, 1, 0, 0, 0, 0, 0, 0],
     [0, 0, 0, 1, 0, 1 / 400, 0, 0, 0],
     [0, 0, 0, 0, 0, 1, 0, 0, 0],
     [0, 0, 0, 0, 200, 0, 0, 0, 0],
     [0, 0, 0, 0, 0, 0, 80000, 80000, (-200)],
     [0, 0, 0, 0, 200, 1, 0, (-40000), 200]] := by
  simp [pivotStep, findPivot, swapRows, pivotDenom, divideRow, subtractRow, eliminate, ent,
    List.range, List.range.loop, List.range', List.set, List.getD]

set_option maxRecDepth 100000 in
theorem flat_step4 :
    pivotStep
    [[1, 0, 0, 0, 0, 0, (-200), 0, 1 / 2],
     [0, 1, 0, 0, 0, 0, (-400), (-400), 1],
     [0, 0, 1, 0, 0, 0, 0, 0, 0],
     [0, 0, 0, 1, 0, 1 / 400, 0, 0, 0],
     [0, 0, 0, 0, 0, 1, 0, 0, 0],
     [0, 0, 0, 0, 200, 0, 0, 0, 0],
     [0, 0, 0, 0, 0, 0, 80000, 80000, (-200)],
     [0, 0, 0, 0, 200, 1, 0, (-40000), 200]] 8 9 4 =
    [[1, 0, 0, 0, 0, 0, (-200), 0, 1 / 2],
     [0, 1, 0, 0, 0, 0, (-400), (-400), 1],
     [0, 0, 1, 0, 0, 0, 0, 0, 0],
     [0, 0, 0, 1, 0, 1 / 400, 0, 0, 0],
     [0, 0, 0, 0, 1, 0, 0, 0, 0],
     [0, 0, 0, 0, 0, 1, 0, 0, 0],
     [0, 0, 0, 0, 0, 0, 80000, 80000, (-200)],
     [0, 0, 0, 0, 0, 1, 0, (-40000), 200]] := by
  simp [pivotStep, findPivot, swapRows, pivotDenom, divideRow, subtractRow, eliminate, ent,
    List.range, List.range.loop, List.range', List.set, List.getD]
  norm_num

set_option maxRecDepth 100000 in
theorem flat_step5 :
    pivotStep
    [[1, 0, 0, 0, 0, 0, (-200), 0, 1 / 2],
     [0, 1, 0, 0, 0, 0, (-400), (-400), 1],
     [0, 0, 1, 0, 0, 0, 0, 0, 0],
     [0, 0, 0, 1, 0, 1 / 400, 0, 0, 0],
     [0, 0, 0, 0, 1, 0, 0, 0, 0],
     [0, 0, 0, 0, 0, 1, 0, 0, 0],
     [0, 0, 0, 0, 0, 0, 80000, 80000, (-200)],
     [0, 0, 0, 0, 0, 1, 0, (-40000), 200]] 8 9 5 =
    [[1, 0, 0, 0, 0, 0, (-200), 0, 1 / 2],
     [0, 1, 0, 0, 0, 0, (-400), (-400), 1],
     [0, 0, 1, 0, 0, 0, 0, 0, 0],
     [0, 0, 0, 1, 0, 0, 0, 0, 0],
     [0, 0, 0, 0, 1, 0, 0, 0, 0],
     [0, 0, 0, 0, 0, 1, 0, 0, 0],
     [0, 0, 0, 0, 0, 0, 80000, 80000, (-200)],
     [0, 0, 0, 0, 0, 0, 0, (-40000), 200]] := by
  simp [pivotStep, findPivot, swapRows, pivotDenom, divideRow, subtractRow, eliminate, ent,
    List.range, List.range.loop, List.range', List.set, List.getD]

set_option maxRecDepth 100000 in
theorem flat_step6 :
    pivotStep
    [[1, 0, 0, 0, 0, 0, (-200), 0, 1 / 2],
     [0, 1, 0, 0, 0, 0, (-400), (-400), 1],
     [0, 0, 1, 0, 0, 0, 0, 0, 0],
     [0, 0, 0, 1, 0, 0, 0, 0, 0],
     [0, 0, 0, 0, 1, 0, 0, 0, 0],
     [0, 0, 0, 0, 0, 1, 0, 0, 0],
     [0, 0, 0, 0, 0, 0, 80000, 80000, (-200)],
     [0, 0, 0, 0, 0, 0, 0, (-40000), 200]] 8 9 6 =
    [[1, 0, 0, 0, 0, 0, 0, 200, 0],
     [0, 1, 0, 0, 0, 0, 0, 0, 0],
     [0, 0, 1, 0, 0, 0, 0, 0, 0],
     [0, 0, 0, 1, 0, 0, 0, 0, 0],
     [0, 0, 0, 0, 1, 0, 0, 0, 0],
     [0, 0, 0, 0, 0, 1, 0, 0, 0],
     [0, 0, 0, 0, 0, 0, 1, 1, (-1 / 400)],
     [0, 0, 0, 0, 0, 0, 0, (-40000), 200]] := by
  simp [pivotStep, findPivot, swapRows, pivotDenom, divideRow, subtractRow, eliminate, ent,
    List.range, List.range.loop, List.range', List.set, List.getD]
  norm_num

set_option maxRecDepth 100000 in
theorem flat_step7 :
    pivotStep
    [[1, 0, 0, 0, 0, 0, 0, 200, 0],
     [0, 1, 0, 0, 0, 0, 0, 0, 0],
     [0, 0, 1, 0, 0, 0, 0, 0, 0],
     [0, 0, 0, 1, 0, 0, 0, 0, 0],
     [0, 0, 0, 0, 1, 0, 0, 0, 0],
     [0, 0, 0, 0, 0, 1, 0, 0, 0],
     [0, 0, 0, 0, 0, 0, 1, 1, (-1 / 400)],
     [0, 0, 0, 0, 0, 0, 0, (-40000), 200]] 8 9 7 =
    [[1, 0, 0, 0, 0, 0, 0, 0, 1],
     [0, 1, 0, 0, 0, 0, 0, 0, 0],
     [0, 0, 1, 0, 0, 0, 0, 0, 0],
     [0, 0, 0, 1, 0, 0, 0, 0, 0],
     [0, 0, 0, 0, 1, 0, 0, 0, 0],
     [0, 0, 0, 0, 0, 1, 0, 0, 0],
     [0, 0, 0, 0, 0, 0, 1, 0, 1 / 400],
     [0, 0, 0, 0, 0, 0, 0, 1, (-1 / 200)]] := by
  simp [pivotStep, findPivot, swapRows, pivotDenom, divideRow, subtractRow, eliminate, ent,
    List.range, List.range.loop, List.range', List.set, List.getD]
  norm_num

/-- The elimination of the quad `[(0,0),(200,0),(400,0),(0,200)]`, run to its end. -/
theorem flat_gaussLoop :
    gaussLoop (augment (rectMatrix 400 200 ⟨0, 0⟩ ⟨200, 0⟩ ⟨400, 0⟩ ⟨0, 200⟩) (rectRhs ⟨0, 0⟩ ⟨200, 0⟩ ⟨400, 0⟩ ⟨0, 200⟩)) 8 9 8 =
    [[1, 0, 0, 0, 0, 0, 0, 0, 1],
     [0, 1, 0, 0, 0, 0, 0, 0, 0],
     [0, 0, 1, 0, 0, 0, 0, 0, 0],
     [0, 0, 0, 1, 0, 0, 0, 0, 0],
     [0, 0, 0, 0, 1, 0, 0, 0, 0],
     [0, 0, 0, 0, 0, 1, 0, 0, 0],
     [0, 0, 0, 0, 0, 0, 1, 0, 1 / 400],
     [0, 0, 0, 0, 0, 0, 0, 1, (-1 / 200)]] := by
  rw [flat_augment]
  rw [gaussLoop_eight, flat_step0, flat_step1, flat_step2, flat_step3, flat_step4, flat_step5,
    flat_step6, flat_step7]

theorem toFixed10_zero : toFixed10 0 = 0 := by
  simpa using toFixed10_intCast 0

theorem toFixed10_one : toFixed10 1 = 1 := by
  simpa using toFixed10_intCast 1

theorem toFixed10_hundred : toFixed10 100 = 100 := by
  simpa using toFixed10_intCast 100

theorem square_solveHomography :
    solveHomography [⟨0, 0⟩, ⟨200, 0⟩, ⟨200, 200⟩, ⟨0, 200⟩]
        [⟨100, 100⟩, ⟨300, 100⟩, ⟨300, 300⟩, ⟨100, 300⟩] =
      some [[1, 0, 100], [0, 1, 100], [0, 0, 1]] := by
  rw [solveHomography_rect, solveLinearSystem_eq _ _ (shape_rectMatrix _ _ _ _ _ _),
    square_gaussLoop]
  simp only [List.map_cons, List.map_nil, List.getD_cons_zero, List.getD_cons_succ]

theorem flat_solveHomography :
    solveHomography [⟨0, 0⟩, ⟨400, 0⟩, ⟨400, 200⟩, ⟨0, 200⟩]
        [⟨0, 0⟩, ⟨200, 0⟩, ⟨400, 0⟩, ⟨0, 200⟩] =
      some [[1, 0, 0], [0, 0, 0], [1 / 400, -1 / 200, 1]] := by
  rw [solveHomography_rect, solveLinearSystem_eq _ _ (shape_rectMatrix _ _ _ _ _ _),
    flat_gaussLoop]
  simp only [List.map_cons, List.map_nil, List.getD_cons_zero, List.getD_cons_succ]

/-- C5: for the quad `[(100,100),(300,100),(300,300),(100,300)]`
`computeCssHomography` returns width 200 and height 200, the solved homography
is `a=1, b=0, c=100, d=0, e=1, f=100, g=0, h=0` with bottom-right entry 1, and
the 16 entries of `matrix3d` are those of the translation by `(100, 100)`. -/
theorem square_computeCssHomography :
    solveHomography [⟨0, 0⟩, ⟨200, 0⟩, ⟨200, 200⟩, ⟨0, 200⟩]
        [⟨100, 100⟩, ⟨300, 100⟩, ⟨300, 300⟩, ⟨100, 300⟩] =
      some [[1, 0, 100], [0, 1, 100], [0, 0, 1]] ∧
    computeCssHomography [⟨100, 100⟩, ⟨300, 100⟩, ⟨300, 300⟩, ⟨100, 300⟩] =
      some { matrix3d := [1, 0, 0, 0, 0, 1, 0, 0, 0, 0, 1, 0, 100, 100, 0, 1],
             width := 200, height := 200 } := by
  refine ⟨square_solveHomography, ?_⟩
  rw [computeCssHomography_four]
  have hw : canonicalWidth ⟨100, 100⟩ ⟨300, 100⟩ ⟨300, 300⟩ ⟨100, 300⟩ = 200 := by
    norm_num [canonicalWidth]
  have hh : canonicalHeight ⟨100, 100⟩ ⟨300, 100⟩ ⟨300, 300⟩ ⟨100, 300⟩ = 200 := by
    norm_num [canonicalHeight]
  simp only [canonicalSrc, hw, hh, square_solveHomography, Option.map_some', matrix3dEntries, ent,
    List.getD_cons_zero, List.getD_cons_succ, List.map_cons, List.map_nil, toFixed10_zero,
    toFixed10_one, toFixed10_hundred]

theorem min4_mem (a b c d : ℚ) :
    min (min (min a b) c) d = a ∨ min (min (min a b) c) d = b ∨
    min (min (min a b) c) d = c ∨ min (min (min a b) c) d = d := by
  rcases min_choice (min (min a b) c) d with h | h
  · rcases min_choice (min a b) c with h' | h'
    · rcases min_choice a b with h'' | h''
      · left; rw [h, h', h'']
      · right; left; rw [h, h', h'']
    · right; right; left; rw [h, h']
  · right; right; right; exact h

theorem max4_mem (a b c d : ℚ) :
    max (max (max a b) c) d = a ∨ max (max (max a b) c) d = b ∨
    max (max (max a b) c) d = c ∨ max (max (max a b) c) d = d := by
  rcases max_choice (max (max a b) c) d with h | h
  · rcases max_choice (max a b) c with h' | h'
    · rcases max_choice a b with h'' | h''
      · left; rw [h, h', h'']
      · right; left; rw [h, h', h'']
    · right; right; left; rw [h, h']
  · right; right; right; exact h

theorem canonicalWidth_ne_zero (q0 q1 q2 q3 : Point) : canonicalWidth q0 q1 q2 q3 ≠ 0 :=
  ne_of_gt (lt_of_lt_of_le (by norm_num) (le_max_left _ _))

theorem canonicalHeight_ne_zero (q0 q1 q2 q3 : Point) : canonicalHeight q0 q1 q2 q3 ≠ 0 :=
  ne_of_gt (lt_of_lt_of_le (by norm_num) (le_max_left _ _))

/-- In exact arithmetic, for every destination quad no three corners of
which are collinear, with `w` and `h` the width and height computed by
`computeCssHomography`, the matrix `H = [[a,b,c],[d,e,f],[g,h,1]]` returned by
`solveHomography` sends each canonical corner `(0,0), (w,0), (w,h), (0,h)` to
the destination corner of the same index, `u = (a x + b y + c)/(g x + h y + 1)`
and `v = (d x + e y + f)/(g x + h y + 1)`, every denominator being non-zero. -/
theorem computeCssHomography_maps_corners (q0 q1 q2 q3 : Point)
    (h012 : cross q0 q1 q2 ≠ 0) (h013 : cross q0 q1 q3 ≠ 0)
    (h023 : cross q0 q2 q3 ≠ 0) (h123 : cross q1 q2 q3 ≠ 0) :
    ∃ R H, computeCssHomography [q0, q1, q2, q3] = some R ∧
      solveHomography [⟨0, 0⟩, ⟨R.width, 0⟩, ⟨R.width, R.height⟩, ⟨0, R.height⟩]
        [q0, q1, q2, q3] = some H ∧
      R.matrix3d = matrix3dEntries H ∧ ent H 2 2 = 1 ∧
      ent H 2 0 * R.width + 1 ≠ 0 ∧
      ent H 2 0 * R.width + ent H 2 1 * R.height + 1 ≠ 0 ∧
      ent H 2 1 * R.height + 1 ≠ 0 ∧
      MapsTo H ⟨0, 0⟩ q0 ∧ MapsTo H ⟨R.width, 0⟩ q1 ∧
      MapsTo H ⟨R.width, R.height⟩ q2 ∧ MapsTo H ⟨0, R.height⟩ q3 := by
  obtain ⟨H, hH, hrest⟩ := solveHomography_rect_maps
    (canonicalWidth q0 q1 q2 q3) (canonicalHeight q0 q1 q2 q3)
    q0 q1 q2 q3 (canonicalWidth_ne_zero _ _ _ _) (canonicalHeight_ne_zero _ _ _ _)
    h012 h013 h023 h123
  refine ⟨{ matrix3d := matrix3dEntries H, width := canonicalWidth q0 q1 q2 q3,
            height := canonicalHeight q0 q1 q2 q3 }, H, ?_, hH, rfl, hrest⟩
  rw [computeCssHomography_four]
  unfold canonicalSrc
  rw [hH, Option.map_some']

/-- In exact arithmetic the quad `[(0,0),(200,0),(400,0),(0,200)]` has the
positive area 40000, `computeCssHomography` gives it the width 400 and the
height 200, `solveHomography` returns `[[1,0,0],[0,0,0],[1/400,-1/200,1]]`, and
at the canonical corner `(0,200)` both numerators and the denominator
`g*0 + h*200 + 1` are zero, so the corner is not sent to `(0,200)`. -/
theorem flat_quad_not_mapped :
    quadArea ⟨0, 0⟩ ⟨200, 0⟩ ⟨400, 0⟩ ⟨0, 200⟩ = 40000 ∧
    (∃ R, computeCssHomography [⟨0, 0⟩, ⟨200, 0⟩, ⟨400, 0⟩, ⟨0, 200⟩] = some R ∧
      R.width = 400 ∧ R.height = 200) ∧
    solveHomography [⟨0, 0⟩, ⟨400, 0⟩, ⟨400, 200⟩, ⟨0, 200⟩]
        [⟨0, 0⟩, ⟨200, 0⟩, ⟨400, 0⟩, ⟨0, 200⟩] =
      some [[1, 0, 0], [0, 0, 0], [1 / 400, -1 / 200, 1]] ∧
    ((0 : ℚ) * 0 + 0 * 200 + 0 = 0 ∧ (1 : ℚ) / 400 * 0 + -1 / 200 * 200 + 1 = 0) ∧
    ¬ MapsTo [[1, 0, 0], [0, 0, 0], [1 / 400, -1 / 200, 1]] ⟨0, 200⟩ ⟨0, 200⟩ ∧
    ¬ ∃ R H, computeCssHomography [⟨0, 0⟩, ⟨200, 0⟩, ⟨400, 0⟩, ⟨0, 200⟩] = some R ∧
      solveHomography [⟨0, 0⟩, ⟨R.width, 0⟩, ⟨R.width, R.height⟩, ⟨0, R.height⟩]
        [⟨0, 0⟩, ⟨200, 0⟩, ⟨400, 0⟩, ⟨0, 200⟩] = some H ∧
      MapsTo H ⟨0, 0⟩ ⟨0, 0⟩ ∧ MapsTo H ⟨R.width, 0⟩ ⟨200, 0⟩ ∧
      MapsTo H ⟨R.width, R.height⟩ ⟨400, 0⟩ ∧ MapsTo H ⟨0, R.height⟩ ⟨0, 200⟩ := by
  have hw : canonicalWidth ⟨0, 0⟩ ⟨200, 0⟩ ⟨400, 0⟩ ⟨0, 200⟩ = 400 := by
    norm_num [canonicalWidth]
  have hh : canonicalHeight ⟨0, 0⟩ ⟨200, 0⟩ ⟨400, 0⟩ ⟨0, 200⟩ = 200 := by
    norm_num [canonicalHeight]
  have hcss : computeCssHomography [⟨0, 0⟩, ⟨200, 0⟩, ⟨400, 0⟩, ⟨0, 200⟩] =
      some { matrix3d := matrix3dEntries [[1, 0, 0], [0, 0, 0], [1 / 400, -1 / 200, 1]],
             width := 400, height := 200 } := by
    rw [computeCssHomography_four]
    simp only [canonicalSrc, hw, hh, flat_solveHomography, Option.map_some']
  have hnot : ¬ MapsTo [[1, 0, 0], [0, 0, 0], [1 / 400, -1 / 200, 1]] ⟨0, 200⟩ ⟨0, 200⟩ := by
    unfold MapsTo
    simp only [ent, List.getD_cons_zero, List.getD_cons_succ]
    norm_num
  refine ⟨by norm_num [quadArea], ⟨_, hcss, rfl, rfl⟩, flat_solveHomography, by norm_num,
    hnot, ?_⟩
  rintro ⟨R, H, hR, hH, _, _, _, h3⟩
  rw [hcss] at hR
  cases hR
  rw [flat_solveHomography] at hH
  cases hH
  exact hnot h3

/-- C6: `computeCssHomography` returns `width = max(200, maxX - minX)` and
`height = max(120, maxY - minY)` for the bounds of the four points, so
`width >= 200` and `height >= 120`, and the solver is called on the source quad
`[(0,0),(width,0),(width,height),(0,height)]`. -/
theorem computeCssHomography_size (q0 q1 q2 q3 : Point) :
    ∃ minX maxX minY maxY w h : ℚ,
      minX = min (min (min q0.x q1.x) q2.x) q3.x ∧
      maxX = max (max (max q0.x q1.x) q2.x) q3.x ∧
      minY = min (min (min q0.y q1.y) q2.y) q3.y ∧
      maxY = max (max (max q0.y q1.y) q2.y) q3.y ∧
      (∀ q ∈ [q0, q1, q2, q3], minX ≤ q.x ∧ q.x ≤ maxX ∧ minY ≤ q.y ∧ q.y ≤ maxY) ∧
      (∃ q ∈ [q0, q1, q2, q3], q.x = minX) ∧ (∃ q ∈ [q0, q1, q2, q3], q.x = maxX) ∧
      (∃ q ∈ [q0, q1, q2, q3], q.y = minY) ∧ (∃ q ∈ [q0, q1, q2, q3], q.y = maxY) ∧
      w = max 200 (maxX - minX) ∧ h = max 120 (maxY - minY) ∧
      200 ≤ w ∧ 120 ≤ h ∧
      computeCssHomography [q0, q1, q2, q3] =
        (solveHomography [⟨0, 0⟩, ⟨w, 0⟩, ⟨w, h⟩, ⟨0, h⟩] [q0, q1, q2, q3]).map
          (fun H => { matrix3d := matrix3dEntries H, width := w, height := h }) ∧
      ∃ H, solveHomography [⟨0, 0⟩, ⟨w, 0⟩, ⟨w, h⟩, ⟨0, h⟩] [q0, q1, q2, q3] = some H ∧
        computeCssHomography [q0, q1, q2, q3] =
          some { matrix3d := matrix3dEntries H, width := w, height := h } := by
  refine ⟨_, _, _, _, _, _, rfl, rfl, rfl, rfl, ?_, ?_, ?_, ?_, ?_, rfl, rfl,
    le_max_left _ _, le_max_left _ _, computeCssHomography_four q0 q1 q2 q3, ?_⟩
  · intro q hq
    simp only [List.mem_cons, List.mem_singleton, List.not_mem_nil, or_false] at hq
    rcases hq with rfl | rfl | rfl | rfl <;>
      simp only [min_le_iff, le_max_iff, le_refl, true_or, or_true, and_self]
  · rcases min4_mem q0.x q1.x q2.x q3.x with h | h | h | h
    · exact ⟨q0, by simp, h.symm⟩
    · exact ⟨q1, by simp, h.symm⟩
    · exact ⟨q2, by simp, h.symm⟩
    · exact ⟨q3, by simp, h.symm⟩
  · rcases max4_mem q0.x q1.x q2.x q3.x with h | h | h | h
    · exact ⟨q0, by simp, h.symm⟩
    · exact ⟨q1, by simp, h.symm⟩
    · exact ⟨q2, by simp, h.symm⟩
    · exact ⟨q3, by simp, h.symm⟩
  · rcases min4_mem q0.y q1.y q2.y q3.y with h | h | h | h
    · exact ⟨q0, by simp, h.symm⟩
    · exact ⟨q1, by simp, h.symm⟩
    · exact ⟨q2, by simp, h.symm⟩
    · exact ⟨q3, by simp, h.symm⟩
  · rcases max4_mem q0.y q1.y q2.y q3.y with h | h | h | h
    · exact ⟨q0, by simp, h.symm⟩
    · exact ⟨q1, by simp, h.symm⟩
    · exact ⟨q2, by simp, h.symm⟩
    · exact ⟨q3, by simp, h.symm⟩
  · refine ⟨_, solveHomography_rect _ _ q0 q1 q2 q3, ?_⟩
    rw [computeCssHomography_four]
    unfold canonicalSrc canonicalWidth canonicalHeight
    rw [solveHomography_rect, Option.map_some']

/-- C7: for every four destination points, collinear or coincident ones
included, `computeCssHomography` returns a result with its 16 matrix entries;
`solveLinearSystem` runs the eight elimination steps on the augmented matrix,
and at each step the denominator is non-zero: it is `M[col][col]` when that is
non-zero and `1e-12` otherwise. -/
theorem computeCssHomography_no_zero_division (q0 q1 q2 q3 : Point) :
    (∃ R, computeCssHomography [q0, q1, q2, q3] = some R ∧ R.matrix3d.length = 16) ∧
    computeCssHomography [q0, q1, q2, q3] =
      (solveHomography (canonicalSrc q0 q1 q2 q3) [q0, q1, q2, q3]).map
        (fun H => { matrix3d := matrix3dEntries H, width := canonicalWidth q0 q1 q2 q3,
                    height := canonicalHeight q0 q1 q2 q3 }) ∧
    (∃ H, solveHomography (canonicalSrc q0 q1 q2 q3) [q0, q1, q2, q3] = some H ∧
      ∀ i j, i < 3 → j < 3 → ent H i j =
        if i = 2 ∧ j = 2 then 1
        else (solveLinearSystem (canonicalMatrix q0 q1 q2 q3) (rectRhs q0 q1 q2 q3)).getD
          (3 * i + j) 0) ∧
    solveLinearSystem (canonicalMatrix q0 q1 q2 q3) (rectRhs q0 q1 q2 q3) =
      (gaussLoop (augment (canonicalMatrix q0 q1 q2 q3) (rectRhs q0 q1 q2 q3)) 8 9 8).map
        (fun row => row.getD 8 0) ∧
    (solveLinearSystem (canonicalMatrix q0 q1 q2 q3) (rectRhs q0 q1 q2 q3)).length = 8 ∧
    ∀ col, col < 8 →
      ∃ M d, M = swapRows
          (gaussLoop (augment (canonicalMatrix q0 q1 q2 q3) (rectRhs q0 q1 q2 q3)) 8 9 col) col
          (findPivot
            (gaussLoop (augment (canonicalMatrix q0 q1 q2 q3) (rectRhs q0 q1 q2 q3)) 8 9 col)
            8 col) ∧
        d = pivotDenom M col ∧ d ≠ 0 ∧
        (ent M col col ≠ 0 → d = ent M col col) ∧
        (ent M col col = 0 → d = 1e-12) ∧
        gaussLoop (augment (canonicalMatrix q0 q1 q2 q3) (rectRhs q0 q1 q2 q3)) 8 9 (col + 1) =
          eliminate (M.set col (divideRow (M.getD col []) col 9 d)) 8 9 col := by
  have hH := solveHomography_rect (canonicalWidth q0 q1 q2 q3) (canonicalHeight q0 q1 q2 q3)
    q0 q1 q2 q3
  have hshape : Shape (canonicalMatrix q0 q1 q2 q3) 8 8 := shape_rectMatrix _ _ _ _ _ _
  refine ⟨?_, computeCssHomography_four q0 q1 q2 q3, ⟨_, hH, ?_⟩,
    solveLinearSystem_eq _ _ hshape, ?_, ?_⟩
  · rw [computeCssHomography_four]
    unfold canonicalSrc
    rw [hH, Option.map_some']
    exact ⟨_, rfl, rfl⟩
  · intro i j hi hj
    interval_cases i <;> interval_cases j <;> simp [ent, canonicalMatrix]
  · rw [solveLinearSystem_eq _ _ hshape, List.length_map]
    exact (gaussLoop_invariant _ 8 9 (shape_augment _ _ 8 hshape) 8
      (le_refl 8) (by norm_num)).1.1
  · intro col _
    refine ⟨_, _, rfl, rfl, pivotDenom_ne_zero _ _, fun hne => ?_, fun he => ?_,
      gaussLoop_succ _ 8 9 col⟩
    · unfold pivotDenom; rw [if_pos hne]
    · unfold pivotDenom; rw [if_neg (not_not.mpr he)]

theorem computeCssHomography_no_zero_division_witness :
    (∃ R, computeCssHomography [⟨0, 0⟩, ⟨100, 0⟩, ⟨200, 0⟩, ⟨300, 0⟩] = some R ∧
      R.matrix3d.length = 16) :=
  (computeCssHomography_no_zero_division ⟨0, 0⟩ ⟨100, 0⟩ ⟨200, 0⟩ ⟨300, 0⟩).1

theorem solveHomography_rect_shape (w h : ℚ) (q0 q1 q2 q3 : Point) :
    ∃ a b c d e f g k : ℚ,
      solveHomography [⟨0, 0⟩, ⟨w, 0⟩, ⟨w, h⟩, ⟨0, h⟩] [q0, q1, q2, q3] =
        some [[a, b, c], [d, e, f], [g, k, 1]] :=
  ⟨_, _, _, _, _, _, _, _, solveHomography_rect w h q0 q1 q2 q3⟩

/-- C8: the bottom-right entry `i` of the solved homography is 1, and the 16
entries of `matrix3d` are `[a,d,0,g, b,e,0,h, 0,0,1,0, c,f,0,i]`, each rounded
to 10 decimal places; the rounding leaves the entries 0 and 1 of the z row and
the z column as they are. -/
theorem computeCssHomography_matrix3d (q0 q1 q2 q3 : Point) :
    ∃ (R : CssHomography) (H : List (List ℚ)),
      computeCssHomography [q0, q1, q2, q3] = some R ∧
      solveHomography [⟨0, 0⟩, ⟨R.width, 0⟩, ⟨R.width, R.height⟩, ⟨0, R.height⟩]
        [q0, q1, q2, q3] = some H ∧
      H = [[ent H 0 0, ent H 0 1, ent H 0 2], [ent H 1 0, ent H 1 1, ent H 1 2],
           [ent H 2 0, ent H 2 1, ent H 2 2]] ∧
      ent H 2 2 = 1 ∧
      R.matrix3d = [ent H 0 0, ent H 1 0, 0, ent H 2 0,
                    ent H 0 1, ent H 1 1, 0, ent H 2 1,
                    0, 0, 1, 0,
                    ent H 0 2, ent H 1 2, 0, ent H 2 2].map toFixed10 ∧
      R.matrix3d = [toFixed10 (ent H 0 0), toFixed10 (ent H 1 0), 0, toFixed10 (ent H 2 0),
                    toFixed10 (ent H 0 1), toFixed10 (ent H 1 1), 0, toFixed10 (ent H 2 1),
                    0, 0, 1, 0,
                    toFixed10 (ent H 0 2), toFixed10 (ent H 1 2), 0, 1] ∧
      ∀ v : ℚ, (∃ n : ℤ, toFixed10 v = (n : ℚ) / 10 ^ 10) ∧
        |toFixed10 v - v| ≤ 1 / (2 * 10 ^ 10) := by
  obtain ⟨a, b, c, d, e, f, g, k, hH⟩ := solveHomography_rect_shape
    (canonicalWidth q0 q1 q2 q3) (canonicalHeight q0 q1 q2 q3) q0 q1 q2 q3
  refine ⟨{ matrix3d := matrix3dEntries [[a, b, c], [d, e, f], [g, k, 1]],
            width := canonicalWidth q0 q1 q2 q3,
            height := canonicalHeight q0 q1 q2 q3 }, _, ?_, hH, rfl, rfl, rfl, ?_,
    toFixed10_rounds⟩
  · rw [computeCssHomography_four]
    unfold canonicalSrc
    rw [hH, Option.map_some']
  · simp only [matrix3dEntries, ent, List.getD_cons_zero, List.getD_cons_succ, List.map_cons,
      List.map_nil, toFixed10_zero, toFixed10_one]

/-! ## The countdown target -/

theorem yearFromDay_spec (day : ℤ) :
    dayFromYear (yearFromDay day) ≤ day ∧ day < dayFromYear (yearFromDay day + 1) := by
  by_cases h1 : dayFromYear (1970 + (400 * day) / 146097 + 1) ≤ day
  · have e : yearFromDay day = 1970 + (400 * day) / 146097 + 1 := by
      unfold yearFromDay
      exact if_pos h1
    rw [e]
    refine ⟨h1, ?_⟩
    unfold dayFromYear at *
    omega
  · by_cases h2 : day < dayFromYear (1970 + (400 * day) / 146097)
    · have e : yearFromDay day = 1970 + (400 * day) / 146097 - 1 := by
        unfold yearFromDay
        exact (if_neg h1).trans (if_pos h2)
      rw [e]
      refine ⟨?_, by rw [sub_add_cancel]; exact h2⟩
      unfold dayFromYear at *
      omega
    · have e : yearFromDay day = 1970 + (400 * day) / 146097 := by
        unfold yearFromDay
        exact (if_neg h1).trans (if_neg h2)
      rw [e]
      exact ⟨not_lt.mp h2, not_le.mp h1⟩

theorem dayFromYear_100 : dayFromYear 100 = -683003 := by
  unfold dayFromYear; norm_num

theorem yearFromDay_ge_100 (day : ℤ) (h : -683003 ≤ day) : 100 ≤ yearFromDay day := by
  have h2 := (yearFromDay_spec day).2
  by_contra hlt
  have : dayFromYear (yearFromDay day + 1) ≤ dayFromYear 100 := by
    unfold dayFromYear
    omega
  rw [dayFromYear_100] at this
  omega

theorem monthFromDayInYear_range (dayInYear leap : ℤ) :
    0 ≤ monthFromDayInYear dayInYear leap ∧ monthFromDayInYear dayInYear leap ≤ 11 := by
  unfold monthFromDayInYear
  by_cases h0 : dayInYear < 31
  · rw [if_pos h0]; omega
  rw [if_neg h0]
  by_cases h1 : dayInYear < 59 + leap
  · rw [if_pos h1]; omega
  rw [if_neg h1]
  by_cases h2 : dayInYear < 90 + leap
  · rw [if_pos h2]; omega
  rw [if_neg h2]
  by_cases h3 : dayInYear < 120 + leap
  · rw [if_pos h3]; omega
  rw [if_neg h3]
  by_cases h4 : dayInYear < 151 + leap
  · rw [if_pos h4]; omega
  rw [if_neg h4]
  by_cases h5 : dayInYear < 181 + leap
  · rw [if_pos h5]; omega
  rw [if_neg h5]
  by_cases h6 : dayInYear < 212 + leap
  · rw [if_pos h6]; omega
  rw [if_neg h6]
  by_cases h7 : dayInYear < 243 + leap
  · rw [if_pos h7]; omega
  rw [if_neg h7]
  by_cases h8 : dayInYear < 273 + leap
  · rw [if_pos h8]; omega
  rw [if_neg h8]
  by_cases h9 : dayInYear < 304 + leap
  · rw [if_pos h9]; omega
  rw [if_neg h9]
  by_cases h10 : dayInYear < 334 + leap
  · rw [if_pos h10]; omega
  rw [if_neg h10]
  omega

/-- With a year of 100 or more, `Date.UTC(y, mo - 1, d + 1)` on the date parts
of `now` is the start of the next day of the zone, when that is in range. -/
theorem dateUTC_next_day (zoneOffsetMs now : ℤ)
    (h : -683003 ≤ (now + zoneOffsetMs) / msPerDay) :
    dateUTC (zoneDateParts zoneOffsetMs now).1
        ((zoneDateParts zoneOffsetMs now).2.1 - 1)
        ((zoneDateParts zoneOffsetMs now).2.2 + 1) =
      if |((now + zoneOffsetMs) / msPerDay + 1) * msPerDay| ≤ 8640000000000000 then
        some (((now + zoneOffsetMs) / msPerDay + 1) * msPerDay)
      else none := by
  have hy := yearFromDay_ge_100 _ h
  unfold zoneDateParts dateUTC
  simp only []
  generalize (now + zoneOffsetMs) / msPerDay = D at *
  generalize hY : yearFromDay D = y at *
  obtain ⟨hm0, hm11⟩ := monthFromDayInYear_range (D - dayFromYear y) (inLeapYear y)
  generalize monthFromDayInYear (D - dayFromYear y) (inLeapYear y) = m at *
  have hera : ¬ y ≤ 0 := by omega
  rw [if_neg hera]
  have hyr : ¬ (0 ≤ y ∧ y ≤ 99) := by omega
  rw [if_neg hyr]
  have e1 : (m + 1 - 1) / 12 = 0 := by omega
  have e2 : (m + 1 - 1) % 12 = m := by omega
  rw [e1, e2, add_zero]
  have e3 : dayFromYear y + monthStart m (inLeapYear y) +
      (D - dayFromYear y - monthStart m (inLeapYear y) + 1 + 1) - 1 = D + 1 := by ring
  rw [e3]

/-- From 1981-12-31T16:00Z on, when Asia/Singapore is at UTC+8, and before the
last Singapore day of the range of `Date`, the result `t` is the next Singapore
midnight: `t > now`, `t - now <= 86400000` and `t + 8*3600*1000` is a multiple
of `86400000`, at the end of a month or year as on any other day. -/
theorem computeNextSingaporeMidnightMs_since_1982 (now : ℤ)
    (hlo : 378662400000 ≤ now) (hhi : now < 8639999971200000) :
    ∃ t, computeNextSingaporeMidnightMs now = some t ∧
      t = ((now + 8 * 3600 * 1000) / 86400000 + 1) * 86400000 - 8 * 3600 * 1000 ∧
      now < t ∧ t - now ≤ 86400000 ∧ (t + 8 * 3600 * 1000) % 86400000 = 0 := by
  have hoff : asiaSingaporeOffsetMs now = 8 * 3600 * 1000 := by
    unfold asiaSingaporeOffsetMs
    rw [if_neg (by omega), if_neg (by omega), if_neg (by omega), if_neg (by omega),
      if_neg (by omega), if_neg (by omega)]
    rfl
  have hD : -683003 ≤ (now + 8 * 3600 * 1000) / msPerDay := by
    unfold msPerDay; omega
  have hnext := dateUTC_next_day (8 * 3600 * 1000) now hD
  have hclip : |((now + 8 * 3600 * 1000) / msPerDay + 1) * msPerDay| ≤ 8640000000000000 := by
    unfold msPerDay
    rw [abs_le]
    constructor <;> omega
  rw [if_pos hclip] at hnext
  refine ⟨_, ?_, rfl, ?_, ?_, ?_⟩
  · unfold computeNextSingaporeMidnightMs singaporeDateParts
    simp only []
    rw [hoff, hnext, Option.map_some']
    rfl
  · omega
  · omega
  · omega

/-- C10 fails on the code: at `now = 58500000` (1970-01-01T16:15:00Z) the zone
Asia/Singapore is at +7:30, so the date parts are those of 1970-01-01 23:45 and
the code returns `Date.UTC(1970, 0, 2) - 8h = 57600000` (1970-01-01T16:00:00Z),
15 minutes before `now`, where the claim and the comments of the source ask for
the next Singapore midnight, after `now`. -/
theorem computeNextSingaporeMidnightMs_in_1970 :
    asiaSingaporeOffsetMs 58500000 = 27000000 ∧
    singaporeDateParts 58500000 = (1970, 1, 1) ∧
    dateUTC 1970 0 2 = some 86400000 ∧
    computeNextSingaporeMidnightMs 58500000 = some 57600000 ∧
    ¬ ((58500000 : ℤ) < 57600000) := by
  refine ⟨by decide, by decide, by decide, by decide, by decide⟩

/-- Two more instants where the result is not the next Singapore midnight.  At
0050-06-15T04:00:00Z the Singapore year is 50, which `Date.UTC` reads as 1950:
the result is 1950-06-15T16:00:00Z, about 1900 years after `now`.  At the last
instant of the range of `Date`, 8640000000000000, the next Singapore midnight
is out of range and the result is `NaN`. -/
theorem computeNextSingaporeMidnightMs_out_of_range :
    singaporeDateParts (-60575025600000) = (50, 6, 15) ∧
    computeNextSingaporeMidnightMs (-60575025600000) = some (-616838400000) ∧
    ¬ ((-616838400000 : ℤ) - (-60575025600000) ≤ 86400000) ∧
    singaporeDateParts 8640000000000000 = (275760, 9, 13) ∧
    computeNextSingaporeMidnightMs 8640000000000000 = none := by
  refine ⟨by decide, by decide, by decide, by decide, by decide⟩

/-! ## `solveLinearSystem` on a matrix of non-zero determinant -/

theorem trivialKernel_of_det_ne_zero (A : List (List ℚ)) (hdet : (toMatrix A).det ≠ 0) :
    TrivialKernel A 8 := by
  intro y hy c hc
  by_contra hne
  apply hdet
  rw [← Matrix.exists_mulVec_eq_zero_iff]
  refine ⟨fun i => y i, fun h0 => hne (congrFun h0 ⟨c, hc⟩), ?_⟩
  funext i
  simp only [Matrix.mulVec, Matrix.dotProduct, toMatrix, Matrix.of_apply, Pi.zero_apply]
  rw [Fin.sum_univ_eq_sum_range (fun c => ent A i c * y c) 8]
  exact hy i i.2

theorem det_ne_zero_of_trivialKernel (A : List (List ℚ)) (hk : TrivialKernel A 8) :
    (toMatrix A).det ≠ 0 := by
  intro h0
  obtain ⟨v, hv, hmul⟩ := Matrix.exists_mulVec_eq_zero_iff.mpr h0
  apply hv
  have hy := hk (fun c => if h : c < 8 then v ⟨c, h⟩ else 0) (fun r hr => by
    have hr0 := congrFun hmul ⟨r, hr⟩
    simp only [Matrix.mulVec, Matrix.dotProduct, toMatrix, Matrix.of_apply,
      Pi.zero_apply] at hr0
    have e : ∑ c ∈ Finset.range 8, ent A r c * (if h : c < 8 then v ⟨c, h⟩ else 0) =
        ∑ x : Fin 8, ent A r x * v x := by
      rw [← Fin.sum_univ_eq_sum_range
        (fun c => ent A r c * (if h : c < 8 then v ⟨c, h⟩ else 0)) 8]
      exact Finset.sum_congr rfl (fun c _ => by rw [dif_pos c.2])
    exact e.trans hr0)
  funext i
  have hi := hy i i.2
  simpa using hi

/-- In exact arithmetic, for every 8 x 8 matrix `A` of non-zero determinant and every
right-hand side `b` of length 8, `solveLinearSystem(A, b)` returns a vector `x`
of length 8 with `A x = b`.  At each column the pivot row is a row at or below
the diagonal with the largest absolute entry, the pivot `M[col][col]` is
non-zero, and the denominator is that pivot: the fallback `1e-12` is never
taken. -/
theorem solveLinearSystem_exact (A : List (List ℚ)) (b : List ℚ)
    (hA : Shape A 8 8) (_hb : b.length = 8) (hdet : (toMatrix A).det ≠ 0) :
    (solveLinearSystem A b).length = 8 ∧
    (toMatrix A).mulVec (fun i => (solveLinearSystem A b).getD i 0) =
      (fun i : Fin 8 => b.getD i 0) ∧
    (∀ r, r < 8 →
      ∑ c ∈ Finset.range 8, ent A r c * (solveLinearSystem A b).getD c 0 = b.getD r 0) ∧
    solveLinearSystem A b =
      (gaussLoop (augment A b) 8 9 8).map (fun row => row.getD 8 0) ∧
    ∀ col, col < 8 →
      col ≤ findPivot (gaussLoop (augment A b) 8 9 col) 8 col ∧
      findPivot (gaussLoop (augment A b) 8 9 col) 8 col < 8 ∧
      (∀ r, col ≤ r → r < 8 →
        |ent (gaussLoop (augment A b) 8 9 col) r col| ≤
          |ent (gaussLoop (augment A b) 8 9 col)
            (findPivot (gaussLoop (augment A b) 8 9 col) 8 col) col|) ∧
      pivotEntry (augment A b) 8 9 col ≠ 0 ∧
      pivotDenom (swapRows (gaussLoop (augment A b) 8 9 col) col
          (findPivot (gaussLoop (augment A b) 8 9 col) 8 col)) col =
        pivotEntry (augment A b) 8 9 col := by
  have hk := trivialKernel_of_det_ne_zero A hdet
  have hs := shape_augment A b 8 hA
  have hns := nonsingular_augment A b 8 hA hk
  obtain ⟨hlen, hsol⟩ := solveLinearSystem_solves A b hA hk
  refine ⟨hlen, ?_, hsol, solveLinearSystem_eq A b hA, ?_⟩
  · funext i
    simp only [Matrix.mulVec, Matrix.dotProduct, toMatrix, Matrix.of_apply]
    rw [Fin.sum_univ_eq_sum_range (fun c => ent A i c * (solveLinearSystem A b).getD c 0) 8]
    exact hsol i i.2
  · intro col hcol
    obtain ⟨hp1, hp2, hp3⟩ := findPivot_spec (gaussLoop (augment A b) 8 9 col) 8 col hcol
    have hpiv := pivotEntry_ne_zero (augment A b) 8 hs hns col hcol
      (gaussLoop_unitCols (augment A b) 8 hs hns col (by omega))
    have hden : pivotDenom (swapRows (gaussLoop (augment A b) 8 9 col) col
          (findPivot (gaussLoop (augment A b) 8 9 col) 8 col)) col =
        pivotEntry (augment A b) 8 9 col := by
      have hpiv' : ent (swapRows (gaussLoop (augment A b) 8 9 col) col
          (findPivot (gaussLoop (augment A b) 8 9 col) 8 col)) col col ≠ 0 := hpiv
      unfold pivotDenom
      rw [if_pos hpiv']
      rfl
    exact ⟨hp1, hp2, hp3, hpiv, hden⟩


/-! ## Orchestration and countdown display -/

/-- C12: one call `orchestrate(r)` changes the phase in exactly two cases: from
WAITING to COUNTDOWN_MUSIC if and only if `p = WAITING` and `0 < r <= 218`, and
from COUNTDOWN_MUSIC to BLACKOUT if and only if `p = COUNTDOWN_MUSIC` and
`r = 0`; otherwise the phase is unchanged, so the phase never moves backward in
the order WAITING, COUNTDOWN_MUSIC, BLACKOUT, BELLS, DONE and never skips a
phase. -/
theorem orchestrate_transitions (p : Phase) (r : ℤ) :
    (orchestrate p r =
      if p = Phase.WAITING ∧ 0 < r ∧ r ≤ 218 then Phase.COUNTDOWN_MUSIC
      else if p = Phase.COUNTDOWN_MUSIC ∧ r = 0 then Phase.BLACKOUT
      else p) ∧
    (orchestrate p r ≠ p ↔
      (p = Phase.WAITING ∧ 0 < r ∧ r ≤ 218) ∨ (p = Phase.COUNTDOWN_MUSIC ∧ r = 0)) ∧
    ((p = Phase.WAITING ∧ orchestrate p r = Phase.COUNTDOWN_MUSIC) ↔
      (p = Phase.WAITING ∧ 0 < r ∧ r ≤ 218)) ∧
    ((p = Phase.COUNTDOWN_MUSIC ∧ orchestrate p r = Phase.BLACKOUT) ↔
      (p = Phase.COUNTDOWN_MUSIC ∧ r = 0)) ∧
    (orchestrate p r ≠ p →
      (p = Phase.WAITING ∧ orchestrate p r = Phase.COUNTDOWN_MUSIC) ∨
      (p = Phase.COUNTDOWN_MUSIC ∧ orchestrate p r = Phase.BLACKOUT)) ∧
    p.rank ≤ (orchestrate p r).rank ∧ (orchestrate p r).rank ≤ p.rank + 1 := by
  have hform : orchestrate p r =
      if p = Phase.WAITING ∧ 0 < r ∧ r ≤ 218 then Phase.COUNTDOWN_MUSIC
      else if p = Phase.COUNTDOWN_MUSIC ∧ r = 0 then Phase.BLACKOUT
      else p := by
    unfold orchestrate startCountdownMusicPhase startBlackoutPhase COUNTDOWN_TRIGGER_SEC
    by_cases h1 : p = Phase.WAITING ∧ r ≤ 218 ∧ r > 0
    · rw [if_pos h1, if_pos ⟨h1.1, h1.2.2, h1.2.1⟩]
    · rw [if_neg h1, if_neg (show ¬ (p = Phase.WAITING ∧ 0 < r ∧ r ≤ 218) from
        fun h => h1 ⟨h.1, h.2.2, h.2.1⟩)]
  refine ⟨hform, ?_⟩
  rw [hform]
  by_cases h1 : p = Phase.WAITING ∧ 0 < r ∧ r ≤ 218
  · rw [if_pos h1]
    obtain ⟨hp, hr⟩ := h1
    subst hp
    simp [Phase.rank, hr]
  · rw [if_neg h1]
    by_cases h2 : p = Phase.COUNTDOWN_MUSIC ∧ r = 0
    · rw [if_pos h2]
      obtain ⟨hp, hr⟩ := h2
      subst hp
      simp [Phase.rank, hr]
    · rw [if_neg h2]
      refine ⟨?_, ?_, ?_, ?_, by omega, by omega⟩
      · constructor
        · intro h; exact absurd rfl h
        · rintro (h | h)
          · exact absurd h h1
          · exact absurd h h2
      · constructor
        · rintro ⟨hp, hq⟩
          rw [hp] at hq
          cases hq
        · intro h; exact absurd h h1
      · constructor
        · rintro ⟨hp, hq⟩
          rw [hp] at hq
          cases hq
        · intro h; exact absurd h h2
      · intro h; exact absurd rfl h

theorem orchestrate_transitions_witness :
    orchestrate Phase.WAITING 218 = Phase.COUNTDOWN_MUSIC ∧
    orchestrate Phase.WAITING 219 = Phase.WAITING ∧
    orchestrate Phase.WAITING 0 = Phase.WAITING ∧
    orchestrate Phase.COUNTDOWN_MUSIC 0 = Phase.BLACKOUT ∧
    orchestrate Phase.COUNTDOWN_MUSIC 1 = Phase.COUNTDOWN_MUSIC ∧
    orchestrate Phase.BLACKOUT 0 = Phase.BLACKOUT := by
  refine ⟨?_, ?_, ?_, ?_, ?_, ?_⟩
  · rw [(orchestrate_transitions Phase.WAITING 218).1]; decide
  · rw [(orchestrate_transitions Phase.WAITING 219).1]; decide
  · rw [(orchestrate_transitions Phase.WAITING 0).1]; decide
  · rw [(orchestrate_transitions Phase.COUNTDOWN_MUSIC 0).1]; decide
  · rw [(orchestrate_transitions Phase.COUNTDOWN_MUSIC 1).1]; decide
  · rw [(orchestrate_transitions Phase.BLACKOUT 0).1]; decide

/-- C13: `updateSingaporeTime` computes
`totalSec = floor(max(0, target - now) / 1000)` and splits it into `h`, `m`, `s`
with `h*3600 + m*60 + s = totalSec`, `0 <= m < 60`, `0 <= s < 60` and `h >= 0`;
`totalSec` is 0 whenever `now >= target`, and `totalSec` is the value passed to
`orchestrate`. -/
theorem updateSingaporeTime_split (targetTimeMs nowMs : ℤ) (phase : Phase) :
    (updateSingaporeTime targetTimeMs nowMs phase).totalSec =
      max 0 (targetTimeMs - nowMs) / 1000 ∧
    0 ≤ (updateSingaporeTime targetTimeMs nowMs phase).totalSec ∧
    (updateSingaporeTime targetTimeMs nowMs phase).h * 3600 +
        (updateSingaporeTime targetTimeMs nowMs phase).m * 60 +
        (updateSingaporeTime targetTimeMs nowMs phase).s =
      (updateSingaporeTime targetTimeMs nowMs phase).totalSec ∧
    0 ≤ (updateSingaporeTime targetTimeMs nowMs phase).m ∧
    (updateSingaporeTime targetTimeMs nowMs phase).m < 60 ∧
    0 ≤ (updateSingaporeTime targetTimeMs nowMs phase).s ∧
    (updateSingaporeTime targetTimeMs nowMs phase).s < 60 ∧
    0 ≤ (updateSingaporeTime targetTimeMs nowMs phase).h ∧
    (targetTimeMs ≤ nowMs → (updateSingaporeTime targetTimeMs nowMs phase).totalSec = 0) ∧
    (updateSingaporeTime targetTimeMs nowMs phase).phase =
      orchestrate phase (updateSingaporeTime targetTimeMs nowMs phase).totalSec := by
  have hdiff : (if targetTimeMs - nowMs < 0 then 0 else targetTimeMs - nowMs) =
      max 0 (targetTimeMs - nowMs) := by
    by_cases h : targetTimeMs - nowMs < 0
    · rw [if_pos h, max_eq_left h.le]
    · rw [if_neg h, max_eq_right (not_lt.mp h)]
  have htot : (updateSingaporeTime targetTimeMs nowMs phase).totalSec =
      max 0 (targetTimeMs - nowMs) / 1000 := by
    unfold updateSingaporeTime
    simp only [hdiff]
  have hnn : 0 ≤ max 0 (targetTimeMs - nowMs) / 1000 :=
    Int.ediv_nonneg (le_max_left _ _) (by norm_num)
  have hh : (updateSingaporeTime targetTimeMs nowMs phase).h =
      (max 0 (targetTimeMs - nowMs) / 1000) / 3600 := by
    unfold updateSingaporeTime
    simp only [hdiff]
  have hm : (updateSingaporeTime targetTimeMs nowMs phase).m =
      ((max 0 (targetTimeMs - nowMs) / 1000) % 3600) / 60 := by
    unfold updateSingaporeTime
    simp only [hdiff]
    rw [Int.tmod_eq_emod hnn (by norm_num)]
  have hsec : (updateSingaporeTime targetTimeMs nowMs phase).s =
      (max 0 (targetTimeMs - nowMs) / 1000) % 60 := by
    unfold updateSingaporeTime
    simp only [hdiff]
    rw [Int.tmod_eq_emod hnn (by norm_num)]
  have hzero : targetTimeMs ≤ nowMs →
      (updateSingaporeTime targetTimeMs nowMs phase).totalSec = 0 := by
    intro hle
    rw [htot, max_eq_left (by omega)]
    rfl
  refine ⟨htot, by rw [htot]; exact hnn, ?_, ?_, ?_, ?_, ?_, ?_, hzero, rfl⟩
  all_goals
    simp only [hh, hm, hsec, htot]
    generalize max 0 (targetTimeMs - nowMs) / 1000 = T at hnn ⊢
    omega

theorem updateSingaporeTime_split_witness :
    updateSingaporeTime 1767196800000 1767196581500 Phase.WAITING =
      { totalSec := 218, h := 0, m := 3, s := 38, shouldUpdateUi := true,
        phase := Phase.COUNTDOWN_MUSIC } ∧
    (updateSingaporeTime 1767196800000 1767196581500 Phase.WAITING).totalSec =
      max 0 (1767196800000 - 1767196581500) / 1000 :=
  ⟨by decide, (updateSingaporeTime_split 1767196800000 1767196581500 Phase.WAITING).1⟩

/-! ## The rounding to double precision -/

theorem halvings_le (fuel n : ℕ) (hn : n ≠ 0) : 2 ^ halvings fuel n ≤ n := by
  induction fuel generalizing n with
  | zero => simp only [halvings, pow_zero]; omega
  | succ fuel ih =>
    unfold halvings
    by_cases h : n < 2
    · rw [if_pos h, pow_zero]; omega
    · rw [if_neg h, pow_succ]
      have := ih (n / 2) (by omega)
      omega

theorem lt_halvings (fuel n : ℕ) (hf : n ≤ fuel) : n < 2 ^ (halvings fuel n + 1) := by
  induction fuel generalizing n with
  | zero =>
    have : n = 0 := by omega
    subst this
    simp [halvings]
  | succ fuel ih =>
    unfold halvings
    by_cases h : n < 2
    · rw [if_pos h]; simpa using h
    · rw [if_neg h, pow_succ]
      have := ih (n / 2) (by omega)
      omega

/-- `floorLog2 n` is the integer part of the binary logarithm of `n`. -/
theorem floorLog2_spec (n : ℕ) (hn : n ≠ 0) :
    2 ^ floorLog2 n ≤ n ∧ n < 2 ^ (floorLog2 n + 1) :=
  ⟨halvings_le n n hn, lt_halvings n n le_rfl⟩

theorem abs_eq_natAbs_div_den (x : ℚ) : |x| = (x.num.natAbs : ℚ) / (x.den : ℚ) := by
  have h : |(x.num : ℚ)| = (x.num.natAbs : ℚ) := by
    rw [← Int.cast_abs, Int.abs_eq_natAbs, Int.cast_natCast]
  conv_lhs => rw [← Rat.num_div_den x]
  rw [abs_div, Nat.abs_cast, h]

/-- `binaryExponent x` is the exponent of the binade of `x`:
`2^k <= |x| < 2^(k+1)`. -/
theorem binaryExponent_spec (x : ℚ) (hx : x ≠ 0) :
    (2 : ℚ) ^ binaryExponent x ≤ |x| ∧ |x| < (2 : ℚ) ^ (binaryExponent x + 1) := by
  have hn : x.num.natAbs ≠ 0 := by simpa using hx
  obtain ⟨h1, h1u⟩ := floorLog2_spec x.num.natAbs hn
  obtain ⟨h2l, h2⟩ := floorLog2_spec x.den x.den_nz
  have hx' := abs_eq_natAbs_div_den x
  have hd : (0 : ℚ) < x.den := by exact_mod_cast x.den_pos
  have h1' : (2 : ℚ) ^ floorLog2 x.num.natAbs ≤ x.num.natAbs := by exact_mod_cast h1
  have h1u' : (x.num.natAbs : ℚ) < 2 ^ (floorLog2 x.num.natAbs + 1) := by exact_mod_cast h1u
  have h2' : (x.den : ℚ) ≤ 2 ^ (floorLog2 x.den + 1) := by exact_mod_cast h2.le
  have h2l' : (2 : ℚ) ^ floorLog2 x.den ≤ x.den := by exact_mod_cast h2l
  unfold binaryExponent
  simp only []
  split_ifs with h
  · refine ⟨h, ?_⟩
    have e : (2 : ℚ) ^ ((floorLog2 x.num.natAbs : ℤ) - (floorLog2 x.den : ℤ) + 1) =
        2 ^ (floorLog2 x.num.natAbs + 1) / 2 ^ floorLog2 x.den := by
      rw [show ((floorLog2 x.num.natAbs : ℤ) - (floorLog2 x.den : ℤ) + 1) =
        ((floorLog2 x.num.natAbs + 1 : ℕ) : ℤ) - ((floorLog2 x.den : ℕ) : ℤ) by push_cast; ring]
      rw [zpow_sub₀ (by norm_num : (2 : ℚ) ≠ 0), zpow_natCast, zpow_natCast]
    rw [e, hx', div_lt_div_iff₀ hd (by positivity)]
    calc (x.num.natAbs : ℚ) * 2 ^ floorLog2 x.den
        ≤ x.num.natAbs * x.den := by gcongr
      _ < 2 ^ (floorLog2 x.num.natAbs + 1) * x.den := by gcongr
  · constructor
    · have e : (2 : ℚ) ^ ((floorLog2 x.num.natAbs : ℤ) - (floorLog2 x.den : ℤ) - 1) =
          2 ^ floorLog2 x.num.natAbs / 2 ^ (floorLog2 x.den + 1) := by
        rw [show ((floorLog2 x.num.natAbs : ℤ) - (floorLog2 x.den : ℤ) - 1) =
          ((floorLog2 x.num.natAbs : ℕ) : ℤ) - ((floorLog2 x.den + 1 : ℕ) : ℤ) by push_cast; ring]
        rw [zpow_sub₀ (by norm_num : (2 : ℚ) ≠ 0), zpow_natCast, zpow_natCast]
      rw [e, hx', le_div_iff₀ hd]
      calc (2 : ℚ) ^ floorLog2 x.num.natAbs / 2 ^ (floorLog2 x.den + 1) * x.den
          ≤ 2 ^ floorLog2 x.num.natAbs / 2 ^ (floorLog2 x.den + 1) *
              2 ^ (floorLog2 x.den + 1) := by gcongr
        _ = 2 ^ floorLog2 x.num.natAbs := by field_simp
        _ ≤ x.num.natAbs := h1'
    · rw [sub_add_cancel]
      exact not_le.mp h

theorem roundHalfEven_err (x : ℚ) : |(roundHalfEven x : ℚ) - x| ≤ 1 / 2 := by
  have h1 := Int.floor_le x
  have h2 := Int.lt_floor_add_one x
  unfold roundHalfEven
  split_ifs with a b c
  · rw [abs_le]; constructor <;> linarith
  · push_cast; rw [abs_le]; constructor <;> linarith
  · rw [abs_le]; constructor <;> linarith
  · push_cast; rw [abs_le]; constructor <;> linarith

theorem fl_zero : fl 0 = 0 := by simp [fl]

/-- The relative error of one rounding is at most `2^-53`. -/
theorem fl_err (x : ℚ) : |fl x - x| ≤ |x| / 2 ^ 53 := by
  by_cases hx : x = 0
  · subst hx; simp [fl]
  have hk := (binaryExponent_spec x hx).1
  unfold fl
  rw [if_neg hx]
  generalize binaryExponent x = k at hk
  have hp : (0 : ℚ) < 2 ^ (k - 52) := by positivity
  have hr := roundHalfEven_err (x / 2 ^ (k - 52))
  have e : (roundHalfEven (x / 2 ^ (k - 52)) : ℚ) * 2 ^ (k - 52) - x =
      ((roundHalfEven (x / 2 ^ (k - 52)) : ℚ) - x / 2 ^ (k - 52)) * 2 ^ (k - 52) := by
    field_simp
  rw [e, abs_mul, abs_of_pos hp]
  have h2 : (2 : ℚ) ^ (k - 52) = 2 ^ k / 2 ^ 52 := by
    rw [zpow_sub₀ (by norm_num : (2 : ℚ) ≠ 0)]
    norm_num
  calc |(roundHalfEven (x / 2 ^ (k - 52)) : ℚ) - x / 2 ^ (k - 52)| * 2 ^ (k - 52)
      ≤ 1 / 2 * 2 ^ (k - 52) := by gcongr
    _ = 2 ^ k / 2 ^ 53 := by rw [h2]; ring
    _ ≤ |x| / 2 ^ 53 := by gcongr

theorem fl_nonneg (x : ℚ) (hx : 0 ≤ x) : 0 ≤ fl x := by
  have h := fl_err x
  rw [abs_of_nonneg hx, abs_le] at h
  have : x / 2 ^ 53 ≤ x := div_le_self hx (by norm_num)
  linarith [h.1]

theorem fl_nonpos (x : ℚ) (hx : x ≤ 0) : fl x ≤ 0 := by
  have h := fl_err x
  rw [abs_of_nonpos hx, abs_le] at h
  have : (-x) / 2 ^ 53 ≤ -x := div_le_self (by linarith) (by norm_num)
  linarith [h.2]

/-- An upper bound is kept by a rounding up to the factor `1 + 2^-53`. -/
theorem fl_le_of_le (x c : ℚ) (hc : 0 ≤ c) (h : x ≤ c) : fl x ≤ c + c / 2 ^ 53 := by
  have hc' : 0 ≤ c / 2 ^ 53 := by positivity
  rcases le_total x 0 with hx | hx
  · linarith [fl_nonpos x hx]
  · have he := fl_err x
    rw [abs_of_nonneg hx, abs_le] at he
    have : x / 2 ^ 53 ≤ c / 2 ^ 53 := by gcongr
    linarith [he.2]

/-- A lower bound that is not negative is kept by a rounding up to the factor
`1 - 2^-53`. -/
theorem le_fl_of_le (x c : ℚ) (hc : 0 ≤ c) (h : c ≤ x) : c - c / 2 ^ 53 ≤ fl x := by
  have hx : 0 ≤ x := le_trans hc h
  have he := fl_err x
  rw [abs_of_nonneg hx, abs_le] at he
  have h1 : c - c / 2 ^ 53 = c * (1 - 1 / 2 ^ 53) := by ring
  have h2 : x - x / 2 ^ 53 = x * (1 - 1 / 2 ^ 53) := by ring
  have : c * (1 - 1 / 2 ^ 53) ≤ x * (1 - 1 / 2 ^ 53) :=
    mul_le_mul_of_nonneg_right h (by norm_num)
  linarith [he.1]

/-- A negative number is rounded to no less than `1 + 2^-53` times itself. -/
theorem le_fl_of_nonpos (x : ℚ) (hx : x ≤ 0) : x + x / 2 ^ 53 ≤ fl x := by
  have he := fl_err x
  rw [abs_of_nonpos hx, abs_le] at he
  have : -x / 2 ^ 53 = -(x / 2 ^ 53) := by ring
  linarith [he.1]

/-! ## Cover-fit mapper in double precision -/

/-- One axis of the cover transform in double precision, for a scale `s` that
is at least the rounded quotient `c / i`: the offset and the mapped near edge
are at most `c / 2^52`, the mapped far edge is at least `c - c / 2^51`. -/
theorem cover_axis_f64 (c i s : ℚ) (hc : 0 < c) (hi : 0 < i) (hs : fl (c / i) ≤ s) :
    fl (fl (c - fl (i * s)) / 2) ≤ c / 2 ^ 52 ∧
    fl (fl (fl (c - fl (i * s)) / 2) + fl (0 * s)) ≤ c / 2 ^ 52 ∧
    c - c / 2 ^ 51 ≤ fl (fl (fl (c - fl (i * s)) / 2) + fl (i * s)) := by
  have hq : 0 ≤ c / i := by positivity
  have h1 := le_fl_of_le (c / i) (c / i) hq le_rfl
  have h2 : c - c / 2 ^ 53 ≤ i * s := by
    have e : c - c / 2 ^ 53 = i * (c / i - c / i / 2 ^ 53) := by field_simp; ring
    rw [e]
    exact mul_le_mul_of_nonneg_left (le_trans h1 hs) hi.le
  have hc1 : 0 ≤ c - c / 2 ^ 53 := by
    have : c / 2 ^ 53 ≤ c := div_le_self hc.le (by norm_num)
    linarith
  have hd := le_fl_of_le (i * s) (c - c / 2 ^ 53) hc1 h2
  generalize fl (i * s) = d at hd
  have hA : 0 ≤ c - (c - c / 2 ^ 53 - (c - c / 2 ^ 53) / 2 ^ 53) := by
    have : (c - c / 2 ^ 53) / 2 ^ 53 ≥ 0 := by positivity
    linarith
  have hfa := fl_le_of_le (c - d) _ hA (by linarith)
  have hB : 0 ≤ (c - (c - c / 2 ^ 53 - (c - c / 2 ^ 53) / 2 ^ 53) +
      (c - (c - c / 2 ^ 53 - (c - c / 2 ^ 53) / 2 ^ 53)) / 2 ^ 53) / 2 := by positivity
  have ho := fl_le_of_le (fl (c - d) / 2) _ hB (by linarith)
  have hO : 0 ≤ (c - (c - c / 2 ^ 53 - (c - c / 2 ^ 53) / 2 ^ 53) +
      (c - (c - c / 2 ^ 53 - (c - c / 2 ^ 53) / 2 ^ 53)) / 2 ^ 53) / 2 +
      (c - (c - c / 2 ^ 53 - (c - c / 2 ^ 53) / 2 ^ 53) +
      (c - (c - c / 2 ^ 53 - (c - c / 2 ^ 53) / 2 ^ 53)) / 2 ^ 53) / 2 / 2 ^ 53 := by
    positivity
  have ho2 := fl_le_of_le (fl (fl (c - d) / 2)) _ hO ho
  refine ⟨by linarith, ?_, ?_⟩
  · rw [zero_mul, fl_zero, add_zero]
    linarith
  · rcases le_total (c - d) 0 with ha | ha
    · have f1 := le_fl_of_nonpos (c - d) ha
      have f2 := fl_nonpos (c - d) ha
      have f3 := le_fl_of_nonpos (fl (c - d) / 2) (by linarith)
      have f4 : c ≤ fl (fl (c - d) / 2) + d := by linarith
      have f5 := le_fl_of_le (fl (fl (c - d) / 2) + d) c hc.le f4
      linarith
    · have f1 := fl_nonneg (c - d) ha
      have f2 := fl_nonneg (fl (c - d) / 2) (by linarith)
      have hc2 : 0 ≤ c - c / 2 ^ 53 - (c - c / 2 ^ 53) / 2 ^ 53 := by linarith
      have f5 := le_fl_of_le (fl (fl (c - d) / 2) + d) _ hc2 (by linarith)
      linarith

/-- On the axis that gives the scale, the displayed size `i * s` is the
viewport size `c` up to two roundings. -/
theorem cover_axis_eq_f64 (c i : ℚ) (hc : 0 < c) (hi : 0 < i) :
    |fl (i * fl (c / i)) - c| ≤ c / 2 ^ 51 := by
  have hq : 0 ≤ c / i := by positivity
  have h1 := le_fl_of_le (c / i) (c / i) hq le_rfl
  have h2 := fl_le_of_le (c / i) (c / i) hq le_rfl
  have hc1 : 0 ≤ c - c / 2 ^ 53 := by
    have : c / 2 ^ 53 ≤ c := div_le_self hc.le (by norm_num)
    linarith
  have hc3 : 0 ≤ c + c / 2 ^ 53 := by positivity
  have h3 : c - c / 2 ^ 53 ≤ i * fl (c / i) := by
    have e : c - c / 2 ^ 53 = i * (c / i - c / i / 2 ^ 53) := by field_simp; ring
    rw [e]
    exact mul_le_mul_of_nonneg_left h1 hi.le
  have h4 : i * fl (c / i) ≤ c + c / 2 ^ 53 := by
    have e : c + c / 2 ^ 53 = i * (c / i + c / i / 2 ^ 53) := by field_simp; ring
    rw [e]
    exact mul_le_mul_of_nonneg_left h2 hi.le
  have h5 := le_fl_of_le _ _ hc1 h3
  have h6 := fl_le_of_le _ _ hc3 h4
  rw [abs_le]
  constructor <;> linarith

/-- C2 fails in double precision: for the viewport 1920 x 1080 and an image of
537 x 537 the scale is the double nearest to `1920/537`, the product `537 * s`
is rounded to `1919.9999999999998`, one unit in the last place below 1920, and
`offsetX` is `2^-43`, which is positive: the left edge of the mapped image is
to the right of the left edge of the viewport, and the mapped image has neither
the width nor the height of the viewport. -/
theorem cover_corners_f64_gap :
    getCoverTransformF64 1920 1080 537 537 =
      some { s := 1006390978183351 / 281474976710656, offsetX := 1 / 8796093022208,
             offsetY := -3694359069327359 / 8796093022208 } ∧
    fl (537 * (1006390978183351 / 281474976710656)) = 8444249301319679 / 4398046511104 ∧
    ∀ T, getCoverTransformF64 1920 1080 537 537 = some T →
      ¬ T.offsetX ≤ 0 ∧ ¬ (imgPxToScreenPxF64 ⟨0, 0⟩ T).x ≤ 0 ∧
      ¬ (fl (537 * T.s) = 1920 ∨ fl (537 * T.s) = 1080) ∧
      ¬ (537 * T.s = 1920 ∨ 537 * T.s = 1080) := by
  have h : getCoverTransformF64 1920 1080 537 537 =
      some { s := 1006390978183351 / 281474976710656, offsetX := 1 / 8796093022208,
             offsetY := -3694359069327359 / 8796093022208 } := by decide!
  refine ⟨h, by decide!, ?_⟩
  intro T hT
  rw [h] at hT
  cases hT
  decide!

/-- C2, as the code has it in double precision: for viewport and image
dimensions between `2^-300` and `2^300`, the four image corners mapped by
`imgPxToScreenPx` under the transform of `getCoverTransform` are the corners
of a box `[x0, x1] x [y0, y1]` that covers the viewport up to the rounding
error: `offsetX` and `x0` are at most `cw / 2^52`, `offsetY` and `y0` at most
`ch / 2^52`, `x1 >= cw - cw / 2^51` and `y1 >= ch - ch / 2^51`; and the
displayed width `iw * s` is within `cw / 2^51` of `cw`, or the displayed height
`ih * s` within `ch / 2^51` of `ch`. -/
theorem cover_corners_cover_viewport_f64 (cw ch iw ih : ℚ)
    (hcw : 1 / 2 ^ 300 ≤ cw) (_hcw : cw ≤ 2 ^ 300)
    (hch : 1 / 2 ^ 300 ≤ ch) (_hch : ch ≤ 2 ^ 300)
    (hiw : 1 / 2 ^ 300 ≤ iw) (_hiw : iw ≤ 2 ^ 300)
    (hih : 1 / 2 ^ 300 ≤ ih) (_hih : ih ≤ 2 ^ 300) :
    ∃ T, getCoverTransformF64 cw ch iw ih = some T ∧
      imgPxToScreenPxF64 ⟨iw, 0⟩ T =
        ⟨(imgPxToScreenPxF64 ⟨iw, ih⟩ T).x, (imgPxToScreenPxF64 ⟨0, 0⟩ T).y⟩ ∧
      imgPxToScreenPxF64 ⟨0, ih⟩ T =
        ⟨(imgPxToScreenPxF64 ⟨0, 0⟩ T).x, (imgPxToScreenPxF64 ⟨iw, ih⟩ T).y⟩ ∧
      T.offsetX ≤ cw / 2 ^ 52 ∧ T.offsetY ≤ ch / 2 ^ 52 ∧
      (imgPxToScreenPxF64 ⟨0, 0⟩ T).x ≤ cw / 2 ^ 52 ∧
      (imgPxToScreenPxF64 ⟨0, 0⟩ T).y ≤ ch / 2 ^ 52 ∧
      cw - cw / 2 ^ 51 ≤ (imgPxToScreenPxF64 ⟨iw, ih⟩ T).x ∧
      ch - ch / 2 ^ 51 ≤ (imgPxToScreenPxF64 ⟨iw, ih⟩ T).y ∧
      (|fl (iw * T.s) - cw| ≤ cw / 2 ^ 51 ∨ |fl (ih * T.s) - ch| ≤ ch / 2 ^ 51) := by
  have pcw : 0 < cw := lt_of_lt_of_le (by positivity) hcw
  have pch : 0 < ch := lt_of_lt_of_le (by positivity) hch
  have piw : 0 < iw := lt_of_lt_of_le (by positivity) hiw
  have pih : 0 < ih := lt_of_lt_of_le (by positivity) hih
  obtain ⟨x1, x2, x3⟩ := cover_axis_f64 cw iw (max (fl (cw / iw)) (fl (ch / ih))) pcw piw
    (le_max_left _ _)
  obtain ⟨y1, y2, y3⟩ := cover_axis_f64 ch ih (max (fl (cw / iw)) (fl (ch / ih))) pch pih
    (le_max_right _ _)
  have hax : |fl (iw * max (fl (cw / iw)) (fl (ch / ih))) - cw| ≤ cw / 2 ^ 51 ∨
      |fl (ih * max (fl (cw / iw)) (fl (ch / ih))) - ch| ≤ ch / 2 ^ 51 := by
    rcases max_choice (fl (cw / iw)) (fl (ch / ih)) with h | h
    · left; rw [h]; exact cover_axis_eq_f64 cw iw pcw piw
    · right; rw [h]; exact cover_axis_eq_f64 ch ih pch pih
  refine ⟨⟨max (fl (cw / iw)) (fl (ch / ih)),
    fl (fl (cw - fl (iw * max (fl (cw / iw)) (fl (ch / ih)))) / 2),
    fl (fl (ch - fl (ih * max (fl (cw / iw)) (fl (ch / ih)))) / 2)⟩,
    ?_, rfl, rfl, x1, y1, x2, y2, x3, y3, hax⟩
  simp only [getCoverTransformF64, piw.ne', pih.ne', or_self, if_false]

theorem cover_corners_cover_viewport_f64_witness :
    ∃ T, getCoverTransformF64 1920 1080 537 537 = some T ∧
      imgPxToScreenPxF64 ⟨537, 0⟩ T =
        ⟨(imgPxToScreenPxF64 ⟨537, 537⟩ T).x, (imgPxToScreenPxF64 ⟨0, 0⟩ T).y⟩ ∧
      imgPxToScreenPxF64 ⟨0, 537⟩ T =
        ⟨(imgPxToScreenPxF64 ⟨0, 0⟩ T).x, (imgPxToScreenPxF64 ⟨537, 537⟩ T).y⟩ ∧
      T.offsetX ≤ 1920 / 2 ^ 52 ∧ T.offsetY ≤ 1080 / 2 ^ 52 ∧
      (imgPxToScreenPxF64 ⟨0, 0⟩ T).x ≤ 1920 / 2 ^ 52 ∧
      (imgPxToScreenPxF64 ⟨0, 0⟩ T).y ≤ 1080 / 2 ^ 52 ∧
      1920 - 1920 / 2 ^ 51 ≤ (imgPxToScreenPxF64 ⟨537, 537⟩ T).x ∧
      1080 - 1080 / 2 ^ 51 ≤ (imgPxToScreenPxF64 ⟨537, 537⟩ T).y ∧
      (|fl (537 * T.s) - 1920| ≤ 1920 / 2 ^ 51 ∨ |fl (537 * T.s) - 1080| ≤ 1080 / 2 ^ 51) :=
  cover_corners_cover_viewport_f64 1920 1080 537 537 (by norm_num) (by norm_num)
    (by norm_num) (by norm_num) (by norm_num) (by norm_num) (by norm_num) (by norm_num)

/-! ## `solveLinearSystem` in double precision -/

theorem solveLinearSystemF64_eq (A : List (List ℚ)) (b : List ℚ) (hA : Shape A 8 8)
    (h8 : gaussLoopF64 (augment A b) 8 9 8 = gaussLoop (augment A b) 8 9 8) :
    solveLinearSystemF64 A b = solveLinearSystem A b := by
  have hs := shape_augment A b 8 hA
  have hm : ((augment A b).getD 0 []).length = 9 := hs.2 0 (by norm_num)
  unfold solveLinearSystemF64 solveLinearSystem
  simp only [hA.1, hm]
  rw [h8]

theorem trivialKernel_nearSingularMatrix : TrivialKernel nearSingularMatrix 8 := by
  intro y hy c hc
  have h0 := hy 0 (by norm_num)
  have h1 := hy 1 (by norm_num)
  have h2 := hy 2 (by norm_num)
  have h3 := hy 3 (by norm_num)
  have h4 := hy 4 (by norm_num)
  have h5 := hy 5 (by norm_num)
  have h6 := hy 6 (by norm_num)
  have h7 := hy 7 (by norm_num)
  simp only [Finset.sum_range_succ, Finset.sum_range_zero, ent, nearSingularMatrix,
    List.getD_cons_zero, List.getD_cons_succ] at h0 h1 h2 h3 h4 h5 h6 h7
  interval_cases c <;> linarith

/-- C11 fails in double precision.  The matrix `[[3, 1], [1, t]]`, with `t` the
double nearest to `1/3`, extended by the identity, has entries that are
doubles and the determinant `3 t - 1 = -2^-54`, not zero.  With the right-hand
side `(1, 0, ..., 0)`, column 0 leaves `t - 1 * t = 0` in row 1, so the pivot of
column 1 is zero, the fallback `1e-12` is the denominator, and the result `x`
has `3 x0 + x1 = 32767/32768`, not 1. -/
theorem solveLinearSystemF64_near_singular :
    Shape nearSingularMatrix 8 8 ∧
    (toMatrix nearSingularMatrix).det ≠ 0 ∧
    (∀ row ∈ nearSingularMatrix, ∀ x ∈ row, fl x = x) ∧
    pivotEntryF64 (augment nearSingularMatrix [1, 0, 0, 0, 0, 0, 0, 0]) 8 9 1 = 0 ∧
    pivotDenomF64
        (swapRows (gaussLoopF64 (augment nearSingularMatrix [1, 0, 0, 0, 0, 0, 0, 0]) 8 9 1) 1
          (findPivot (gaussLoopF64 (augment nearSingularMatrix [1, 0, 0, 0, 0, 0, 0, 0]) 8 9 1)
            8 1)) 1 = fl 1e-12 ∧
    solveLinearSystemF64 nearSingularMatrix [1, 0, 0, 0, 0, 0, 0, 0] =
      [3640888888899811 / 32768, -5461333333333333 / 16384, 0, 0, 0, 0, 0, 0] ∧
    ∑ c ∈ Finset.range 8, ent nearSingularMatrix 0 c *
        (solveLinearSystemF64 nearSingularMatrix [1, 0, 0, 0, 0, 0, 0, 0]).getD c 0 =
      32767 / 32768 ∧
    ¬ (∀ r, r < 8 → ∑ c ∈ Finset.range 8, ent nearSingularMatrix r c *
        (solveLinearSystemF64 nearSingularMatrix [1, 0, 0, 0, 0, 0, 0, 0]).getD c 0 =
      ([1, 0, 0, 0, 0, 0, 0, 0] : List ℚ).getD r 0) := by
  have hx : solveLinearSystemF64 nearSingularMatrix [1, 0, 0, 0, 0, 0, 0, 0] =
      [3640888888899811 / 32768, -5461333333333333 / 16384, 0, 0, 0, 0, 0, 0] := by
    decide!
  have hsum : ∑ c ∈ Finset.range 8, ent nearSingularMatrix 0 c *
        (solveLinearSystemF64 nearSingularMatrix [1, 0, 0, 0, 0, 0, 0, 0]).getD c 0 =
      32767 / 32768 := by
    rw [hx]
    simp only [Finset.sum_range_succ, Finset.sum_range_zero, ent, nearSingularMatrix,
      List.getD_cons_zero, List.getD_cons_succ]
    norm_num
  refine ⟨⟨rfl, fun r hr => ?_⟩,
    det_ne_zero_of_trivialKernel _ trivialKernel_nearSingularMatrix,
    by decide!, by decide!, by decide!, hx, hsum, ?_⟩
  · interval_cases r <;> rfl
  · intro h
    have h0 := h 0 (by norm_num)
    rw [hsum] at h0
    norm_num at h0

/-- C11, as the code has it in double precision: for an 8 x 8 matrix `A` of
non-zero determinant and a right-hand side `b` of length 8 on which the run in
double precision passes through the same matrix as exact arithmetic after each
of the 8 columns (no rounding error is left by any column), the entries staying
zero or between `2^-300` and `2^300` in magnitude (no overflow or underflow),
`solveLinearSystem(A, b)` returns a vector `x` of length 8 with `A x = b`.  At
each column the pivot row is a row at or below the diagonal with the largest
absolute entry, the pivot `M[col][col]` is non-zero, and the denominator is
that pivot: the fallback `1e-12` is not taken. -/
theorem solveLinearSystemF64_correct (A : List (List ℚ)) (b : List ℚ)
    (hA : Shape A 8 8) (hb : b.length = 8) (hdet : (toMatrix A).det ≠ 0)
    (hexact : ∀ k, k ≤ 8 →
      gaussLoopF64 (augment A b) 8 9 k = gaussLoop (augment A b) 8 9 k)
    (_hrange : ∀ k, k ≤ 8 → ModerateEntries (gaussLoopF64 (augment A b) 8 9 k)) :
    (solveLinearSystemF64 A b).length = 8 ∧
    (toMatrix A).mulVec (fun i => (solveLinearSystemF64 A b).getD i 0) =
      (fun i : Fin 8 => b.getD i 0) ∧
    (∀ r, r < 8 →
      ∑ c ∈ Finset.range 8, ent A r c * (solveLinearSystemF64 A b).getD c 0 = b.getD r 0) ∧
    ∀ col, col < 8 →
      col ≤ findPivot (gaussLoopF64 (augment A b) 8 9 col) 8 col ∧
      findPivot (gaussLoopF64 (augment A b) 8 9 col) 8 col < 8 ∧
      (∀ r, col ≤ r → r < 8 →
        |ent (gaussLoopF64 (augment A b) 8 9 col) r col| ≤
          |ent (gaussLoopF64 (augment A b) 8 9 col)
            (findPivot (gaussLoopF64 (augment A b) 8 9 col) 8 col) col|) ∧
      pivotEntryF64 (augment A b) 8 9 col ≠ 0 ∧
      pivotDenomF64 (swapRows (gaussLoopF64 (augment A b) 8 9 col) col
          (findPivot (gaussLoopF64 (augment A b) 8 9 col) 8 col)) col =
        pivotEntryF64 (augment A b) 8 9 col := by
  obtain ⟨hlen, hmul, hsol, _, hpiv⟩ := solveLinearSystem_exact A b hA hb hdet
  have hx := solveLinearSystemF64_eq A b hA (hexact 8 le_rfl)
  rw [hx]
  refine ⟨hlen, hmul, hsol, fun col hcol => ?_⟩
  obtain ⟨p1, p2, p3, p4, _⟩ := hpiv col hcol
  unfold pivotEntryF64
  rw [hexact col (by omega)]
  have p4' : ent (swapRows (gaussLoop (augment A b) 8 9 col) col
      (findPivot (gaussLoop (augment A b) 8 9 col) 8 col)) col col ≠ 0 := p4
  refine ⟨p1, p2, p3, p4', ?_⟩
  unfold pivotDenomF64
  rw [if_pos p4']

set_option maxRecDepth 100000 in
theorem solveLinearSystemF64_correct_witness :
    (solveLinearSystemF64
        (rectMatrix 256 256 ⟨0, 0⟩ ⟨256, 0⟩ ⟨256, 256⟩ ⟨0, 128⟩)
        (rectRhs ⟨0, 0⟩ ⟨256, 0⟩ ⟨256, 256⟩ ⟨0, 128⟩)).length = 8 ∧
    ∀ r, r < 8 →
      ∑ c ∈ Finset.range 8,
        ent (rectMatrix 256 256 ⟨0, 0⟩ ⟨256, 0⟩ ⟨256, 256⟩ ⟨0, 128⟩) r c *
          (solveLinearSystemF64
            (rectMatrix 256 256 ⟨0, 0⟩ ⟨256, 0⟩ ⟨256, 256⟩ ⟨0, 128⟩)
            (rectRhs ⟨0, 0⟩ ⟨256, 0⟩ ⟨256, 256⟩ ⟨0, 128⟩)).getD c 0 =
        (rectRhs ⟨0, 0⟩ ⟨256, 0⟩ ⟨256, 256⟩ ⟨0, 128⟩).getD r 0 :=
  have h := solveLinearSystemF64_correct
    (rectMatrix 256 256 ⟨0, 0⟩ ⟨256, 0⟩ ⟨256, 256⟩ ⟨0, 128⟩)
    (rectRhs ⟨0, 0⟩ ⟨256, 0⟩ ⟨256, 256⟩ ⟨0, 128⟩)
    (shape_rectMatrix _ _ _ _ _ _) rfl
    (det_ne_zero_of_trivialKernel _
      (trivialKernel_rectMatrix 256 256 ⟨0, 0⟩ ⟨256, 0⟩ ⟨256, 256⟩ ⟨0, 128⟩
        (by norm_num) (by norm_num) (by norm_num [cross])))
    (by decide!) (by decide!)
  ⟨h.1, h.2.2.1⟩

/-! ## Homography in double precision -/

theorem computeCssHomographyF64_four (q0 q1 q2 q3 : Point) :
    computeCssHomographyF64 [q0, q1, q2, q3] =
      (solveHomographyF64
          [⟨0, 0⟩, ⟨canonicalWidthF64 q0 q1 q2 q3, 0⟩,
           ⟨canonicalWidthF64 q0 q1 q2 q3, canonicalHeightF64 q0 q1 q2 q3⟩,
           ⟨0, canonicalHeightF64 q0 q1 q2 q3⟩] [q0, q1, q2, q3]).map
      (fun H =>
        { matrix3d := matrix3dEntriesF64 H,
          width := canonicalWidthF64 q0 q1 q2 q3,
          height := canonicalHeightF64 q0 q1 q2 q3 }) :=
  rfl

theorem solveHomographyF64_rect (w h : ℚ) (q0 q1 q2 q3 : Point) :
    solveHomographyF64 [⟨0, 0⟩, ⟨w, 0⟩, ⟨w, h⟩, ⟨0, h⟩] [q0, q1, q2, q3] =
      some [[(solveLinearSystemF64 (rectMatrixF64 w h q0 q1 q2 q3)
               (rectRhs q0 q1 q2 q3)).getD 0 0,
             (solveLinearSystemF64 (rectMatrixF64 w h q0 q1 q2 q3)
               (rectRhs q0 q1 q2 q3)).getD 1 0,
             (solveLinearSystemF64 (rectMatrixF64 w h q0 q1 q2 q3)
               (rectRhs q0 q1 q2 q3)).getD 2 0],
            [(solveLinearSystemF64 (rectMatrixF64 w h q0 q1 q2 q3)
               (rectRhs q0 q1 q2 q3)).getD 3 0,
             (solveLinearSystemF64 (rectMatrixF64 w h q0 q1 q2 q3)
               (rectRhs q0 q1 q2 q3)).getD 4 0,
             (solveLinearSystemF64 (rectMatrixF64 w h q0 q1 q2 q3)
               (rectRhs q0 q1 q2 q3)).getD 5 0],
            [(solveLinearSystemF64 (rectMatrixF64 w h q0 q1 q2 q3)
               (rectRhs q0 q1 q2 q3)).getD 6 0,
             (solveLinearSystemF64 (rectMatrixF64 w h q0 q1 q2 q3)
               (rectRhs q0 q1 q2 q3)).getD 7 0,
             1]] := rfl

/-- The square of C5 in double precision: every operation of the run is exact,
and the result is that of exact arithmetic. -/
theorem square_computeCssHomographyF64 :
    computeCssHomographyF64 [⟨100, 100⟩, ⟨300, 100⟩, ⟨300, 300⟩, ⟨100, 300⟩] =
      some { matrix3d := [1, 0, 0, 0, 0, 1, 0, 0, 0, 0, 1, 0, 100, 100, 0, 1],
             width := 200, height := 200 } ∧
    solveHomographyF64 [⟨0, 0⟩, ⟨200, 0⟩, ⟨200, 200⟩, ⟨0, 200⟩]
        [⟨100, 100⟩, ⟨300, 100⟩, ⟨300, 300⟩, ⟨100, 300⟩] =
      some [[1, 0, 100], [0, 1, 100], [0, 0, 1]] := by
  decide!

/-- C4 fails in double precision, in two ways.  The quad
`[(0,0),(200,0),(400,0),(0,200)]` has the positive area 40000 and three
collinear corners: `computeCssHomography` gives it the width 400 and the height
200, `solveHomography` returns `[[1,0,0],[0,0,0],[g,h,1]]` with `g` and `h` the
doubles nearest to `1/400` and `-1/200`, and at the canonical corner `(0,200)`
both numerators are zero (the denominator `g*0 + h*200 + 1` is zero when it is
evaluated in double precision), so the corner is not sent to `(0,200)`.  The
quad `[(0,0),(200,0),(200,200),(0,100)]` has no three collinear corners:
`solveHomography` returns `[[1/2,0,0],[0,1/2,0],[g,0,1]]` with `g` the double
nearest to `-1/400`, for which `g*200 + 1` is not `1/2`, so the canonical
corner `(200,0)` is sent to a point other than `(200,0)`. -/
theorem quad_not_mapped_f64 :
    quadArea ⟨0, 0⟩ ⟨200, 0⟩ ⟨400, 0⟩ ⟨0, 200⟩ = 40000 ∧
    (∃ R, computeCssHomographyF64 [⟨0, 0⟩, ⟨200, 0⟩, ⟨400, 0⟩, ⟨0, 200⟩] = some R ∧
      R.width = 400 ∧ R.height = 200) ∧
    solveHomographyF64 [⟨0, 0⟩, ⟨400, 0⟩, ⟨400, 200⟩, ⟨0, 200⟩]
        [⟨0, 0⟩, ⟨200, 0⟩, ⟨400, 0⟩, ⟨0, 200⟩] =
      some [[1, 0, 0], [0, 0, 0],
        [5764607523034235 / 2305843009213693952, -5764607523034235 / 1152921504606846976,
          1]] ∧
    fl (fl (fl (5764607523034235 / 2305843009213693952 * 0) +
      fl (-5764607523034235 / 1152921504606846976 * 200)) + 1) = 0 ∧
    ¬ MapsTo [[1, 0, 0], [0, 0, 0],
        [5764607523034235 / 2305843009213693952, -5764607523034235 / 1152921504606846976,
          1]] ⟨0, 200⟩ ⟨0, 200⟩ ∧
    quadArea ⟨0, 0⟩ ⟨200, 0⟩ ⟨200, 200⟩ ⟨0, 100⟩ = 30000 ∧
    (cross ⟨0, 0⟩ ⟨200, 0⟩ ⟨200, 200⟩ ≠ 0 ∧ cross ⟨0, 0⟩ ⟨200, 0⟩ ⟨0, 100⟩ ≠ 0 ∧
      cross ⟨0, 0⟩ ⟨200, 200⟩ ⟨0, 100⟩ ≠ 0 ∧ cross ⟨200, 0⟩ ⟨200, 200⟩ ⟨0, 100⟩ ≠ 0) ∧
    (∃ R, computeCssHomographyF64 [⟨0, 0⟩, ⟨200, 0⟩, ⟨200, 200⟩, ⟨0, 100⟩] = some R ∧
      R.width = 200 ∧ R.height = 200) ∧
    solveHomographyF64 [⟨0, 0⟩, ⟨200, 0⟩, ⟨200, 200⟩, ⟨0, 200⟩]
        [⟨0, 0⟩, ⟨200, 0⟩, ⟨200, 200⟩, ⟨0, 100⟩] =
      some [[1 / 2, 0, 0], [0, 1 / 2, 0], [-5764607523034235 / 2305843009213693952, 0, 1]] ∧
    ¬ MapsTo [[1 / 2, 0, 0], [0, 1 / 2, 0], [-5764607523034235 / 2305843009213693952, 0, 1]]
        ⟨200, 0⟩ ⟨200, 0⟩ := by
  refine ⟨by decide!, ?_, by decide!, by decide!, ?_, by decide!,
    ⟨by decide!, by decide!, by decide!, by decide!⟩, ?_, by decide!, ?_⟩
  · rw [computeCssHomographyF64_four]
    have hw : canonicalWidthF64 ⟨0, 0⟩ ⟨200, 0⟩ ⟨400, 0⟩ ⟨0, 200⟩ = 400 := by decide!
    have hh : canonicalHeightF64 ⟨0, 0⟩ ⟨200, 0⟩ ⟨400, 0⟩ ⟨0, 200⟩ = 200 := by decide!
    rw [hw, hh, solveHomographyF64_rect]
    exact ⟨_, rfl, rfl, rfl⟩
  · unfold MapsTo
    decide!
  · rw [computeCssHomographyF64_four]
    have hw : canonicalWidthF64 ⟨0, 0⟩ ⟨200, 0⟩ ⟨200, 200⟩ ⟨0, 100⟩ = 200 := by decide!
    have hh : canonicalHeightF64 ⟨0, 0⟩ ⟨200, 0⟩ ⟨200, 200⟩ ⟨0, 100⟩ = 200 := by decide!
    rw [hw, hh, solveHomographyF64_rect]
    exact ⟨_, rfl, rfl, rfl⟩
  · unfold MapsTo
    decide!

/-- C4, as the code has it in double precision: for every destination quad no
three corners of which are collinear, for which the width `w` and the height
`h` of `computeCssHomography` are computed without rounding error and
`solveHomography` returns in double precision the matrix
`H = [[a,b,c],[d,e,f],[g,h,1]]` that it returns in exact arithmetic, the entries
of the elimination staying zero or between `2^-300` and `2^300` in magnitude
(no overflow or underflow), `H` sends each canonical corner
`(0,0), (w,0), (w,h), (0,h)` to the destination corner of the same index,
`u = (a x + b y + c)/(g x + h y + 1)` and `v = (d x + e y + f)/(g x + h y + 1)`,
every denominator being non-zero. -/
theorem computeCssHomographyF64_maps_corners (q0 q1 q2 q3 : Point)
    (h012 : cross q0 q1 q2 ≠ 0) (h013 : cross q0 q1 q3 ≠ 0)
    (h023 : cross q0 q2 q3 ≠ 0) (h123 : cross q1 q2 q3 ≠ 0)
    (hw : canonicalWidthF64 q0 q1 q2 q3 = canonicalWidth q0 q1 q2 q3)
    (hh : canonicalHeightF64 q0 q1 q2 q3 = canonicalHeight q0 q1 q2 q3)
    (hrun : solveHomographyF64 (canonicalSrc q0 q1 q2 q3) [q0, q1, q2, q3] =
      solveHomography (canonicalSrc q0 q1 q2 q3) [q0, q1, q2, q3])
    (_hrange : ∀ k, k ≤ 8 → ModerateEntries
      (gaussLoopF64
        (augment
          (rectMatrixF64 (canonicalWidth q0 q1 q2 q3) (canonicalHeight q0 q1 q2 q3)
            q0 q1 q2 q3)
          (rectRhs q0 q1 q2 q3)) 8 9 k)) :
    ∃ R H, computeCssHomographyF64 [q0, q1, q2, q3] = some R ∧
      solveHomographyF64 [⟨0, 0⟩, ⟨R.width, 0⟩, ⟨R.width, R.height⟩, ⟨0, R.height⟩]
        [q0, q1, q2, q3] = some H ∧
      R.matrix3d = matrix3dEntriesF64 H ∧ ent H 2 2 = 1 ∧
      ent H 2 0 * R.width + 1 ≠ 0 ∧
      ent H 2 0 * R.width + ent H 2 1 * R.height + 1 ≠ 0 ∧
      ent H 2 1 * R.height + 1 ≠ 0 ∧
      MapsTo H ⟨0, 0⟩ q0 ∧ MapsTo H ⟨R.width, 0⟩ q1 ∧
      MapsTo H ⟨R.width, R.height⟩ q2 ∧ MapsTo H ⟨0, R.height⟩ q3 := by
  obtain ⟨H, hH, hrest⟩ := solveHomography_rect_maps
    (canonicalWidth q0 q1 q2 q3) (canonicalHeight q0 q1 q2 q3)
    q0 q1 q2 q3 (canonicalWidth_ne_zero _ _ _ _) (canonicalHeight_ne_zero _ _ _ _)
    h012 h013 h023 h123
  have hH' : solveHomographyF64 (canonicalSrc q0 q1 q2 q3) [q0, q1, q2, q3] = some H := by
    rw [hrun]
    exact hH
  refine ⟨{ matrix3d := matrix3dEntriesF64 H, width := canonicalWidth q0 q1 q2 q3,
            height := canonicalHeight q0 q1 q2 q3 }, H, ?_, hH', rfl, hrest⟩
  rw [computeCssHomographyF64_four, hw, hh]
  unfold canonicalSrc at hH'
  rw [hH', Option.map_some']

set_option maxRecDepth 100000 in
theorem computeCssHomographyF64_maps_corners_witness :
    ∃ R H, computeCssHomographyF64 [⟨0, 0⟩, ⟨256, 0⟩, ⟨256, 256⟩, ⟨0, 128⟩] = some R ∧
      solveHomographyF64 [⟨0, 0⟩, ⟨R.width, 0⟩, ⟨R.width, R.height⟩, ⟨0, R.height⟩]
        [⟨0, 0⟩, ⟨256, 0⟩, ⟨256, 256⟩, ⟨0, 128⟩] = some H ∧
      R.matrix3d = matrix3dEntriesF64 H ∧ ent H 2 2 = 1 ∧
      ent H 2 0 * R.width + 1 ≠ 0 ∧
      ent H 2 0 * R.width + ent H 2 1 * R.height + 1 ≠ 0 ∧
      ent H 2 1 * R.height + 1 ≠ 0 ∧
      MapsTo H ⟨0, 0⟩ ⟨0, 0⟩ ∧ MapsTo H ⟨R.width, 0⟩ ⟨256, 0⟩ ∧
      MapsTo H ⟨R.width, R.height⟩ ⟨256, 256⟩ ∧ MapsTo H ⟨0, R.height⟩ ⟨0, 128⟩ :=
  computeCssHomographyF64_maps_corners ⟨0, 0⟩ ⟨256, 0⟩ ⟨256, 256⟩ ⟨0, 128⟩
    (by norm_num [cross]) (by norm_num [cross]) (by norm_num [cross]) (by norm_num [cross])
    (by decide!) (by decide!) (by decide!) (by decide!)

end AppJs
